import Mathlib

/-! Pintos virtual-memory core: frame table and supplemental page table.

A shallow embedding of `src/vm/frame.c` and `src/vm/page.c`.

The kernel state is passed explicitly.  Pointers that may be `NULL` are
`Option`s.  A function that may fail to return (a failed `ASSERT`, a
dereference of `NULL`, a kernel `PANIC`, or a loop that runs out of fuel)
returns `Option`, with `none` standing for "does not return".

Threads are identified by a number; `thread->pagedir` and
`thread->page_table` are the rows of `State.pagedir` and `State.page_table`
at that number.  `page.c` keeps its table in one static variable and
`page_find` takes only the address there, while the call in `frame_evict`
passes the table of the frame's thread; the embedding follows the call and
indexes the table by thread.  An entry is keyed by its `addr` field, so
the key stands for that field.
-/

namespace Pintos

/-- Modelled from the spec: the page size of `threads/vaddr.h`, which is not
part of the sources at hand. -/
def PGSIZE : Nat := 4096

/-- The record `struct frame` of `vm/frame.h`: owning thread, kernel address of
the physical page, and user virtual page. -/
structure frame where
  thread : Nat
  addr : Nat
  upage : Nat
  deriving DecidableEq, Repr

/-- The record `struct page` of `vm/page.h` without its `addr` key and its
hash element. -/
structure page where
  file : Option Nat
  file_ofs : Nat
  file_read_bytes : Nat
  file_writable : Bool
  valid : Bool
  loaded : Bool
  swap_idx : Nat
  deriving DecidableEq, Repr

/-- Modelled from the spec: one entry of the hardware page table
(`userprog/pagedir.c` is not part of the sources at hand). -/
structure pte where
  kpage : Nat
  writable : Bool
  accessed : Bool
  dirty : Bool
  deriving DecidableEq, Repr

/-- The kernel state the two files read and write. -/
structure State where
  /-- The list `frame_table` of `frame.c`, head first. -/
  frame_table : List frame
  /-- The supplemental page table of every thread. -/
  page_table : Nat → Nat → Option page
  /-- The hardware page table of every thread. -/
  pagedir : Nat → Nat → Option pte
  /-- Whether the hardware page table of a thread can take a new entry at an
  address (it cannot when no memory is left for a page-table page). -/
  pt_room : Nat → Nat → Bool
  /-- The free pages of the user pool. -/
  pool : List Nat
  /-- The bytes of every physical page. -/
  mem : Nat → Nat → Nat
  /-- The number of swap slots. -/
  swap_size : Nat
  /-- The contents of the swap slots in use. -/
  swap_slots : Nat → Option (Nat → Nat)
  /-- The bytes of every open file. -/
  files : Nat → List Nat

/-! ## The collaborators, modelled at their interface -/

/-- Modelled from the spec: `palloc_get_page (PAL_USER | flags)` of
`threads/palloc.c`; `zero` is the flag `PAL_ZERO`.  Returns `NULL` when the
pool is exhausted. -/
def palloc_get_page (zero : Bool) (s : State) : Option Nat × State :=
  match s.pool with
  | [] => (none, s)
  | p :: rest =>
    (some p, { s with
      pool := rest
      mem := fun q => if q = p ∧ zero = true then (fun _ => 0) else s.mem q })

/-- Modelled from the spec: `palloc_free_page` of `threads/palloc.c`. -/
def palloc_free_page (p : Nat) (s : State) : State :=
  { s with pool := p :: s.pool }

/-- Modelled from the spec: `pagedir_get_page`, the frame mapped at a user
address or `NULL`. -/
def pagedir_get_page (s : State) (t upage : Nat) : Option Nat :=
  (s.pagedir t upage).map (fun e => e.kpage)

/-- Modelled from the spec: `pagedir_is_accessed`. -/
def pagedir_is_accessed (s : State) (t upage : Nat) : Bool :=
  match s.pagedir t upage with
  | some e => e.accessed
  | none => false

/-- Modelled from the spec: `pagedir_is_dirty`. -/
def pagedir_is_dirty (s : State) (t upage : Nat) : Bool :=
  match s.pagedir t upage with
  | some e => e.dirty
  | none => false

/-- Modelled from the spec: `pagedir_set_accessed`. -/
def pagedir_set_accessed (s : State) (t upage : Nat) (b : Bool) : State :=
  { s with pagedir := fun t1 u1 =>
      if t1 = t ∧ u1 = upage then (s.pagedir t upage).map (fun e => { e with accessed := b })
      else s.pagedir t1 u1 }

/-- Modelled from the spec: `pagedir_set_dirty`. -/
def pagedir_set_dirty (s : State) (t upage : Nat) (b : Bool) : State :=
  { s with pagedir := fun t1 u1 =>
      if t1 = t ∧ u1 = upage then (s.pagedir t upage).map (fun e => { e with dirty := b })
      else s.pagedir t1 u1 }

/-- Modelled from the spec: `pagedir_set_page`, which installs a mapping with
both hardware bits clear and fails when the address is mapped already or no
page-table page can be had. -/
def pagedir_set_page (s : State) (t upage kpage : Nat) (writable : Bool) : Bool × State :=
  if (s.pagedir t upage).isSome then (false, s)
  else if s.pt_room t upage then
    (true, { s with pagedir := fun t1 u1 =>
      if t1 = t ∧ u1 = upage then some ⟨kpage, writable, false, false⟩ else s.pagedir t1 u1 })
  else (false, s)

/-- Modelled from the spec: `pagedir_clear_page`, which unmaps an address. -/
def pagedir_clear_page (s : State) (t upage : Nat) : State :=
  { s with pagedir := fun t1 u1 => if t1 = t ∧ u1 = upage then none else s.pagedir t1 u1 }

/-- Modelled from the spec: `swap_out` of `vm/swap.c`, which writes a physical
page to a free slot and returns the slot's index; a full swap store is fatal. -/
def swap_out (s : State) (kpage : Nat) : Option (Nat × State) :=
  match (List.range s.swap_size).find? (fun i => (s.swap_slots i).isNone) with
  | none => none
  | some i =>
    some (i, { s with swap_slots := fun j => if j = i then some (s.mem kpage) else s.swap_slots j })

/-- Modelled from the spec: `swap_in` of `vm/swap.c`, which reads a slot into a
physical page and releases the slot; reading a slot that holds nothing is
fatal. -/
def swap_in (s : State) (idx kpage : Nat) : Option State :=
  match s.swap_slots idx with
  | none => none
  | some d =>
    some { s with
      mem := fun q => if q = kpage then d else s.mem q
      swap_slots := fun j => if j = idx then none else s.swap_slots j }

/-- Modelled from the spec: `file_read_at` of `filesys/file.c`, which copies
up to `size` bytes found at `ofs` and returns how many it copied. -/
def file_read_at (s : State) (file kpage size ofs : Nat) : Nat × State :=
  let data := ((s.files file).drop ofs).take size
  (data.length, { s with mem := fun q o =>
      if q = kpage ∧ o < data.length then data.getD o 0 else s.mem q o })

/-- The call `memset (kpage + n, 0, PGSIZE - n)` for `n ≤ PGSIZE`. -/
def memset_tail (s : State) (kpage n : Nat) : State :=
  { s with mem := fun q o => if q = kpage ∧ n ≤ o ∧ o < PGSIZE then 0 else s.mem q o }

/-! ## `vm/page.c`: lookup and insertion -/

/-- The function `page_find`: the entry at `address` in the table of thread
`t`, or `NULL`. -/
def page_find (s : State) (t address : Nat) : Option page :=
  s.page_table t address

/-- The function `page_insert` run by thread `cur`.  `fresh` is what `malloc`
returned: the fields the function does not assign keep those values.
`hash_insert` leaves the table alone and returns the old entry when the
address is present, and returns `NULL` after inserting. -/
def page_insert (cur address : Nat) (fresh : page) (s : State) : Option page × State :=
  match s.page_table cur address with
  | some old => (some old, s)
  | none =>
    (none, { s with page_table := fun t a =>
      if t = cur ∧ a = address then some { fresh with file := none, valid := true }
      else s.page_table t a })

/-! ## `vm/frame.c` -/

/-- The loop of `frame_free` over the list: drops the first frame whose `addr`
is `kpage`; `none` when the loop ends without a match. -/
def frame_free_loop (kpage : Nat) : List frame → Option (List frame)
  | [] => none
  | f :: fs =>
    if f.addr = kpage then some fs
    else (frame_free_loop kpage fs).map (fun r => f :: r)

/-- The function `frame_free`. -/
def frame_free (kpage : Nat) (s : State) : State :=
  match frame_free_loop kpage s.frame_table with
  | none => s
  | some fs => palloc_free_page kpage { s with frame_table := fs }

/-- The second-chance loop of `frame_evict` with the cursor at position `i` of
the list: the position of the victim and the state once the accessed bits of
the frames passed over are cleared.  `fuel` bounds the number of frames
inspected. -/
def evict_scan : Nat → State → Nat → Option (Nat × State)
  | 0, _, _ => none
  | fuel + 1, s, i =>
    match s.frame_table[i]? with
    | none => none
    | some f =>
      if pagedir_is_accessed s f.thread f.upage then
        evict_scan fuel (pagedir_set_accessed s f.thread f.upage false)
          (if i + 1 = s.frame_table.length then 0 else i + 1)
      else some (i, s)

/-- What `frame_evict` does once the victim at position `i` is chosen. -/
def evict_victim (zero : Bool) (i : Nat) (s : State) : Option (Option Nat × State) :=
  match s.frame_table[i]? with
  | none => none
  | some f =>
    match page_find s f.thread f.upage with
    | none => none
    | some pg =>
      let upd (p : page) (s1 : State) : State :=
        { s1 with page_table := fun t a =>
            if t = f.thread ∧ a = f.upage then some p else s1.page_table t a }
      let written : Option State :=
        if pagedir_is_dirty s f.thread f.upage then
          match swap_out s f.addr with
          | none => none
          | some (idx, s1) => some (upd { pg with valid := false, swap_idx := idx } s1)
        else some (upd { pg with loaded := false } s)
      match written with
      | none => none
      | some s1 =>
        let s2 := { s1 with frame_table := s1.frame_table.eraseIdx i }
        let s3 := pagedir_clear_page s2 f.thread f.upage
        let s4 := palloc_free_page f.addr s3
        some (palloc_get_page zero s4)

/-- The function `frame_evict`; `zero` is the flag `PAL_ZERO`.  On an empty
list the first `list_entry` reads the list's tail sentinel, which is no
frame.  The loop gets one step more than there are frames. -/
def frame_evict (zero : Bool) (s : State) : Option (Option Nat × State) :=
  match evict_scan (s.frame_table.length + 1) s 0 with
  | none => none
  | some (i, s1) => evict_victim zero i s1

/-- The function `frame_alloc` run by thread `cur`. -/
def frame_alloc (cur upage : Nat) (zero : Bool) (s : State) : Option (Option Nat × State) :=
  let reg (p : Nat) (s1 : State) : State :=
    { s1 with frame_table := s1.frame_table ++ [⟨cur, p, upage⟩] }
  match palloc_get_page zero s with
  | (some p, s1) => some (some p, reg p s1)
  | (none, s1) =>
    match frame_evict zero s1 with
    | none => none
    | some (none, s2) => some (none, s2)
    | some (some p, s2) => some (some p, reg p s2)

/-! ## `vm/page.c`: the three loads

The argument `struct page *page` is the entry at `address` in the table of
thread `tbl`; `cur` is the running thread. -/

/-- The tail shared by the three loads: install the mapping unless the address
is mapped, release the frame on failure. -/
def install (cur address kpage : Nat) (writable : Bool) (s : State) : Bool × State :=
  if pagedir_get_page s cur address = none then
    match pagedir_set_page s cur address kpage writable with
    | (true, s1) => (true, s1)
    | (false, s1) => (false, frame_free kpage s1)
  else (false, frame_free kpage s)

/-- The function `page_load_swap`. -/
def page_load_swap (cur tbl address : Nat) (s : State) : Option (Bool × State) :=
  match s.page_table tbl address with
  | none => none
  | some _ =>
    match frame_alloc cur address false s with
    | none => none
    | some (kpage, s1) =>
      match s1.page_table tbl address with
      | none => none
      | some pg =>
        if pg.valid then none
        else
          match kpage with
          | none => none
          | some k =>
            match swap_in s1 pg.swap_idx k with
            | none => none
            | some s2 =>
              match install cur address k true s2 with
              | (false, s3) => some (false, s3)
              | (true, s3) =>
                let s4 := pagedir_set_dirty s3 cur address true
                let s5 := pagedir_set_accessed s4 cur address true
                some (true, { s5 with
                  page_table := fun t a =>
                    if t = tbl ∧ a = address then some { pg with valid := true }
                    else s5.page_table t a })

/-- The function `page_load_file`.  The entry is read again after
`frame_alloc`, which may have evicted this very page. -/
def page_load_file (cur tbl address : Nat) (s : State) : Option (Bool × State) :=
  match s.page_table tbl address with
  | none => none
  | some pg0 =>
    if pg0.file = none then none
    else
      match frame_alloc cur address (pg0.file_read_bytes == 0) s with
      | none => none
      | some (none, s1) => some (false, s1)
      | some (some k, s1) =>
        match s1.page_table tbl address with
        | none => none
        | some pg =>
          if pg.file_read_bytes > 0 then
            match pg.file with
            | none => none
            | some file =>
              let (n, s2) := file_read_at s1 file k pg.file_read_bytes pg.file_ofs
              if n > PGSIZE then none
              else if pg.file_read_bytes ≠ n then some (false, frame_free k s2)
              else
                match install cur address k pg.file_writable
                    (memset_tail s2 k pg.file_read_bytes) with
                | (false, s3) => some (false, s3)
                | (true, s3) => some (true, pagedir_set_accessed s3 cur address true)
          else
            match install cur address k pg.file_writable s1 with
            | (false, s3) => some (false, s3)
            | (true, s3) => some (true, pagedir_set_accessed s3 cur address true)

/-- The function `page_load_zero`. -/
def page_load_zero (cur tbl address : Nat) (s : State) : Option (Bool × State) :=
  match s.page_table tbl address with
  | none => none
  | some _ =>
    match frame_alloc cur address true s with
    | none => none
    | some (none, s1) => some (false, s1)
    | some (some k, s1) =>
      match install cur address k true s1 with
      | (false, s3) => some (false, s3)
      | (true, s3) => some (true, pagedir_set_accessed s3 cur address true)

/-! ## Auxiliary notions for the statements -/

/-- The pair under which the hardware bits of a frame are looked up. -/
def frame_key (f : frame) : Nat × Nat := (f.thread, f.upage)

/-- The state after the accessed bits of the frames of a list are cleared, one
frame after the other. -/
def clear_accessed : List frame → State → State
  | [], s => s
  | f :: fs, s => clear_accessed fs (pagedir_set_accessed s f.thread f.upage false)

/-- The entry of a hardware page table with its accessed bit cleared. -/
def pte_unaccessed (e : pte) : pte := { e with accessed := false }

/-- The swap store has a slot that holds nothing. -/
def swap_has_room (s : State) : Prop :=
  ∃ i, i < s.swap_size ∧ s.swap_slots i = none

/-- The state `frame_evict` leaves when the frame `f` at position `i` of the
list went, its entry in the supplemental page table became `pg` and the swap
slots became `slots`.  The page released is the page handed out again. -/
def evicted (zero : Bool) (f : frame) (i : Nat) (pg : page)
    (slots : Nat → Option (Nat → Nat)) (s : State) : State :=
  { s with
    frame_table := s.frame_table.eraseIdx i
    page_table := fun t a => if t = f.thread ∧ a = f.upage then some pg else s.page_table t a
    pagedir := fun t u => if t = f.thread ∧ u = f.upage then none else s.pagedir t u
    mem := fun q => if q = f.addr ∧ zero = true then (fun _ => 0) else s.mem q
    swap_slots := slots }


/-! ## Sample states -/

/-- A state with the given frames, hardware page tables, supplemental page
tables and free pages, two empty swap slots and no file. -/
def sample_state (frames : List frame) (pd : Nat → Nat → Option pte)
    (pt : Nat → Nat → Option page) (free : List Nat) : State :=
  { frame_table := frames
    page_table := pt
    pagedir := pd
    pt_room := fun _ _ => true
    pool := free
    mem := fun q o => q + o
    swap_size := 2
    swap_slots := fun _ => none
    files := fun _ => [] }

/-- An anonymous entry of a supplemental page table. -/
def anon_page : page := ⟨none, 0, 0, false, true, true, 7⟩

/-- An entry of a supplemental page table backed by file 3. -/
def file_page : page := ⟨some 3, 0, 16, true, true, true, 7⟩

/-- Thread 1 owns three frames for the pages 10, 20 and 30; only page 20 has
its accessed bit clear, and it is dirty. -/
def three_frames : State :=
  sample_state [⟨1, 100, 10⟩, ⟨1, 101, 20⟩, ⟨1, 102, 30⟩]
    (fun t u =>
      if t = 1 ∧ u = 10 then some ⟨100, true, true, false⟩
      else if t = 1 ∧ u = 20 then some ⟨101, true, false, true⟩
      else if t = 1 ∧ u = 30 then some ⟨102, true, true, false⟩
      else none)
    (fun t a => if t = 1 ∧ (a = 10 ∨ a = 20 ∨ a = 30) then some anon_page else none)
    []

/-- Thread 1 owns two frames for the pages 10 and 20; page 10, at the head of
the list, has its accessed bit clear and is clean, page 20 has it set. -/
def two_frames : State :=
  sample_state [⟨1, 100, 10⟩, ⟨1, 101, 20⟩]
    (fun t u =>
      if t = 1 ∧ u = 10 then some ⟨100, true, false, false⟩
      else if t = 1 ∧ u = 20 then some ⟨101, true, true, false⟩
      else none)
    (fun t a => if t = 1 ∧ a = 10 then some anon_page
      else if t = 1 ∧ a = 20 then some file_page else none)
    []

/-- Thread 1 owns three frames, two of them for the same page 10, whose
accessed bit is set; only page 20 has its accessed bit clear. -/
def shared_key_frames : State :=
  sample_state [⟨1, 100, 10⟩, ⟨1, 101, 10⟩, ⟨1, 102, 20⟩]
    (fun t u =>
      if t = 1 ∧ u = 10 then some ⟨100, true, true, false⟩
      else if t = 1 ∧ u = 20 then some ⟨102, true, false, false⟩
      else none)
    (fun t a => if t = 1 ∧ (a = 10 ∨ a = 20) then some anon_page else none)
    []

/-- Thread 1 owns one frame for the file-backed page 20, clean and not
accessed. -/
def one_file_frame : State :=
  sample_state [⟨1, 101, 20⟩]
    (fun t u => if t = 1 ∧ u = 20 then some ⟨101, true, false, false⟩ else none)
    (fun t a => if t = 1 ∧ a = 20 then some file_page else none)
    []

/-- The state of `sample_state` with no frame, no mapping, no entry and the one
free page 200. -/
def one_free_page : State :=
  sample_state [] (fun _ _ => none) (fun _ _ => none) [200]

/-- The state `three_frames` after thread 1 allocated a frame for page 40. -/
def three_frames_alloc : State :=
  match frame_alloc 1 40 false three_frames with
  | some (_, s) => s
  | none => three_frames

/-- The state `one_free_page` after thread 1 got the page 200 for its page 10,
registered the page in its supplemental page table, mapped it and wrote to
it. -/
def one_page_mapped : State :=
  sample_state [⟨1, 200, 10⟩]
    (fun t u => if t = 1 ∧ u = 10 then some ⟨200, true, true, true⟩ else none)
    (fun t a => if t = 1 ∧ a = 10 then some anon_page else none)
    []

/-! ## Invariants -/

/-- The frame invariant: the hardware page table of every frame's thread maps
the frame's `upage` to the frame's `addr`, and no two frames record the same
(thread, upage) pair. -/
def frame_inv (s : State) : Prop :=
  (∀ f ∈ s.frame_table, pagedir_get_page s f.thread f.upage = some f.addr) ∧
  (s.frame_table.map frame_key).Nodup

/-- The frame table and the allocator agree: no two frames record the same
physical page, no frame's page is free, and no page is free twice. -/
def alloc_ok (s : State) : Prop :=
  (s.frame_table.map (fun f => f.addr)).Nodup ∧
  (∀ f ∈ s.frame_table, f.addr ∉ s.pool) ∧
  s.pool.Nodup

/-- The state between `frame_alloc` and the installation of the mapping: the
frame `(cur, k, upage)` is registered last, the frames before it satisfy the
frame invariant, and the frame table and the allocator agree. -/
def alloc_pending (cur k upage : Nat) (s : State) : Prop :=
  ∃ old, s.frame_table = old ++ [⟨cur, k, upage⟩] ∧
    frame_inv { s with frame_table := old } ∧ alloc_ok s

/-- No swapped-out page is mapped: an entry whose `valid` flag is false has no
mapping at its address in the hardware page table of its thread. -/
def swapped_unmapped (s : State) : Prop :=
  ∀ t a e, s.page_table t a = some e → e.valid = false → pagedir_get_page s t a = none

/-- The states the subsystem goes through, from empty tables and a pool that
lists no page twice: `page_insert`,
the three loads called by the thread that owns the page (`page_load_zero` and
`page_load_file` for an entry that is valid and whose address is unmapped, as
on a page fault), `frame_evict`, `frame_free`, and the hardware setting the
accessed bit on a read and the accessed and dirty bits on a write. -/
inductive Reach : State → Prop
  | init (s : State) : s.frame_table = [] → (∀ t a, s.page_table t a = none) →
      s.pool.Nodup → Reach s
  | insert (s : State) (cur a : Nat) (fresh : page) : Reach s →
      Reach (page_insert cur a fresh s).2
  | load_zero (s : State) (cur a : Nat) (b : Bool) (s1 : State) : Reach s →
      (∃ e, s.page_table cur a = some e ∧ e.valid = true) →
      pagedir_get_page s cur a = none →
      page_load_zero cur cur a s = some (b, s1) → Reach s1
  | load_file (s : State) (cur a : Nat) (b : Bool) (s1 : State) : Reach s →
      (∃ e, s.page_table cur a = some e ∧ e.valid = true) →
      pagedir_get_page s cur a = none →
      page_load_file cur cur a s = some (b, s1) → Reach s1
  | load_swap (s : State) (cur a : Nat) (b : Bool) (s1 : State) : Reach s →
      page_load_swap cur cur a s = some (b, s1) → Reach s1
  | evict (s : State) (zero : Bool) (r : Option Nat) (s1 : State) : Reach s →
      frame_evict zero s = some (r, s1) → Reach s1
  | free (s : State) (a : Nat) : Reach s → Reach (frame_free a s)
  | hw_read (s : State) (t u : Nat) : Reach s → Reach (pagedir_set_accessed s t u true)
  | hw_write (s : State) (t u : Nat) : Reach s →
      Reach (pagedir_set_dirty (pagedir_set_accessed s t u true) t u true)

/-- What `malloc` may hand to `page_insert`: a block with arbitrary contents. -/
def garbage_page : page := ⟨some 5, 1, 2, true, false, true, 9⟩

/-- The state `one_free_page` after thread 1 inserted page 10. -/
def run_inserted : State := (page_insert 1 10 garbage_page one_free_page).2

/-- The state `run_inserted` after thread 1 loaded page 10 with zeros. -/
def run_loaded : State :=
  match page_load_zero 1 1 10 run_inserted with
  | some (_, s) => s
  | none => run_inserted

/-- The state `run_loaded` after thread 1 wrote to page 10. -/
def run_written : State :=
  pagedir_set_dirty (pagedir_set_accessed run_loaded 1 10 true) 1 10 true

/-- The state `run_written` after an eviction. -/
def run_evicted : State :=
  match frame_evict false run_written with
  | some (_, s) => s
  | none => run_written

/-- The state `run_loaded` after an eviction while page 10 is clean. -/
def run_evicted_clean : State :=
  match frame_evict false run_loaded with
  | some (_, s) => s
  | none => run_loaded

/-- The state `one_page_mapped` after thread 1 loaded its page 10 with zeros
once more, which evicts the page first. -/
def one_page_reloaded : State :=
  match page_load_zero 1 1 10 one_page_mapped with
  | some (_, s) => s
  | none => one_page_mapped
/-! ## The loads after `frame_alloc` -/

/-- What `page_load_swap` does once `frame_alloc` has returned `kpage`.  The
function does not test `kpage`: with `NULL` it reaches `swap_in`, which writes
the slot through the null pointer, and the kernel does not return from
that. -/
def page_load_swap_rest (cur tbl address : Nat) (kpage : Option Nat) (s1 : State) :
    Option (Bool × State) :=
  match s1.page_table tbl address with
  | none => none
  | some pg =>
    if pg.valid then none
    else
      match kpage with
      | none => none
      | some k =>
        match swap_in s1 pg.swap_idx k with
        | none => none
        | some s2 =>
          match install cur address k true s2 with
          | (false, s3) => some (false, s3)
          | (true, s3) =>
            let s4 := pagedir_set_dirty s3 cur address true
            let s5 := pagedir_set_accessed s4 cur address true
            some (true, { s5 with
              page_table := fun t a =>
                if t = tbl ∧ a = address then some { pg with valid := true }
                else s5.page_table t a })

/-- What `page_load_file` does once `frame_alloc` has returned `kpage`. -/
def page_load_file_rest (cur tbl address : Nat) (kpage : Option Nat) (s1 : State) :
    Option (Bool × State) :=
  match kpage with
  | none => some (false, s1)
  | some k =>
    match s1.page_table tbl address with
    | none => none
    | some pg =>
      if pg.file_read_bytes > 0 then
        match pg.file with
        | none => none
        | some file =>
          let (n, s2) := file_read_at s1 file k pg.file_read_bytes pg.file_ofs
          if n > PGSIZE then none
          else if pg.file_read_bytes ≠ n then some (false, frame_free k s2)
          else
            match install cur address k pg.file_writable
                (memset_tail s2 k pg.file_read_bytes) with
            | (false, s3) => some (false, s3)
            | (true, s3) => some (true, pagedir_set_accessed s3 cur address true)
      else
        match install cur address k pg.file_writable s1 with
        | (false, s3) => some (false, s3)
        | (true, s3) => some (true, pagedir_set_accessed s3 cur address true)

/-- What `page_load_zero` does once `frame_alloc` has returned `kpage`. -/
def page_load_zero_rest (cur address : Nat) (kpage : Option Nat) (s1 : State) :
    Option (Bool × State) :=
  match kpage with
  | none => some (false, s1)
  | some k =>
    match install cur address k true s1 with
    | (false, s3) => some (false, s3)
    | (true, s3) => some (true, pagedir_set_accessed s3 cur address true)

/-- A run of `page_insert` calls, each with its thread, address and block. -/
def insert_all : List (Nat × Nat × page) → State → State
  | [], s => s
  | (cur, a, fresh) :: l, s => insert_all l (page_insert cur a fresh s).2

/-- The state `three_frames` after an eviction. -/
def three_frames_evicted : State :=
  match frame_evict false three_frames with
  | some (_, s) => s
  | none => three_frames

/-- The number of frames the second-chance loop of `frame_evict` inspects when
started with the cursor at position `i`; `none` when `fuel` inspections do
not bring it to an end. -/
def evict_inspected : Nat → State → Nat → Option Nat
  | 0, _, _ => none
  | fuel + 1, s, i =>
    match s.frame_table[i]? with
    | none => none
    | some f =>
      if pagedir_is_accessed s f.thread f.upage then
        (evict_inspected fuel (pagedir_set_accessed s f.thread f.upage false)
          (if i + 1 = s.frame_table.length then 0 else i + 1)).map (fun k => k + 1)
      else some 1

/-- Thread 1 has its anonymous page 10 swapped out to slot 0, which holds the
bytes `1, 2, 3, ...`; the pages 201 and 202 are free and there is no frame. -/
def swapped_state : State :=
  { sample_state [] (fun _ _ => none)
      (fun t a => if t = 1 ∧ a = 10 then some ⟨none, 0, 0, false, false, true, 0⟩ else none)
      [201, 202] with
    swap_slots := fun j => if j = 0 then some (fun o => o + 1) else none }

/-- The state `swapped_state` after thread 1 loaded page 10 from swap. -/
def swapped_in : State :=
  match page_load_swap 1 1 10 swapped_state with
  | some (_, s) => s
  | none => swapped_state

/-- Thread 1 has registered its page 10, backed by the four bytes at offset 2
of file 3; the page 200 is free, there is no frame, and file 3 holds the bytes
`10, 11, ..., 17`. -/
def file_ready : State :=
  { sample_state [] (fun _ _ => none)
      (fun t a => if t = 1 ∧ a = 10 then some ⟨some 3, 2, 4, false, true, false, 0⟩ else none)
      [200] with
    files := fun f => if f = 3 then [10, 11, 12, 13, 14, 15, 16, 17] else [] }

/-- The state `file_ready` after thread 1 loaded page 10 from its file. -/
def file_loaded : State :=
  match page_load_file 1 1 10 file_ready with
  | some (_, s) => s
  | none => file_ready

/-- The state `file_ready` with page 10 asking for eight bytes at offset 2 of
file 3, which has only six left from there. -/
def file_short : State :=
  { file_ready with
    page_table := fun t a =>
      if t = 1 ∧ a = 10 then some ⟨some 3, 2, 8, false, true, false, 0⟩ else none }

/-- The state `file_short` after `frame_alloc` for page 10. -/
def file_short_alloc : State :=
  match frame_alloc 1 10 false file_short with
  | some (_, s) => s
  | none => file_short

/-- Thread 1 has its page 10 resident and dirty in the only frame, page 200,
and the pool is empty; the entry asks for four bytes at offset 2 of file 3,
which holds eight bytes. -/
def file_resident : State :=
  { sample_state [⟨1, 200, 10⟩]
      (fun t u => if t = 1 ∧ u = 10 then some ⟨200, false, false, true⟩ else none)
      (fun t a => if t = 1 ∧ a = 10 then some ⟨some 3, 2, 4, false, true, false, 0⟩ else none)
      [] with
    files := fun f => if f = 3 then [10, 11, 12, 13, 14, 15, 16, 17] else [] }

/-- The state `file_resident` with the entry asking for eight bytes, two more
than the file has left. -/
def file_resident_short : State :=
  { file_resident with
    page_table := fun t a =>
      if t = 1 ∧ a = 10 then some ⟨some 3, 2, 8, false, true, false, 0⟩ else none }

/-- Every frame's page has an entry in the supplemental page table of the
frame's thread. -/
def frames_registered (s : State) : Prop :=
  ∀ f ∈ s.frame_table, page_find s f.thread f.upage ≠ none

/-- From the first state to the second no frame came in and no entry of a
supplemental page table went away. -/
def shrinks (s s1 : State) : Prop :=
  (∀ f ∈ s1.frame_table, f ∈ s.frame_table) ∧
  (∀ t u, s.page_table t u ≠ none → s1.page_table t u ≠ none)

/-! ## Runs of the subsystem around one page -/

/-- The swap store and the supplemental page tables agree: an entry whose
`valid` flag is false records a slot that is in use, and no two such entries
record the same slot. -/
def swap_inv (s : State) : Prop :=
  ∀ t u e, s.page_table t u = some e → e.valid = false →
    s.swap_slots e.swap_idx ≠ none ∧
    ∀ t1 u1 e1, s.page_table t1 u1 = some e1 → e1.valid = false →
      e1.swap_idx = e.swap_idx → t1 = t ∧ u1 = u

/-- Modelled from the spec: a user process stores the byte `v` at offset `o`
of its page `u`.  When the page is mapped writable the hardware writes the
byte to the frame and sets the accessed and the dirty bit; otherwise the
store faults and nothing changes here. -/
def store_byte (s : State) (t u o v : Nat) : State :=
  match s.pagedir t u with
  | none => s
  | some e =>
    if e.writable then
      { pagedir_set_dirty (pagedir_set_accessed s t u true) t u true with
        mem := fun q x => if q = e.kpage ∧ x = o then v else s.mem q x }
    else s

/-- One step of the subsystem, labelled with the page it loads, if any:
`page_insert`, one of the three loads called by the thread that owns the page,
`frame_evict`, `frame_free`, a read or a store by a user process.  A load from
swap is a step when it succeeds.  One that fails has called `swap_in` before
it found that the mapping cannot be installed, so the slot is released while
the entry still records it; the page-fault handler ends the process then, and
the run of that process's table is over. -/
inductive Step : Option (Nat × Nat) → State → State → Prop
  | insert (s : State) (t u : Nat) (fresh : page) :
      Step none s (page_insert t u fresh s).2
  | load_zero (s : State) (t u : Nat) (b : Bool) (s1 : State) :
      page_load_zero t t u s = some (b, s1) → Step (some (t, u)) s s1
  | load_file (s : State) (t u : Nat) (b : Bool) (s1 : State) :
      page_load_file t t u s = some (b, s1) → Step (some (t, u)) s s1
  | load_swap (s : State) (t u : Nat) (s1 : State) :
      page_load_swap t t u s = some (true, s1) → Step (some (t, u)) s s1
  | evict (s : State) (zero : Bool) (r : Option Nat) (s1 : State) :
      frame_evict zero s = some (r, s1) → Step none s s1
  | free (s : State) (k : Nat) : Step none s (frame_free k s)
  | hw_read (s : State) (t u : Nat) : Step none s (pagedir_set_accessed s t u true)
  | hw_write (s : State) (t u o v : Nat) : Step none s (store_byte s t u o v)

/-- Thread 1 has its anonymous page 10 swapped out to slot 0, which holds the
bytes `1, 2, 3, ...`, and has registered its pages 20 and 30; the pages 201
and 202 are free and there is no frame. -/
def trip_start : State :=
  { sample_state [] (fun _ _ => none)
      (fun t a => if t = 1 ∧ a = 10 then some ⟨none, 0, 0, false, false, true, 0⟩
        else if t = 1 ∧ (a = 20 ∨ a = 30) then some anon_page else none)
      [201, 202] with
    swap_slots := fun j => if j = 0 then some (fun o => o + 1) else none }

/-- The state `trip_start` with no room left in the hardware page tables. -/
def trip_no_room : State := { trip_start with pt_room := fun _ _ => false }

/-- The state `trip_no_room` after thread 1 tried to load page 10 from swap. -/
def trip_no_room_failed : State :=
  match page_load_swap 1 1 10 trip_no_room with
  | some (_, s) => s
  | none => trip_no_room
/-! ## Facts about clearing accessed bits -/

@[simp] theorem clear_accessed_frame_table (L : List frame) (s : State) :
    (clear_accessed L s).frame_table = s.frame_table := by
  induction L generalizing s with
  | nil => rfl
  | cons f fs ih => simp [clear_accessed, ih, pagedir_set_accessed]

@[simp] theorem clear_accessed_page_table (L : List frame) (s : State) :
    (clear_accessed L s).page_table = s.page_table := by
  induction L generalizing s with
  | nil => rfl
  | cons f fs ih => simp [clear_accessed, ih, pagedir_set_accessed]

@[simp] theorem clear_accessed_pt_room (L : List frame) (s : State) :
    (clear_accessed L s).pt_room = s.pt_room := by
  induction L generalizing s with
  | nil => rfl
  | cons f fs ih => simp [clear_accessed, ih, pagedir_set_accessed]

@[simp] theorem clear_accessed_pool (L : List frame) (s : State) :
    (clear_accessed L s).pool = s.pool := by
  induction L generalizing s with
  | nil => rfl
  | cons f fs ih => simp [clear_accessed, ih, pagedir_set_accessed]

@[simp] theorem clear_accessed_mem (L : List frame) (s : State) :
    (clear_accessed L s).mem = s.mem := by
  induction L generalizing s with
  | nil => rfl
  | cons f fs ih => simp [clear_accessed, ih, pagedir_set_accessed]

@[simp] theorem clear_accessed_swap_size (L : List frame) (s : State) :
    (clear_accessed L s).swap_size = s.swap_size := by
  induction L generalizing s with
  | nil => rfl
  | cons f fs ih => simp [clear_accessed, ih, pagedir_set_accessed]

@[simp] theorem clear_accessed_swap_slots (L : List frame) (s : State) :
    (clear_accessed L s).swap_slots = s.swap_slots := by
  induction L generalizing s with
  | nil => rfl
  | cons f fs ih => simp [clear_accessed, ih, pagedir_set_accessed]

@[simp] theorem clear_accessed_files (L : List frame) (s : State) :
    (clear_accessed L s).files = s.files := by
  induction L generalizing s with
  | nil => rfl
  | cons f fs ih => simp [clear_accessed, ih, pagedir_set_accessed]

theorem pte_unaccessed_idem (o : Option pte) :
    (o.map pte_unaccessed).map pte_unaccessed = o.map pte_unaccessed := by
  cases o <;> rfl

theorem frame_key_eq (f : frame) (t u : Nat) :
    (t, u) = frame_key f ↔ (t = f.thread ∧ u = f.upage) := by
  simp [frame_key]

/-- Closed form of the hardware page tables after `clear_accessed`. -/
theorem clear_accessed_pagedir (L : List frame) (s : State) (t u : Nat) :
    (clear_accessed L s).pagedir t u =
      if (t, u) ∈ L.map frame_key then (s.pagedir t u).map pte_unaccessed
      else s.pagedir t u := by
  induction L generalizing s with
  | nil => simp [clear_accessed]
  | cons f fs ih =>
    rw [clear_accessed, ih]
    simp only [List.map_cons, List.mem_cons, frame_key_eq]
    by_cases h1 : t = f.thread ∧ u = f.upage
    · obtain ⟨rfl, rfl⟩ := h1
      by_cases h3 : (f.thread, f.upage) ∈ fs.map frame_key
      · cases h : s.pagedir f.thread f.upage <;>
          simp [h3, h, pagedir_set_accessed, pte_unaccessed]
      · cases h : s.pagedir f.thread f.upage <;>
          simp [h3, h, pagedir_set_accessed, pte_unaccessed]
    · by_cases h3 : (t, u) ∈ fs.map frame_key
      · simp only [h1, h3, pagedir_set_accessed, if_true, if_false, or_true]
      · simp only [h1, h3, pagedir_set_accessed, if_false, or_false]

theorem clear_accessed_get_page (L : List frame) (s : State) (t u : Nat) :
    pagedir_get_page (clear_accessed L s) t u = pagedir_get_page s t u := by
  unfold pagedir_get_page
  rw [clear_accessed_pagedir]
  by_cases h : (t, u) ∈ L.map frame_key
  · rw [if_pos h]
    cases s.pagedir t u <;> rfl
  · rw [if_neg h]

theorem clear_accessed_is_dirty (L : List frame) (s : State) (t u : Nat) :
    pagedir_is_dirty (clear_accessed L s) t u = pagedir_is_dirty s t u := by
  unfold pagedir_is_dirty
  rw [clear_accessed_pagedir]
  by_cases h : (t, u) ∈ L.map frame_key
  · rw [if_pos h]
    cases s.pagedir t u <;> rfl
  · rw [if_neg h]

theorem clear_accessed_is_accessed (L : List frame) (s : State) (t u : Nat) :
    pagedir_is_accessed (clear_accessed L s) t u =
      (pagedir_is_accessed s t u && decide ((t, u) ∉ L.map frame_key)) := by
  unfold pagedir_is_accessed
  rw [clear_accessed_pagedir]
  by_cases h : (t, u) ∈ L.map frame_key
  · simp only [h, if_true, not_true_eq_false, decide_False, Bool.and_false]
    cases s.pagedir t u <;> rfl
  · simp only [h, if_false, not_false_eq_true, decide_True, Bool.and_true]

theorem clear_accessed_append (L M : List frame) (s : State) :
    clear_accessed (L ++ M) s = clear_accessed M (clear_accessed L s) := by
  induction L generalizing s with
  | nil => rfl
  | cons f fs ih => simp [clear_accessed, ih]

/-! ## Facts about the second-chance loop -/

theorem getElem?_middle {α : Type} (xs ys : List α) (x : α) :
    (xs ++ x :: ys)[xs.length]? = some x := by
  rw [List.getElem?_append_right (Nat.le_refl _)]
  simp

theorem eraseIdx_middle {α : Type} (xs ys : List α) (x : α) :
    (xs ++ x :: ys).eraseIdx xs.length = xs ++ ys := by
  rw [List.eraseIdx_append_of_length_le (Nat.le_refl _)]
  simp

/-- A run of the loop that ends has cleared the accessed bits of some frames of
the list and stopped at a frame whose accessed bit is clear. -/
theorem evict_scan_clear : ∀ (fuel : Nat) (s : State) (i j : Nat) (s1 : State),
    evict_scan fuel s i = some (j, s1) →
    ∃ L, s1 = clear_accessed L s ∧ (∀ f ∈ L, f ∈ s.frame_table) ∧
      ∃ v, s.frame_table[j]? = some v ∧ pagedir_is_accessed s1 v.thread v.upage = false := by
  intro fuel
  induction fuel with
  | zero => intro s i j s1 h; simp [evict_scan] at h
  | succ fuel ih =>
    intro s i j s1 h
    rw [evict_scan] at h
    cases hf : s.frame_table[i]? with
    | none => simp [hf] at h
    | some f =>
      simp only [hf] at h
      by_cases ha : pagedir_is_accessed s f.thread f.upage = true
      · rw [if_pos ha] at h
        obtain ⟨L, h1, h2, v, h3, h4⟩ := ih _ _ _ _ h
        refine ⟨f :: L, h1, ?_, v, h3, h4⟩
        intro g hg
        rcases List.mem_cons.mp hg with rfl | hg
        · exact List.getElem?_mem hf
        · exact h2 g hg
      · rw [if_neg ha] at h
        simp only [Option.some.injEq, Prod.mk.injEq] at h
        obtain ⟨rfl, rfl⟩ := h
        exact ⟨[], rfl, by simp, f, hf, by simpa using ha⟩

/-- The loop started at a frame from which a run of accessed frames with
distinct keys leads to a frame whose accessed bit is clear: it stops at that
frame, having cleared the accessed bits of the run. -/
theorem evict_scan_run (rest : List frame) :
    ∀ (done post : List frame) (v : frame) (s : State) (fuel : Nat),
    s.frame_table = done ++ rest ++ v :: post →
    (rest.map frame_key).Nodup →
    (∀ f ∈ rest, pagedir_is_accessed s f.thread f.upage = true) →
    pagedir_is_accessed s v.thread v.upage = false →
    rest.length < fuel →
    evict_scan fuel s done.length = some (done.length + rest.length, clear_accessed rest s) := by
  induction rest with
  | nil =>
    intro done post v s fuel htab _ _ hv hfuel
    obtain ⟨k, rfl⟩ : ∃ k, fuel = k + 1 := ⟨fuel - 1, by simp at hfuel; omega⟩
    have hget : s.frame_table[done.length]? = some v := by
      rw [htab, List.append_nil]; exact getElem?_middle _ _ _
    rw [evict_scan]
    simp [hget, hv, clear_accessed]
  | cons f rest ih =>
    intro done post v s fuel htab hnd hacc hv hfuel
    obtain ⟨k, rfl⟩ : ∃ k, fuel = k + 1 := ⟨fuel - 1, by simp at hfuel; omega⟩
    have hget : s.frame_table[done.length]? = some f := by
      rw [htab, List.append_assoc]; exact getElem?_middle _ _ _
    have hlen : ¬ (done.length + 1 = s.frame_table.length) := by
      simp [htab]
    have hf : pagedir_is_accessed s f.thread f.upage = true := hacc f (by simp)
    rw [evict_scan]
    simp only [hget, hf, if_true, hlen, if_false]
    have hnd' : frame_key f ∉ rest.map frame_key ∧ (rest.map frame_key).Nodup :=
      List.nodup_cons.mp hnd
    have key := ih (done ++ [f]) post v (pagedir_set_accessed s f.thread f.upage false) k
      (by simp [pagedir_set_accessed, htab]) hnd'.2
      (by
        intro g hg
        have h1 : frame_key g ≠ frame_key f := by
          intro h; exact hnd'.1 (h ▸ List.mem_map_of_mem frame_key hg)
        have h2 : ¬ (g.thread = f.thread ∧ g.upage = f.upage) := by
          intro h; apply h1; simp [frame_key, h.1, h.2]
        have h3 := hacc g (by simp [hg])
        simpa [pagedir_is_accessed, pagedir_set_accessed, h2] using h3)
      (by
        by_cases h2 : v.thread = f.thread ∧ v.upage = f.upage
        · simp only [pagedir_is_accessed, pagedir_set_accessed, h2, and_self, if_true]
          cases s.pagedir f.thread f.upage <;> rfl
        · simpa [pagedir_is_accessed, pagedir_set_accessed, h2] using hv)
      (by simp at hfuel; omega)
    have e : (done ++ [f]).length = done.length + 1 := by simp
    rw [e] at key
    rw [key]
    simp only [clear_accessed, List.length_cons, Option.some.injEq, Prod.mk.injEq, and_true]
    omega

/-! ## Facts about the swap store -/

theorem swap_out_some (s s2 : State) (k idx : Nat) (h : swap_out s k = some (idx, s2)) :
    idx < s.swap_size ∧ s.swap_slots idx = none ∧
      s2 = { s with swap_slots := fun j => if j = idx then some (s.mem k) else s.swap_slots j } := by
  unfold swap_out at h
  cases hfd : (List.range s.swap_size).find? (fun i => (s.swap_slots i).isNone) with
  | none => simp [hfd] at h
  | some i =>
    simp only [hfd, Option.some.injEq, Prod.mk.injEq] at h
    obtain ⟨rfl, rfl⟩ := h
    have h1 := List.find?_some hfd
    have h2 := List.mem_of_find?_eq_some hfd
    refine ⟨List.mem_range.mp h2, ?_, rfl⟩
    simpa using h1

theorem swap_out_of_room (s : State) (k : Nat) (h : swap_has_room s) :
    ∃ idx s2, swap_out s k = some (idx, s2) := by
  obtain ⟨i, hi, hn⟩ := h
  unfold swap_out
  cases hfd : (List.range s.swap_size).find? (fun i => (s.swap_slots i).isNone) with
  | none =>
    rw [List.find?_eq_none] at hfd
    have := hfd i (List.mem_range.mpr hi)
    simp [hn] at this
  | some j => exact ⟨j, _, rfl⟩

theorem swap_out_clear_accessed (L : List frame) (s s2 : State) (k idx : Nat)
    (h : swap_out s k = some (idx, s2)) :
    swap_out (clear_accessed L s) k =
      some (idx, { clear_accessed L s with swap_slots := s2.swap_slots }) := by
  obtain ⟨_, _, rfl⟩ := swap_out_some s s2 k idx h
  unfold swap_out at h ⊢
  simp only [clear_accessed_swap_size, clear_accessed_swap_slots, clear_accessed_mem]
  cases hfd : (List.range s.swap_size).find? (fun i => (s.swap_slots i).isNone) with
  | none => simp [hfd] at h
  | some i =>
    simp only [hfd, Option.some.injEq, Prod.mk.injEq] at h
    obtain ⟨rfl, -⟩ := h
    rfl

/-! ## Facts about the eviction of the chosen frame -/

theorem evict_victim_clean (zero : Bool) (i : Nat) (s : State) (f : frame) (pg : page)
    (hf : s.frame_table[i]? = some f)
    (hpg : page_find s f.thread f.upage = some pg)
    (hd : pagedir_is_dirty s f.thread f.upage = false) :
    evict_victim zero i s =
      some (some f.addr, evicted zero f i { pg with loaded := false } s.swap_slots s) := by
  unfold evict_victim
  simp only [hf, hpg, hd]
  rfl

theorem evict_victim_dirty (zero : Bool) (i : Nat) (s s2 : State) (f : frame) (pg : page)
    (idx : Nat)
    (hf : s.frame_table[i]? = some f)
    (hpg : page_find s f.thread f.upage = some pg)
    (hd : pagedir_is_dirty s f.thread f.upage = true)
    (hsw : swap_out s f.addr = some (idx, s2)) :
    evict_victim zero i s =
      some (some f.addr,
        evicted zero f i { pg with valid := false, swap_idx := idx } s2.swap_slots s) := by
  obtain ⟨_, _, rfl⟩ := swap_out_some s s2 f.addr idx hsw
  unfold evict_victim
  simp only [hf, hpg, hd, hsw]
  rfl

theorem evicted_is_accessed (zero : Bool) (f : frame) (i : Nat) (pg : page)
    (slots : Nat → Option (Nat → Nat)) (s : State) (t u : Nat) :
    pagedir_is_accessed (evicted zero f i pg slots s) t u =
      if t = f.thread ∧ u = f.upage then false else pagedir_is_accessed s t u := by
  unfold pagedir_is_accessed evicted
  by_cases h : t = f.thread ∧ u = f.upage <;> simp [h]

theorem evicted_get_page (zero : Bool) (f : frame) (i : Nat) (pg : page)
    (slots : Nat → Option (Nat → Nat)) (s : State) (t u : Nat) :
    pagedir_get_page (evicted zero f i pg slots s) t u =
      if t = f.thread ∧ u = f.upage then none else pagedir_get_page s t u := by
  unfold pagedir_get_page evicted
  by_cases h : t = f.thread ∧ u = f.upage <;> simp [h]

theorem frame_evict_eq (zero : Bool) (s s1 : State) (i : Nat)
    (hscan : evict_scan (s.frame_table.length + 1) s 0 = some (i, s1)) :
    frame_evict zero s = evict_victim zero i s1 := by
  unfold frame_evict
  rw [hscan]

/-- The whole of `frame_evict` when the victim is clean. -/
theorem frame_evict_clean_result (zero : Bool) (s s1 : State) (i : Nat) (f : frame) (pg : page)
    (hscan : evict_scan (s.frame_table.length + 1) s 0 = some (i, s1))
    (hf : s.frame_table[i]? = some f)
    (hpg : page_find s f.thread f.upage = some pg)
    (hd : pagedir_is_dirty s f.thread f.upage = false) :
    frame_evict zero s =
      some (some f.addr, evicted zero f i { pg with loaded := false } s.swap_slots s1) := by
  obtain ⟨L, rfl, -, -⟩ := evict_scan_clear _ _ _ _ _ hscan
  rw [frame_evict_eq zero s _ i hscan]
  have h := evict_victim_clean zero i (clear_accessed L s) f pg (by simpa using hf)
    (by simpa [page_find] using hpg) (by rw [clear_accessed_is_dirty]; exact hd)
  simpa using h

/-- The whole of `frame_evict` when the victim is dirty and `swap_out` returns. -/
theorem frame_evict_dirty_result (zero : Bool) (s s1 s2 : State) (i idx : Nat) (f : frame)
    (pg : page)
    (hscan : evict_scan (s.frame_table.length + 1) s 0 = some (i, s1))
    (hf : s.frame_table[i]? = some f)
    (hpg : page_find s f.thread f.upage = some pg)
    (hd : pagedir_is_dirty s f.thread f.upage = true)
    (hsw : swap_out s f.addr = some (idx, s2)) :
    frame_evict zero s =
      some (some f.addr,
        evicted zero f i { pg with valid := false, swap_idx := idx } s2.swap_slots s1) := by
  obtain ⟨L, rfl, -, -⟩ := evict_scan_clear _ _ _ _ _ hscan
  rw [frame_evict_eq zero s _ i hscan]
  have h := evict_victim_dirty zero i (clear_accessed L s) _ f pg idx (by simpa using hf)
    (by simpa [page_find] using hpg) (by rw [clear_accessed_is_dirty]; exact hd)
    (swap_out_clear_accessed L s s2 f.addr idx hsw)
  simpa using h

theorem evicted_released (zero : Bool) (f : frame) (i : Nat) (pg : page)
    (slots : Nat → Option (Nat → Nat)) (s : State) :
    ∃ mid, mid.pool = f.addr :: s.pool ∧
      palloc_get_page zero mid = (some f.addr, evicted zero f i pg slots s) :=
  ⟨palloc_free_page f.addr (pagedir_clear_page
      { s with
        frame_table := s.frame_table.eraseIdx i
        page_table := fun t a =>
          if t = f.thread ∧ a = f.upage then some pg else s.page_table t a
        swap_slots := slots } f.thread f.upage), rfl, rfl⟩

/-- The run of the loop in a list where exactly the frame `v` has its accessed
bit clear and the frames have distinct keys. -/
theorem evict_scan_one_clear (s : State) (pre post : List frame) (v : frame)
    (htab : s.frame_table = pre ++ v :: post)
    (hset : ∀ f ∈ pre ++ post, pagedir_is_accessed s f.thread f.upage = true)
    (hclr : pagedir_is_accessed s v.thread v.upage = false)
    (hkeys : (s.frame_table.map frame_key).Nodup) :
    evict_scan (s.frame_table.length + 1) s 0 = some (pre.length, clear_accessed pre s) := by
  have hnd : (pre.map frame_key).Nodup := by
    rw [htab, List.map_append] at hkeys
    exact hkeys.of_append_left
  have h := evict_scan_run pre [] post v s (s.frame_table.length + 1)
    (by simpa using htab) hnd (fun f hf => hset f (List.mem_append_left _ hf)) hclr
    (by rw [htab]; simp; omega)
  simpa using h

/-- What `frame_evict` returns in a list where exactly the frame `v` has its
accessed bit clear and the frames have distinct keys. -/
theorem frame_evict_one_clear (zero : Bool) (s : State) (pre post : List frame) (v : frame)
    (htab : s.frame_table = pre ++ v :: post)
    (hset : ∀ f ∈ pre ++ post, pagedir_is_accessed s f.thread f.upage = true)
    (hclr : pagedir_is_accessed s v.thread v.upage = false)
    (hpages : ∀ f ∈ s.frame_table, page_find s f.thread f.upage ≠ none)
    (hkeys : (s.frame_table.map frame_key).Nodup)
    (hswap : pagedir_is_dirty s v.thread v.upage = true → swap_has_room s) :
    ∃ pg slots, frame_evict zero s =
      some (some v.addr, evicted zero v pre.length pg slots (clear_accessed pre s)) := by
  have hscan := evict_scan_one_clear s pre post v htab hset hclr hkeys
  have hf : s.frame_table[pre.length]? = some v := by
    rw [htab]; exact getElem?_middle _ _ _
  have hv : v ∈ s.frame_table := List.getElem?_mem hf
  obtain ⟨pg, hpg⟩ : ∃ pg, page_find s v.thread v.upage = some pg :=
    Option.ne_none_iff_exists'.mp (hpages v hv)
  cases hd : pagedir_is_dirty s v.thread v.upage with
  | false => exact ⟨_, _, frame_evict_clean_result zero s _ _ v pg hscan hf hpg hd⟩
  | true =>
    obtain ⟨idx, s2, hsw⟩ := swap_out_of_room s v.addr (hswap hd)
    exact ⟨_, _, frame_evict_dirty_result zero s _ s2 _ idx v pg hscan hf hpg hd hsw⟩

/-- C1: in a non-empty frame table whose frames record distinct (thread, upage)
pairs, where the frame `v` is the only one with its accessed bit clear, every
frame's page has an entry in the supplemental page table and the swap store has
room if `v` is dirty, `frame_evict` returns and has removed exactly `v` from the
list, unmapped its page and released its physical page to the pool from which
the page it returns is then taken. -/
theorem frame_evict_selects_unaccessed (zero : Bool) (s : State) (pre post : List frame)
    (v : frame)
    (htab : s.frame_table = pre ++ v :: post)
    (hset : ∀ f ∈ pre ++ post, pagedir_is_accessed s f.thread f.upage = true)
    (hclr : pagedir_is_accessed s v.thread v.upage = false)
    (hpages : ∀ f ∈ s.frame_table, page_find s f.thread f.upage ≠ none)
    (hkeys : (s.frame_table.map frame_key).Nodup)
    (hswap : pagedir_is_dirty s v.thread v.upage = true → swap_has_room s) :
    ∃ r s1, frame_evict zero s = some (r, s1) ∧
      s1.frame_table = pre ++ post ∧
      pagedir_get_page s1 v.thread v.upage = none ∧
      ∃ mid, mid.pool = v.addr :: s.pool ∧ palloc_get_page zero mid = (r, s1) := by
  obtain ⟨pg, slots, h⟩ :=
    frame_evict_one_clear zero s pre post v htab hset hclr hpages hkeys hswap
  refine ⟨_, _, h, ?_, ?_, ?_⟩
  · simp only [evicted, clear_accessed_frame_table, htab]
    exact eraseIdx_middle _ _ _
  · rw [evicted_get_page]; simp
  · obtain ⟨mid, h1, h2⟩ := evicted_released zero v pre.length pg slots (clear_accessed pre s)
    exact ⟨mid, by simpa using h1, h2⟩

theorem frame_evict_selects_unaccessed_witness :
    ∃ r s1, frame_evict false three_frames = some (r, s1) ∧
      s1.frame_table = [⟨1, 100, 10⟩] ++ [⟨1, 102, 30⟩] ∧
      pagedir_get_page s1 1 20 = none ∧
      ∃ mid, mid.pool = 101 :: three_frames.pool ∧ palloc_get_page false mid = (r, s1) :=
  frame_evict_selects_unaccessed false three_frames [⟨1, 100, 10⟩] [⟨1, 102, 30⟩] ⟨1, 101, 20⟩
    rfl (by decide) (by decide) (by decide) (by decide) (fun _ => ⟨0, by decide, rfl⟩)

/-- Why C1 asks for distinct keys: two frames that record the same (thread,
upage) pair share one accessed bit, so clearing it for the first makes the
loop stop at the second, although the bit was set for both at the start. -/
theorem frame_evict_shared_key_example :
    pagedir_is_accessed shared_key_frames 1 10 = true ∧
    pagedir_is_accessed shared_key_frames 1 20 = false ∧
    (frame_evict false shared_key_frames).map (fun r => r.2.frame_table) =
      some [⟨1, 100, 10⟩, ⟨1, 102, 20⟩] := by
  decide

/-- C2, refuted as stated: in `two_frames` the frame for page 10 is the only
one with its accessed bit clear; `frame_evict` removes it, and the other frame,
the one for page 20, still has its accessed bit set afterwards. -/
theorem frame_evict_leaves_later_bits_counterexample :
    pagedir_is_accessed two_frames 1 10 = false ∧
    pagedir_is_accessed two_frames 1 20 = true ∧
    (frame_evict false two_frames).map
        (fun r => (r.2.frame_table, pagedir_is_accessed r.2 1 20)) =
      some ([⟨1, 101, 20⟩], true) := by
  decide

/-- C2, amended: under the assumptions of C1, after `frame_evict` every frame
that precedes the victim in the list has its accessed bit cleared and every
frame that follows the victim still has its accessed bit set. -/
theorem frame_evict_clears_preceding (zero : Bool) (s : State) (pre post : List frame)
    (v : frame)
    (htab : s.frame_table = pre ++ v :: post)
    (hset : ∀ f ∈ pre ++ post, pagedir_is_accessed s f.thread f.upage = true)
    (hclr : pagedir_is_accessed s v.thread v.upage = false)
    (hpages : ∀ f ∈ s.frame_table, page_find s f.thread f.upage ≠ none)
    (hkeys : (s.frame_table.map frame_key).Nodup)
    (hswap : pagedir_is_dirty s v.thread v.upage = true → swap_has_room s) :
    ∃ r s1, frame_evict zero s = some (r, s1) ∧
      s1.frame_table = pre ++ post ∧
      (∀ f ∈ pre, pagedir_is_accessed s1 f.thread f.upage = false) ∧
      (∀ f ∈ post, pagedir_is_accessed s1 f.thread f.upage = true) := by
  obtain ⟨pg, slots, h⟩ :=
    frame_evict_one_clear zero s pre post v htab hset hclr hpages hkeys hswap
  refine ⟨_, _, h, ?_, ?_, ?_⟩
  · simp only [evicted, clear_accessed_frame_table, htab]
    exact eraseIdx_middle _ _ _
  · intro f hf
    rw [evicted_is_accessed, clear_accessed_is_accessed]
    have hm : (f.thread, f.upage) ∈ pre.map frame_key := List.mem_map_of_mem frame_key hf
    simp [hm]
  · intro f hf
    rw [evicted_is_accessed, clear_accessed_is_accessed]
    have hacc := hset f (List.mem_append_right _ hf)
    have hne : ¬ (f.thread = v.thread ∧ f.upage = v.upage) := by
      rintro ⟨h1, h2⟩
      rw [h1, h2, hclr] at hacc
      exact Bool.false_ne_true hacc
    have hnm : (f.thread, f.upage) ∉ pre.map frame_key := by
      rw [htab, List.map_append, List.map_cons] at hkeys
      have hdis := List.disjoint_of_nodup_append hkeys
      intro hin
      exact hdis hin (List.mem_cons_of_mem _ (List.mem_map_of_mem frame_key hf))
    simp [hne, hnm, hacc]

theorem frame_evict_clears_preceding_witness :
    ∃ r s1, frame_evict false three_frames = some (r, s1) ∧
      s1.frame_table = [⟨1, 100, 10⟩] ++ [⟨1, 102, 30⟩] ∧
      (∀ f ∈ [(⟨1, 100, 10⟩ : frame)], pagedir_is_accessed s1 f.thread f.upage = false) ∧
      (∀ f ∈ [(⟨1, 102, 30⟩ : frame)], pagedir_is_accessed s1 f.thread f.upage = true) :=
  frame_evict_clears_preceding false three_frames [⟨1, 100, 10⟩] [⟨1, 102, 30⟩] ⟨1, 101, 20⟩
    rfl (by decide) (by decide) (by decide) (by decide) (fun _ => ⟨0, by decide, rfl⟩)

/-- C3: when the frame `f` the loop of `frame_evict` stops at has its dirty bit
set and `swap_out` of its physical page returns the slot `idx`, `frame_evict`
returns, the swap store is the one `swap_out` left (slot `idx` holds the
contents of the frame), and the page's entry has `swap_idx = idx` and
`valid = false` while its `loaded` flag and its file fields are unchanged. -/
theorem frame_evict_dirty_victim (zero : Bool) (s s1 s2 : State) (i idx : Nat) (f : frame)
    (pg : page)
    (hscan : evict_scan (s.frame_table.length + 1) s 0 = some (i, s1))
    (hf : s.frame_table[i]? = some f)
    (hpg : page_find s f.thread f.upage = some pg)
    (hd : pagedir_is_dirty s f.thread f.upage = true)
    (hsw : swap_out s f.addr = some (idx, s2)) :
    ∃ r s3 pg3, frame_evict zero s = some (r, s3) ∧
      s3.swap_slots = s2.swap_slots ∧ s3.swap_slots idx = some (s.mem f.addr) ∧
      page_find s3 f.thread f.upage = some pg3 ∧
      pg3.swap_idx = idx ∧ pg3.valid = false ∧ pg3.loaded = pg.loaded ∧
      pg3.file = pg.file ∧ pg3.file_ofs = pg.file_ofs ∧
      pg3.file_read_bytes = pg.file_read_bytes ∧ pg3.file_writable = pg.file_writable := by
  have h := frame_evict_dirty_result zero s s1 s2 i idx f pg hscan hf hpg hd hsw
  obtain ⟨_, _, rfl⟩ := swap_out_some s s2 f.addr idx hsw
  refine ⟨_, _, { pg with valid := false, swap_idx := idx }, h, rfl, ?_, ?_,
    rfl, rfl, rfl, rfl, rfl, rfl, rfl⟩
  · simp [evicted]
  · simp [evicted, page_find]

theorem frame_evict_dirty_victim_witness :
    ∃ r s3 pg3, frame_evict false three_frames = some (r, s3) ∧
      s3.swap_slots = (fun j => if j = 0 then some (three_frames.mem 101)
        else three_frames.swap_slots j) ∧
      s3.swap_slots 0 = some (three_frames.mem 101) ∧
      page_find s3 1 20 = some pg3 ∧
      pg3.swap_idx = 0 ∧ pg3.valid = false ∧ pg3.loaded = anon_page.loaded ∧
      pg3.file = anon_page.file ∧ pg3.file_ofs = anon_page.file_ofs ∧
      pg3.file_read_bytes = anon_page.file_read_bytes ∧
      pg3.file_writable = anon_page.file_writable :=
  frame_evict_dirty_victim false three_frames
    (clear_accessed [⟨1, 100, 10⟩] three_frames)
    { three_frames with
      swap_slots := fun j => if j = 0 then some (three_frames.mem 101)
        else three_frames.swap_slots j }
    1 0 ⟨1, 101, 20⟩ anon_page rfl rfl rfl rfl rfl

/-- C4, refuted as stated: in `two_frames` the victim is the frame of the
anonymous page 10, whose dirty bit is clear; `frame_evict` writes nothing to
swap and leaves the entry valid, clearing only its `loaded` flag. -/
theorem frame_evict_anonymous_clean_counterexample :
    anon_page.file = none ∧
    pagedir_is_dirty two_frames 1 10 = false ∧
    (frame_evict false two_frames).map
        (fun r => (r.2.frame_table, page_find r.2 1 10,
          (r.2.swap_slots 0).isSome, (r.2.swap_slots 1).isSome)) =
      some ([⟨1, 101, 20⟩], some { anon_page with loaded := false }, false, false) := by
  decide

/-- C4, amended: when the page of the frame `f` the loop of `frame_evict` stops
at is anonymous, `frame_evict` writes the frame to a swap slot, records the slot
on the entry and marks the entry not valid if the dirty bit is set (and
`swap_out` returns); if the dirty bit is clear it writes nothing to swap,
leaves `valid` and `swap_idx` as they were and clears `loaded`. -/
theorem frame_evict_anonymous_victim (zero : Bool) (s s1 : State) (i : Nat) (f : frame)
    (pg : page)
    (hscan : evict_scan (s.frame_table.length + 1) s 0 = some (i, s1))
    (hf : s.frame_table[i]? = some f)
    (hpg : page_find s f.thread f.upage = some pg)
    (_hanon : pg.file = none) :
    (pagedir_is_dirty s f.thread f.upage = true →
      ∀ idx s2, swap_out s f.addr = some (idx, s2) →
        ∃ r s3 pg3, frame_evict zero s = some (r, s3) ∧
          s3.swap_slots idx = some (s.mem f.addr) ∧
          page_find s3 f.thread f.upage = some pg3 ∧
          pg3.swap_idx = idx ∧ pg3.valid = false) ∧
    (pagedir_is_dirty s f.thread f.upage = false →
      ∃ r s3 pg3, frame_evict zero s = some (r, s3) ∧
        s3.swap_slots = s.swap_slots ∧
        page_find s3 f.thread f.upage = some pg3 ∧
        pg3.loaded = false ∧ pg3.valid = pg.valid ∧ pg3.swap_idx = pg.swap_idx) := by
  constructor
  · intro hd idx s2 hsw
    have h := frame_evict_dirty_result zero s s1 s2 i idx f pg hscan hf hpg hd hsw
    obtain ⟨_, _, rfl⟩ := swap_out_some s s2 f.addr idx hsw
    refine ⟨_, _, { pg with valid := false, swap_idx := idx }, h, ?_, ?_, rfl, rfl⟩
    · simp [evicted]
    · simp [evicted, page_find]
  · intro hd
    have h := frame_evict_clean_result zero s s1 i f pg hscan hf hpg hd
    refine ⟨_, _, { pg with loaded := false }, h, rfl, ?_, rfl, rfl, rfl⟩
    simp [evicted, page_find]

theorem frame_evict_anonymous_victim_witness :
    (pagedir_is_dirty two_frames 1 10 = true →
      ∀ idx s2, swap_out two_frames 100 = some (idx, s2) →
        ∃ r s3 pg3, frame_evict false two_frames = some (r, s3) ∧
          s3.swap_slots idx = some (two_frames.mem 100) ∧
          page_find s3 1 10 = some pg3 ∧
          pg3.swap_idx = idx ∧ pg3.valid = false) ∧
    (pagedir_is_dirty two_frames 1 10 = false →
      ∃ r s3 pg3, frame_evict false two_frames = some (r, s3) ∧
        s3.swap_slots = two_frames.swap_slots ∧
        page_find s3 1 10 = some pg3 ∧
        pg3.loaded = false ∧ pg3.valid = anon_page.valid ∧
        pg3.swap_idx = anon_page.swap_idx) :=
  frame_evict_anonymous_victim false two_frames two_frames 0 ⟨1, 100, 10⟩ anon_page
    rfl rfl rfl rfl

/-- C5: when the frame `f` the loop of `frame_evict` stops at has its dirty bit
clear and its page is backed by a file, `frame_evict` returns, the entry's
`loaded` flag is false, the swap store and the entry's `swap_idx` are
unchanged, and so are the entry's file, offset, read length and writable
flag. -/
theorem frame_evict_clean_file_victim (zero : Bool) (s s1 : State) (i : Nat) (f : frame)
    (pg : page)
    (hscan : evict_scan (s.frame_table.length + 1) s 0 = some (i, s1))
    (hf : s.frame_table[i]? = some f)
    (hpg : page_find s f.thread f.upage = some pg)
    (_hfile : pg.file ≠ none)
    (hd : pagedir_is_dirty s f.thread f.upage = false) :
    ∃ r s3 pg3, frame_evict zero s = some (r, s3) ∧
      s3.swap_slots = s.swap_slots ∧ s3.swap_size = s.swap_size ∧
      page_find s3 f.thread f.upage = some pg3 ∧
      pg3.loaded = false ∧ pg3.swap_idx = pg.swap_idx ∧
      pg3.file = pg.file ∧ pg3.file_ofs = pg.file_ofs ∧
      pg3.file_read_bytes = pg.file_read_bytes ∧ pg3.file_writable = pg.file_writable := by
  have h := frame_evict_clean_result zero s s1 i f pg hscan hf hpg hd
  obtain ⟨L, rfl, -, -⟩ := evict_scan_clear _ _ _ _ _ hscan
  refine ⟨_, _, { pg with loaded := false }, h, rfl, ?_, ?_, rfl, rfl, rfl, rfl, rfl, rfl⟩
  · simp [evicted]
  · simp [evicted, page_find]

theorem frame_evict_clean_file_victim_witness :
    ∃ r s3 pg3, frame_evict false one_file_frame = some (r, s3) ∧
      s3.swap_slots = one_file_frame.swap_slots ∧ s3.swap_size = one_file_frame.swap_size ∧
      page_find s3 1 20 = some pg3 ∧
      pg3.loaded = false ∧ pg3.swap_idx = file_page.swap_idx ∧
      pg3.file = file_page.file ∧ pg3.file_ofs = file_page.file_ofs ∧
      pg3.file_read_bytes = file_page.file_read_bytes ∧
      pg3.file_writable = file_page.file_writable :=
  frame_evict_clean_file_victim false one_file_frame one_file_frame 0 ⟨1, 101, 20⟩ file_page
    rfl rfl rfl (by decide) rfl

/-! ## Facts about `frame_free` -/

theorem frame_free_loop_none (a : Nat) (l : List frame) :
    frame_free_loop a l = none ↔ ∀ f ∈ l, f.addr ≠ a := by
  induction l with
  | nil => simp [frame_free_loop]
  | cons g gs ih =>
    by_cases h : g.addr = a
    · simp [frame_free_loop, h]
    · simp [frame_free_loop, h, ih]

theorem frame_free_loop_some (a : Nat) (l l1 : List frame)
    (h : frame_free_loop a l = some l1) :
    ∃ pre f post, l = pre ++ f :: post ∧ f.addr = a ∧ (∀ g ∈ pre, g.addr ≠ a) ∧
      l1 = pre ++ post := by
  induction l generalizing l1 with
  | nil => simp [frame_free_loop] at h
  | cons g gs ih =>
    by_cases hg : g.addr = a
    · simp only [frame_free_loop, hg, if_true, Option.some.injEq] at h
      exact ⟨[], g, gs, rfl, hg, by simp, by simp [h]⟩
    · simp only [frame_free_loop, hg, if_false, Option.map_eq_some'] at h
      obtain ⟨r, hr, rfl⟩ := h
      obtain ⟨pre, f, post, h1, h2, h3, h4⟩ := ih r hr
      refine ⟨g :: pre, f, post, by simp [h1], h2, ?_, by simp [h4]⟩
      intro x hx
      rcases List.mem_cons.mp hx with rfl | hx
      · exact hg
      · exact h3 x hx

theorem frame_free_absent (a : Nat) (s : State) (h : ∀ f ∈ s.frame_table, f.addr ≠ a) :
    frame_free a s = s := by
  unfold frame_free
  rw [(frame_free_loop_none a s.frame_table).mpr h]

theorem frame_free_present (a : Nat) (s : State) (pre post : List frame) (f : frame)
    (htab : s.frame_table = pre ++ f :: post) (hf : f.addr = a)
    (hpre : ∀ g ∈ pre, g.addr ≠ a) :
    frame_free a s = palloc_free_page a { s with frame_table := pre ++ post } := by
  have : frame_free_loop a s.frame_table = some (pre ++ post) := by
    rw [htab]
    clear htab
    induction pre with
    | nil => simp [frame_free_loop, hf]
    | cons g gs ih =>
      have hg : g.addr ≠ a := hpre g (by simp)
      have ih2 := ih (fun x hx => hpre x (by simp [hx]))
      rw [List.cons_append, frame_free_loop, if_neg hg, ih2]
      rfl
  unfold frame_free
  rw [this]

/-- C8: `frame_free` of an address no frame records changes nothing; and when
no two frames record the same physical address, a second `frame_free` of the
same address changes nothing more, so the page enters the pool at most once. -/
theorem frame_free_idempotent (a : Nat) (s : State) :
    ((∀ f ∈ s.frame_table, f.addr ≠ a) → frame_free a s = s) ∧
    ((s.frame_table.map (fun f => f.addr)).Nodup →
      frame_free a (frame_free a s) = frame_free a s ∧
      (frame_free a (frame_free a s)).pool.count a ≤ s.pool.count a + 1) := by
  refine ⟨frame_free_absent a s, ?_⟩
  intro hnd
  have hidem : frame_free a (frame_free a s) = frame_free a s := by
    cases hl : frame_free_loop a s.frame_table with
    | none =>
      have h := frame_free_absent a s ((frame_free_loop_none a _).mp hl)
      rw [h, h]
    | some l1 =>
      obtain ⟨pre, f, post, h1, h2, h3, rfl⟩ := frame_free_loop_some a _ _ hl
      apply frame_free_absent
      intro g hg
      have hg' : g ∈ pre ++ post := by
        simpa [frame_free, hl, palloc_free_page] using hg
      rw [h1, List.map_append, List.map_cons] at hnd
      rcases List.mem_append.mp hg' with hp | hp
      · exact h3 g hp
      · intro hga
        have hnd2 := (List.nodup_cons.mp hnd.of_append_right).1
        apply hnd2
        rw [h2, ← hga]
        exact List.mem_map_of_mem (fun f => f.addr) hp
  refine ⟨hidem, ?_⟩
  rw [hidem]
  unfold frame_free
  cases frame_free_loop a s.frame_table with
  | none => simp
  | some l1 => simp [palloc_free_page]

theorem frame_free_idempotent_witness :
    ((∀ f ∈ three_frames.frame_table, f.addr ≠ 101) → frame_free 101 three_frames = three_frames) ∧
    ((three_frames.frame_table.map (fun f => f.addr)).Nodup →
      frame_free 101 (frame_free 101 three_frames) = frame_free 101 three_frames ∧
      (frame_free 101 (frame_free 101 three_frames)).pool.count 101 ≤
        three_frames.pool.count 101 + 1) :=
  frame_free_idempotent 101 three_frames

theorem frame_alloc_of_free (cur upage : Nat) (zero : Bool) (s : State) (q : Nat)
    (rest : List Nat) (hp : s.pool = q :: rest) :
    frame_alloc cur upage zero s =
      some (some q, { (palloc_get_page zero s).2 with
        frame_table := s.frame_table ++ [⟨cur, q, upage⟩] }) := by
  unfold frame_alloc
  simp only [palloc_get_page, hp]

theorem frame_alloc_of_evict (cur upage : Nat) (zero : Bool) (s s2 : State) (p : Nat)
    (hp : s.pool = []) (he : frame_evict zero s = some (some p, s2)) :
    frame_alloc cur upage zero s =
      some (some p, { s2 with frame_table := s2.frame_table ++ [⟨cur, p, upage⟩] }) := by
  unfold frame_alloc
  simp only [palloc_get_page, hp, he]

/-- C9: when `frame_alloc` returns a page `p`, the list ends with the frame
`(cur, p, upage)`; and when the pool has a free page, `frame_alloc` returns the
page at the pool's head without evicting: the frames registered before stay in
their order ahead of the new one, and the supplemental page tables, the
hardware page tables and the swap store are untouched. -/
theorem frame_alloc_registers (cur upage : Nat) (zero : Bool) (s : State) :
    (∀ p s1, frame_alloc cur upage zero s = some (some p, s1) →
      ∃ front, s1.frame_table = front ++ [⟨cur, p, upage⟩]) ∧
    (∀ q rest, s.pool = q :: rest →
      ∃ s1, frame_alloc cur upage zero s = some (some q, s1) ∧
        s1.frame_table = s.frame_table ++ [⟨cur, q, upage⟩] ∧
        s1.pool = rest ∧
        s1.page_table = s.page_table ∧ s1.pagedir = s.pagedir ∧
        s1.swap_slots = s.swap_slots) := by
  constructor
  · intro p s1 h
    unfold frame_alloc at h
    cases hp : s.pool with
    | nil =>
      simp only [palloc_get_page, hp] at h
      cases he : frame_evict zero s with
      | none => simp [he] at h
      | some r =>
        obtain ⟨r1, r2⟩ := r
        cases r1 with
        | none => simp [he] at h
        | some p2 =>
          simp only [he, Option.some.injEq, Prod.mk.injEq] at h
          obtain ⟨rfl, rfl⟩ := h
          exact ⟨_, rfl⟩
    | cons q rest =>
      simp only [palloc_get_page, hp, Option.some.injEq, Prod.mk.injEq] at h
      obtain ⟨rfl, rfl⟩ := h
      exact ⟨_, rfl⟩
  · intro q rest hp
    unfold frame_alloc
    simp only [palloc_get_page, hp]
    exact ⟨_, rfl, rfl, rfl, rfl, rfl, rfl⟩

theorem frame_alloc_registers_witness :
    (∃ front, three_frames_alloc.frame_table = front ++ [⟨1, 101, 40⟩]) ∧
    (∃ s1, frame_alloc 1 40 false one_free_page = some (some 200, s1) ∧
        s1.frame_table = one_free_page.frame_table ++ [⟨1, 200, 40⟩] ∧
        s1.pool = [] ∧
        s1.page_table = one_free_page.page_table ∧ s1.pagedir = one_free_page.pagedir ∧
        s1.swap_slots = one_free_page.swap_slots) :=
  ⟨(frame_alloc_registers 1 40 false three_frames).1 101 three_frames_alloc rfl,
   (frame_alloc_registers 1 40 false one_free_page).2 200 [] rfl⟩

/-! ## The loop always ends -/

theorem set_accessed_false_is_accessed (s : State) (t u t1 u1 : Nat) :
    pagedir_is_accessed (pagedir_set_accessed s t u false) t1 u1 =
      (pagedir_is_accessed s t1 u1 && decide (¬ (t1 = t ∧ u1 = u))) := by
  have h := clear_accessed_is_accessed [⟨t, 0, u⟩] s t1 u1
  simpa [clear_accessed, frame_key] using h

theorem evict_scan_head (fuel : Nat) (s : State) (f0 : frame)
    (h0 : s.frame_table[0]? = some f0)
    (ha : pagedir_is_accessed s f0.thread f0.upage = false) :
    evict_scan (fuel + 1) s 0 = some (0, s) := by
  rw [evict_scan]
  simp [h0, ha]

/-- Started at position `i` with `m + 1` frames left up to the end of the list
and, unless `i` is the head, the head's accessed bit clear, the loop ends
within `m + 2` inspections. -/
theorem evict_scan_from : ∀ (m : Nat) (s : State) (i : Nat),
    i + (m + 1) = s.frame_table.length →
    (0 < i → ∃ f0, s.frame_table[0]? = some f0 ∧
      pagedir_is_accessed s f0.thread f0.upage = false) →
    ∃ j s1, evict_scan (m + 2) s i = some (j, s1) := by
  intro m
  induction m with
  | zero =>
    intro s i hlen hhead
    have hi : i < s.frame_table.length := by omega
    have hf : s.frame_table[i]? = some s.frame_table[i] := List.getElem?_eq_getElem hi
    rw [evict_scan]
    simp only [hf]
    by_cases ha : pagedir_is_accessed s s.frame_table[i].thread s.frame_table[i].upage = true
    · rw [if_pos ha, if_pos (by omega)]
      have h0 : 0 < s.frame_table.length := by omega
      refine ⟨0, _, evict_scan_head 0 _ s.frame_table[0] ?_ ?_⟩
      · simp only [pagedir_set_accessed]
        exact List.getElem?_eq_getElem h0
      · rw [set_accessed_false_is_accessed]
        by_cases hi0 : i = 0
        · subst hi0; simp
        · obtain ⟨f0, hf0, hacc⟩ := hhead (by omega)
          rw [List.getElem?_eq_getElem h0] at hf0
          simp only [Option.some.injEq] at hf0
          rw [hf0, hacc]; rfl
    · rw [if_neg ha]
      exact ⟨_, _, rfl⟩
  | succ m ih =>
    intro s i hlen hhead
    have hi : i < s.frame_table.length := by omega
    have hf : s.frame_table[i]? = some s.frame_table[i] := List.getElem?_eq_getElem hi
    rw [evict_scan]
    simp only [hf]
    by_cases ha : pagedir_is_accessed s s.frame_table[i].thread s.frame_table[i].upage = true
    · rw [if_pos ha, if_neg (by omega)]
      have h0 : 0 < s.frame_table.length := by omega
      apply ih
      · simp only [pagedir_set_accessed]; omega
      · intro _
        refine ⟨s.frame_table[0], ?_, ?_⟩
        · simp only [pagedir_set_accessed]
          exact List.getElem?_eq_getElem h0
        · rw [set_accessed_false_is_accessed]
          by_cases hi0 : i = 0
          · subst hi0; simp
          · obtain ⟨f0, hf0, hacc⟩ := hhead (by omega)
            rw [List.getElem?_eq_getElem h0] at hf0
            simp only [Option.some.injEq] at hf0
            rw [hf0, hacc]; rfl
    · rw [if_neg ha]
      exact ⟨_, _, rfl⟩

/-- On a non-empty list the loop of `frame_evict` ends within one inspection
more than there are frames. -/
theorem evict_scan_total (s : State) (hne : s.frame_table ≠ []) :
    ∃ j s1, evict_scan (s.frame_table.length + 1) s 0 = some (j, s1) := by
  have hpos : 0 < s.frame_table.length := List.length_pos.mpr hne
  obtain ⟨m, hm⟩ : ∃ m, s.frame_table.length = m + 1 := ⟨s.frame_table.length - 1, by omega⟩
  have h := evict_scan_from m s 0 (by omega) (fun h => absurd h (by omega))
  rw [hm]
  exact h

/-- C10: with exactly one free page `p` and no frame, `frame_alloc` for `u1`
returns `p` and registers its frame, emptying the pool.  In any later state
with that one frame and an empty pool, where `u1` has an entry in the
supplemental page table and is mapped to `p` (and the swap store has room if
the page is dirty), `frame_alloc` for `u2` returns `p` again: the list then
holds exactly the frame for `u2`, and the entry of `u1` has `valid = false` and
the slot `swap_out` chose in `swap_idx` if the page was dirty, and
`loaded = false` otherwise. -/
theorem frame_alloc_twice_one_page (cur cur2 u1 u2 p : Nat) (z1 z2 : Bool) (s0 : State)
    (hpool : s0.pool = [p]) (hempty : s0.frame_table = []) (_hne : u1 ≠ u2) :
    (∃ s1, frame_alloc cur u1 z1 s0 = some (some p, s1) ∧
      s1.frame_table = [⟨cur, p, u1⟩] ∧ s1.pool = []) ∧
    (∀ (m : State) (pg : page),
      m.frame_table = [⟨cur, p, u1⟩] → m.pool = [] →
      page_find m cur u1 = some pg →
      pagedir_get_page m cur u1 = some p →
      (pagedir_is_dirty m cur u1 = true → swap_has_room m) →
      ∃ s2 pg2, frame_alloc cur2 u2 z2 m = some (some p, s2) ∧
        s2.frame_table = [⟨cur2, p, u2⟩] ∧
        page_find s2 cur u1 = some pg2 ∧
        (pagedir_is_dirty m cur u1 = true →
          pg2.valid = false ∧
          ∃ idx sw, swap_out m p = some (idx, sw) ∧ pg2.swap_idx = idx ∧
            s2.swap_slots idx = some (m.mem p)) ∧
        (pagedir_is_dirty m cur u1 = false → pg2.loaded = false)) := by
  constructor
  · refine ⟨_, frame_alloc_of_free cur u1 z1 s0 p [] hpool, ?_, ?_⟩
    · simp [palloc_get_page, hpool, hempty]
    · simp [palloc_get_page, hpool]
  · intro m pg htab hp hpg _ hswap
    obtain ⟨j, m1, hscan⟩ := evict_scan_total m (by rw [htab]; simp)
    obtain ⟨L, hm1, -, v, hv, -⟩ := evict_scan_clear _ _ _ _ _ hscan
    have hj : j = 0 := by
      have := (List.getElem?_eq_some.mp hv).1
      rw [htab] at this
      simpa using this
    subst hj
    have hf : m.frame_table[0]? = some ⟨cur, p, u1⟩ := by rw [htab]; rfl
    have hreg : ∀ (pg2 : page) (slots : Nat → Option (Nat → Nat)),
        frame_evict z2 m = some (some p, evicted z2 ⟨cur, p, u1⟩ 0 pg2 slots m1) →
        ∃ s2, frame_alloc cur2 u2 z2 m = some (some p, s2) ∧
          s2.frame_table = [⟨cur2, p, u2⟩] ∧ page_find s2 cur u1 = some pg2 ∧
          s2.swap_slots = slots := by
      intro pg2 slots he
      refine ⟨_, frame_alloc_of_evict cur2 u2 z2 m _ p hp he, ?_, ?_, ?_⟩
      · simp [evicted, hm1, htab]
      · simp [evicted, page_find]
      · simp [evicted]
    cases hd : pagedir_is_dirty m cur u1 with
    | false =>
      have he := frame_evict_clean_result z2 m m1 0 ⟨cur, p, u1⟩ pg hscan hf hpg hd
      obtain ⟨s2, h1, h2, h3, -⟩ := hreg _ _ he
      exact ⟨s2, _, h1, h2, h3, fun h => absurd h (by simp), fun _ => rfl⟩
    | true =>
      obtain ⟨idx, sw, hsw⟩ := swap_out_of_room m p (hswap hd)
      have he := frame_evict_dirty_result z2 m m1 sw 0 idx ⟨cur, p, u1⟩ pg hscan hf hpg hd hsw
      obtain ⟨s2, h1, h2, h3, h4⟩ := hreg _ _ he
      obtain ⟨_, _, rfl⟩ := swap_out_some m sw p idx hsw
      refine ⟨s2, _, h1, h2, h3, fun _ => ⟨rfl, idx, _, hsw, rfl, ?_⟩, fun h => absurd h (by simp)⟩
      rw [h4]
      simp

theorem frame_alloc_twice_one_page_witness :
    (∃ s1, frame_alloc 1 10 true one_free_page = some (some 200, s1) ∧
      s1.frame_table = [⟨1, 200, 10⟩] ∧ s1.pool = []) ∧
    (∃ s2 pg2, frame_alloc 1 20 false one_page_mapped = some (some 200, s2) ∧
        s2.frame_table = [⟨1, 200, 20⟩] ∧
        page_find s2 1 10 = some pg2 ∧
        (pagedir_is_dirty one_page_mapped 1 10 = true →
          pg2.valid = false ∧
          ∃ idx sw, swap_out one_page_mapped 200 = some (idx, sw) ∧ pg2.swap_idx = idx ∧
            s2.swap_slots idx = some (one_page_mapped.mem 200)) ∧
        (pagedir_is_dirty one_page_mapped 1 10 = false → pg2.loaded = false)) :=
  ⟨(frame_alloc_twice_one_page 1 1 10 20 200 true false one_free_page rfl rfl (by decide)).1,
   (frame_alloc_twice_one_page 1 1 10 20 200 true false one_free_page rfl rfl (by decide)).2
      one_page_mapped anon_page rfl rfl rfl rfl (fun _ => ⟨0, by decide, rfl⟩)⟩

/-! ## The frame invariant -/

theorem getElem?_split {α : Type} (l : List α) (i : Nat) (x : α) (h : l[i]? = some x) :
    ∃ pre post, l = pre ++ x :: post ∧ pre.length = i := by
  induction l generalizing i with
  | nil => simp at h
  | cons y ys ih =>
    cases i with
    | zero =>
      simp only [List.getElem?_cons_zero, Option.some.injEq] at h
      exact ⟨[], ys, by simp [h], rfl⟩
    | succ i =>
      simp only [List.getElem?_cons_succ] at h
      obtain ⟨pre, post, h1, h2⟩ := ih i h
      exact ⟨y :: pre, post, by simp [h1], by simp [h2]⟩

/-- Every return of `frame_evict` has this shape: the frame `v` at a position
`i` went, the accessed bits of some frames were cleared, the entry of `v`'s
page either lost its `loaded` flag (clean) or became not valid (dirty), and
the page returned is the page of `v`. -/
theorem frame_evict_shape (zero : Bool) (s s1 : State) (r : Option Nat)
    (h : frame_evict zero s = some (r, s1)) :
    ∃ (pre post L : List frame) (v : frame) (pg pg1 : page)
      (slots : Nat → Option (Nat → Nat)),
      s.frame_table = pre ++ v :: post ∧
      page_find s v.thread v.upage = some pg ∧
      r = some v.addr ∧
      s1 = evicted zero v pre.length pg1 slots (clear_accessed L s) ∧
      ((pagedir_is_dirty s v.thread v.upage = false ∧ pg1 = { pg with loaded := false }) ∨
       (pagedir_is_dirty s v.thread v.upage = true ∧ pg1.valid = false)) := by
  unfold frame_evict at h
  cases hscan : evict_scan (s.frame_table.length + 1) s 0 with
  | none => simp [hscan] at h
  | some res =>
    obtain ⟨i, s0⟩ := res
    simp only [hscan] at h
    obtain ⟨L, rfl, -, v, hv, -⟩ := evict_scan_clear _ _ _ _ _ hscan
    obtain ⟨pre, post, htab, rfl⟩ := getElem?_split _ _ _ hv
    cases hpg : page_find s v.thread v.upage with
    | none =>
      unfold evict_victim at h
      have : page_find (clear_accessed L s) v.thread v.upage = none := by
        simpa [page_find] using hpg
      simp [hv, this] at h
    | some pg =>
      cases hd : pagedir_is_dirty s v.thread v.upage with
      | false =>
        have h2 := frame_evict_clean_result zero s _ _ v pg hscan hv hpg hd
        rw [frame_evict_eq zero s _ _ hscan, h] at h2
        simp only [Option.some.injEq, Prod.mk.injEq] at h2
        exact ⟨pre, post, L, v, pg, _, _, htab, hpg, h2.1, h2.2, Or.inl ⟨hd, rfl⟩⟩
      | true =>
        cases hsw : swap_out s v.addr with
        | none =>
          unfold evict_victim at h
          have h1 : page_find (clear_accessed L s) v.thread v.upage = some pg := by
            simpa [page_find] using hpg
          have h3 : swap_out (clear_accessed L s) v.addr = none := by
            unfold swap_out at hsw ⊢
            simp only [clear_accessed_swap_size, clear_accessed_swap_slots]
            cases hfd : (List.range s.swap_size).find? (fun i => (s.swap_slots i).isNone) with
            | none => rfl
            | some j => simp [hfd] at hsw
          simp [hv, h1, clear_accessed_is_dirty, hd, h3] at h
        | some res2 =>
          obtain ⟨idx, s2⟩ := res2
          have h2 := frame_evict_dirty_result zero s _ s2 _ idx v pg hscan hv hpg hd hsw
          rw [frame_evict_eq zero s _ _ hscan, h] at h2
          simp only [Option.some.injEq, Prod.mk.injEq] at h2
          exact ⟨pre, post, L, v, pg, _, _, htab, hpg, h2.1, h2.2, Or.inr ⟨hd, rfl⟩⟩

theorem frame_inv_congr (s s1 : State) (h1 : s1.frame_table = s.frame_table)
    (h2 : ∀ t u, pagedir_get_page s1 t u = pagedir_get_page s t u) (h : frame_inv s) :
    frame_inv s1 := by
  unfold frame_inv at h ⊢
  rw [h1]
  exact ⟨fun f hf => by rw [h2]; exact h.1 f hf, h.2⟩

theorem alloc_ok_congr (s s1 : State) (h1 : s1.frame_table = s.frame_table)
    (h2 : s1.pool = s.pool) (h : alloc_ok s) : alloc_ok s1 := by
  unfold alloc_ok at h ⊢
  rw [h1, h2]
  exact h

theorem alloc_pending_congr {s s1 : State} {cur k upage : Nat}
    (h1 : s1.frame_table = s.frame_table)
    (h2 : ∀ t u, pagedir_get_page s1 t u = pagedir_get_page s t u)
    (h3 : s1.pool = s.pool) (h : alloc_pending cur k upage s) :
    alloc_pending cur k upage s1 := by
  obtain ⟨old, ha, hb, hc⟩ := h
  exact ⟨old, by rw [h1, ha],
    frame_inv_congr { s with frame_table := old } { s1 with frame_table := old } rfl
      (fun t u => h2 t u) hb,
    alloc_ok_congr s s1 h1 h3 hc⟩

theorem frame_inv_evicted (zero : Bool) (s : State) (pre post L : List frame) (v : frame)
    (pg1 : page) (slots : Nat → Option (Nat → Nat))
    (htab : s.frame_table = pre ++ v :: post) (h : frame_inv s) :
    frame_inv (evicted zero v pre.length pg1 slots (clear_accessed L s)) := by
  obtain ⟨hmap, hnd⟩ := h
  have htab2 : (evicted zero v pre.length pg1 slots (clear_accessed L s)).frame_table =
      pre ++ post := by
    simp only [evicted, clear_accessed_frame_table, htab]
    exact eraseIdx_middle _ _ _
  rw [htab, List.map_append, List.map_cons] at hnd
  have hnd2 := List.nodup_middle.mp hnd
  have hnd3 := List.nodup_cons.mp hnd2
  constructor
  · intro f hf
    rw [htab2] at hf
    have hfs : f ∈ s.frame_table := by
      rw [htab]
      rcases List.mem_append.mp hf with h1 | h1
      · exact List.mem_append_left _ h1
      · exact List.mem_append_right _ (List.mem_cons_of_mem _ h1)
    have hne : ¬ (f.thread = v.thread ∧ f.upage = v.upage) := by
      rintro ⟨h1, h2⟩
      apply hnd3.1
      have : frame_key v = frame_key f := by simp [frame_key, h1, h2]
      rw [this, ← List.map_append]
      exact List.mem_map_of_mem frame_key hf
    rw [evicted_get_page, if_neg hne, clear_accessed_get_page]
    exact hmap f hfs
  · rw [htab2, List.map_append]
    exact hnd3.2

theorem alloc_ok_evicted (zero : Bool) (s : State) (pre post L : List frame) (v : frame)
    (pg1 : page) (slots : Nat → Option (Nat → Nat))
    (htab : s.frame_table = pre ++ v :: post) (h : alloc_ok s) :
    alloc_ok (evicted zero v pre.length pg1 slots (clear_accessed L s)) ∧
    v.addr ∉ (pre ++ post).map (fun f => f.addr) ∧ v.addr ∉ s.pool := by
  obtain ⟨hnd, hfree, hpool⟩ := h
  have htab2 : (evicted zero v pre.length pg1 slots (clear_accessed L s)).frame_table =
      pre ++ post := by
    simp only [evicted, clear_accessed_frame_table, htab]
    exact eraseIdx_middle _ _ _
  have hp2 : (evicted zero v pre.length pg1 slots (clear_accessed L s)).pool = s.pool := by
    simp [evicted]
  rw [htab, List.map_append, List.map_cons] at hnd
  have hnd2 := List.nodup_middle.mp hnd
  have hnd3 := List.nodup_cons.mp hnd2
  refine ⟨⟨?_, ?_, ?_⟩, ?_, ?_⟩
  · rw [htab2, List.map_append]; exact hnd3.2
  · intro f hf
    rw [htab2] at hf
    rw [hp2]
    apply hfree
    rw [htab]
    rcases List.mem_append.mp hf with h1 | h1
    · exact List.mem_append_left _ h1
    · exact List.mem_append_right _ (List.mem_cons_of_mem _ h1)
  · rw [hp2]; exact hpool
  · rw [List.map_append]; exact hnd3.1
  · exact hfree v (by rw [htab]; simp)

/-- After `frame_alloc` returned a page, the new frame is pending. -/
theorem frame_alloc_pending (cur upage : Nat) (zero : Bool) (s s1 : State) (k : Nat)
    (hi : frame_inv s) (ha : alloc_ok s)
    (h : frame_alloc cur upage zero s = some (some k, s1)) :
    alloc_pending cur k upage s1 := by
  cases hp : s.pool with
  | cons q rest =>
    rw [frame_alloc_of_free cur upage zero s q rest hp] at h
    simp only [Option.some.injEq, Prod.mk.injEq] at h
    obtain ⟨rfl, rfl⟩ := h
    obtain ⟨hnd, hfree, hpool⟩ := ha
    rw [hp] at hfree hpool
    have hq := List.nodup_cons.mp hpool
    refine ⟨s.frame_table, rfl, ?_, ?_, ?_, ?_⟩
    · exact frame_inv_congr s _ rfl
        (fun t u => by simp [palloc_get_page, hp, pagedir_get_page]) hi
    · simp only [List.map_append, List.map_cons, List.map_nil]
      apply List.Nodup.append hnd (by simp)
      intro x hx hx2
      simp only [List.mem_singleton] at hx2
      obtain ⟨f, hf, rfl⟩ := List.mem_map.mp hx
      exact hfree f hf (by rw [hx2]; simp)
    · intro f hf
      simp only [palloc_get_page, hp]
      rcases List.mem_append.mp hf with h1 | h1
      · intro hin
        exact hfree f h1 (List.mem_cons_of_mem _ hin)
      · simp only [List.mem_singleton] at h1
        rw [h1]
        exact hq.1
    · simp only [palloc_get_page, hp]
      exact hq.2
  | nil =>
    cases he : frame_evict zero s with
    | none =>
      unfold frame_alloc at h
      simp [palloc_get_page, hp, he] at h
    | some res =>
      obtain ⟨r, s2⟩ := res
      obtain ⟨pre, post, L, v, pg, pg1, slots, htab, -, rfl, rfl, -⟩ :=
        frame_evict_shape zero s s2 r he
      rw [frame_alloc_of_evict cur upage zero s _ v.addr hp he] at h
      simp only [Option.some.injEq, Prod.mk.injEq] at h
      obtain ⟨rfl, rfl⟩ := h
      have h1 := frame_inv_evicted zero s pre post L v pg1 slots htab hi
      obtain ⟨⟨h2, h3, h4⟩, h5, h6⟩ := alloc_ok_evicted zero s pre post L v pg1 slots htab ha
      have htab2 : (evicted zero v pre.length pg1 slots (clear_accessed L s)).frame_table =
          pre ++ post := by
        simp only [evicted, clear_accessed_frame_table, htab]
        exact eraseIdx_middle _ _ _
      refine ⟨_, rfl, frame_inv_congr _ _ rfl (fun t u => rfl) h1, ?_, ?_, ?_⟩
      · simp only [List.map_append, List.map_cons, List.map_nil] at h2 h5 ⊢
        rw [htab2] at h2 ⊢
        simp only [List.map_append] at h2 ⊢
        apply List.Nodup.append h2 (by simp)
        intro x hx hx2
        simp only [List.mem_singleton] at hx2
        rw [hx2] at hx
        exact h5 hx
      · intro f hf
        have : (evicted zero v pre.length pg1 slots (clear_accessed L s)).pool = [] := by
          simp [evicted, hp]
        simp [this]
      · exact h4

theorem frame_alloc_never_null (cur upage : Nat) (zero : Bool) (s s1 : State) :
    frame_alloc cur upage zero s ≠ some (none, s1) := by
  intro h
  cases hp : s.pool with
  | cons q rest =>
    rw [frame_alloc_of_free cur upage zero s q rest hp] at h
    simp at h
  | nil =>
    cases he : frame_evict zero s with
    | none =>
      unfold frame_alloc at h
      simp [palloc_get_page, hp, he] at h
    | some res =>
      obtain ⟨r, s2⟩ := res
      obtain ⟨pre, post, L, v, pg, pg1, slots, htab, -, rfl, rfl, -⟩ :=
        frame_evict_shape zero s s2 r he
      rw [frame_alloc_of_evict cur upage zero s _ v.addr hp he] at h
      simp at h

theorem install_cases (cur a k : Nat) (w : Bool) (s s1 : State) (b : Bool)
    (h : install cur a k w s = (b, s1)) :
    (b = true ∧ pagedir_get_page s cur a = none ∧
      s1 = { s with pagedir := fun t1 u1 =>
        if t1 = cur ∧ u1 = a then some ⟨k, w, false, false⟩ else s.pagedir t1 u1 }) ∨
    (b = false ∧ s1 = frame_free k s) := by
  unfold install at h
  by_cases hg : pagedir_get_page s cur a = none
  · rw [if_pos hg] at h
    have hn : s.pagedir cur a = none := by
      unfold pagedir_get_page at hg
      cases hpd : s.pagedir cur a with
      | none => rfl
      | some e => simp [hpd] at hg
    unfold pagedir_set_page at h
    simp only [hn, Option.isSome_none, Bool.false_eq_true, if_false] at h
    cases hr : s.pt_room cur a with
    | true =>
      simp only [hr, if_true, Prod.mk.injEq] at h
      exact Or.inl ⟨h.1.symm, hg, h.2.symm⟩
    | false =>
      simp only [hr, Bool.false_eq_true, if_false, Prod.mk.injEq] at h
      exact Or.inr ⟨h.1.symm, h.2.symm⟩
  · rw [if_neg hg] at h
    simp only [Prod.mk.injEq] at h
    exact Or.inr ⟨h.1.symm, h.2.symm⟩

theorem set_accessed_get_page (s : State) (t u : Nat) (b : Bool) (t1 u1 : Nat) :
    pagedir_get_page (pagedir_set_accessed s t u b) t1 u1 = pagedir_get_page s t1 u1 := by
  unfold pagedir_get_page pagedir_set_accessed
  by_cases h : t1 = t ∧ u1 = u
  · obtain ⟨rfl, rfl⟩ := h
    cases s.pagedir t1 u1 <;> simp
  · simp [h]

theorem set_dirty_get_page (s : State) (t u : Nat) (b : Bool) (t1 u1 : Nat) :
    pagedir_get_page (pagedir_set_dirty s t u b) t1 u1 = pagedir_get_page s t1 u1 := by
  unfold pagedir_get_page pagedir_set_dirty
  by_cases h : t1 = t ∧ u1 = u
  · obtain ⟨rfl, rfl⟩ := h
    cases s.pagedir t1 u1 <;> simp
  · simp [h]

/-- Installing the mapping of a pending frame at an unmapped address
establishes the invariants. -/
theorem pending_installed (cur a k : Nat) (w : Bool) (s : State)
    (hp : alloc_pending cur k a s) (hg : pagedir_get_page s cur a = none) :
    frame_inv { s with pagedir := fun t1 u1 =>
        if t1 = cur ∧ u1 = a then some ⟨k, w, false, false⟩ else s.pagedir t1 u1 } ∧
    alloc_ok { s with pagedir := fun t1 u1 =>
        if t1 = cur ∧ u1 = a then some ⟨k, w, false, false⟩ else s.pagedir t1 u1 } := by
  obtain ⟨old, htab, ⟨hmap, hnd⟩, hok⟩ := hp
  refine ⟨⟨?_, ?_⟩, alloc_ok_congr s _ rfl rfl hok⟩
  · intro f hf
    simp only [htab] at hf
    rcases List.mem_append.mp hf with h1 | h1
    · have hm := hmap f h1
      have hne : ¬ (f.thread = cur ∧ f.upage = a) := by
        rintro ⟨h2, h3⟩
        have : pagedir_get_page s f.thread f.upage = some f.addr := hm
        rw [h2, h3, hg] at this
        exact Option.noConfusion this
      have : pagedir_get_page s f.thread f.upage = some f.addr := hm
      simpa [pagedir_get_page, hne] using this
    · simp only [List.mem_singleton] at h1
      subst h1
      simp [pagedir_get_page]
  · simp only [htab, List.map_append, List.map_cons, List.map_nil]
    apply List.Nodup.append hnd (by simp)
    intro x hx hx2
    simp only [List.mem_singleton] at hx2
    obtain ⟨f, hf, rfl⟩ := List.mem_map.mp hx
    have hm : pagedir_get_page s f.thread f.upage = some f.addr := hmap f hf
    have h2 : f.thread = cur ∧ f.upage = a := by
      simpa [frame_key] using hx2
    rw [h2.1, h2.2, hg] at hm
    exact Option.noConfusion hm

/-- Freeing a pending frame re-establishes the invariants. -/
theorem pending_freed (cur a k : Nat) (s : State) (hp : alloc_pending cur k a s) :
    frame_inv (frame_free k s) ∧ alloc_ok (frame_free k s) ∧
    (frame_free k s).page_table = s.page_table ∧ (frame_free k s).pagedir = s.pagedir := by
  obtain ⟨old, htab, hinv, hnd, hfree, hpool⟩ := hp
  rw [htab, List.map_append] at hnd
  have hdis := List.disjoint_of_nodup_append hnd
  have hold : ∀ g ∈ old, g.addr ≠ k := by
    intro g hg hgk
    exact hdis (List.mem_map_of_mem (fun f => f.addr) hg) (by simp [hgk])
  have hff := frame_free_present k s old [] ⟨cur, k, a⟩ htab rfl hold
  rw [hff]
  refine ⟨?_, ⟨?_, ?_, ?_⟩, rfl, rfl⟩
  · exact frame_inv_congr { s with frame_table := old } _ (by simp [palloc_free_page])
      (fun t u => rfl) hinv
  · simp only [palloc_free_page, List.append_nil]
    exact hnd.of_append_left
  · intro f hf
    simp only [palloc_free_page, List.append_nil] at hf ⊢
    intro hin
    rcases List.mem_cons.mp hin with h1 | h1
    · exact hold f hf h1
    · exact hfree f (by rw [htab]; exact List.mem_append_left _ hf) h1
  · simp only [palloc_free_page]
    apply List.nodup_cons.mpr
    exact ⟨hfree ⟨cur, k, a⟩ (by rw [htab]; simp), hpool⟩

/-- Installing the mapping of a pending frame, whatever the outcome, leaves
the invariants established. -/
theorem pending_install (cur a k : Nat) (w : Bool) (s s1 : State) (b : Bool)
    (hp : alloc_pending cur k a s) (h : install cur a k w s = (b, s1)) :
    frame_inv s1 ∧ alloc_ok s1 := by
  rcases install_cases cur a k w s s1 b h with ⟨-, hg, rfl⟩ | ⟨-, rfl⟩
  · exact pending_installed cur a k w s hp hg
  · exact ⟨(pending_freed cur a k s hp).1, (pending_freed cur a k s hp).2.1⟩

theorem inv_set_accessed (s : State) (t u : Nat) (b : Bool)
    (h : frame_inv s ∧ alloc_ok s) :
    frame_inv (pagedir_set_accessed s t u b) ∧ alloc_ok (pagedir_set_accessed s t u b) :=
  ⟨frame_inv_congr s _ rfl (fun t1 u1 => set_accessed_get_page s t u b t1 u1) h.1,
   alloc_ok_congr s _ rfl rfl h.2⟩

theorem inv_set_dirty (s : State) (t u : Nat) (b : Bool)
    (h : frame_inv s ∧ alloc_ok s) :
    frame_inv (pagedir_set_dirty s t u b) ∧ alloc_ok (pagedir_set_dirty s t u b) :=
  ⟨frame_inv_congr s _ rfl (fun t1 u1 => set_dirty_get_page s t u b t1 u1) h.1,
   alloc_ok_congr s _ rfl rfl h.2⟩

theorem swap_in_fields (s s2 : State) (idx k : Nat) (h : swap_in s idx k = some s2) :
    s2.frame_table = s.frame_table ∧ s2.pagedir = s.pagedir ∧ s2.pool = s.pool ∧
    s2.page_table = s.page_table ∧ s2.pt_room = s.pt_room := by
  unfold swap_in at h
  cases hs : s.swap_slots idx with
  | none => simp [hs] at h
  | some d =>
    simp only [hs, Option.some.injEq] at h
    subst h
    exact ⟨rfl, rfl, rfl, rfl, rfl⟩

theorem frame_free_inv (a : Nat) (s : State) (hi : frame_inv s) (ha : alloc_ok s) :
    frame_inv (frame_free a s) ∧ alloc_ok (frame_free a s) := by
  cases hl : frame_free_loop a s.frame_table with
  | none =>
    rw [frame_free_absent a s ((frame_free_loop_none a _).mp hl)]
    exact ⟨hi, ha⟩
  | some l1 =>
    obtain ⟨pre, f, post, htab, hfa, hpre, rfl⟩ := frame_free_loop_some a _ _ hl
    rw [frame_free_present a s pre post f htab hfa hpre]
    obtain ⟨hmap, hkeys⟩ := hi
    obtain ⟨hnd, hfree, hpool⟩ := ha
    have hsub : ∀ g ∈ pre ++ post, g ∈ s.frame_table := by
      intro g hg
      rw [htab]
      rcases List.mem_append.mp hg with h1 | h1
      · exact List.mem_append_left _ h1
      · exact List.mem_append_right _ (List.mem_cons_of_mem _ h1)
    rw [htab, List.map_append, List.map_cons] at hkeys hnd
    have hk2 := (List.nodup_cons.mp (List.nodup_middle.mp hkeys)).2
    have hn2 := List.nodup_cons.mp (List.nodup_middle.mp hnd)
    refine ⟨⟨?_, ?_⟩, ?_, ?_, ?_⟩
    · intro g hg
      exact hmap g (hsub g hg)
    · simp only [palloc_free_page, List.map_append]
      exact hk2
    · simp only [palloc_free_page, List.map_append]
      exact hn2.2
    · intro g hg
      simp only [palloc_free_page] at hg ⊢
      intro hin
      rcases List.mem_cons.mp hin with h1 | h1
      · apply hn2.1
        rw [hfa, ← h1, ← List.map_append]
        exact List.mem_map_of_mem (fun f => f.addr) hg
      · exact hfree g (hsub g hg) h1
    · simp only [palloc_free_page]
      apply List.nodup_cons.mpr
      refine ⟨?_, hpool⟩
      rw [← hfa]
      exact hfree f (by rw [htab]; simp)

theorem frame_evict_inv (zero : Bool) (s s1 : State) (r : Option Nat)
    (hi : frame_inv s) (ha : alloc_ok s) (h : frame_evict zero s = some (r, s1)) :
    frame_inv s1 ∧ alloc_ok s1 := by
  obtain ⟨pre, post, L, v, pg, pg1, slots, htab, -, -, rfl, -⟩ :=
    frame_evict_shape zero s s1 r h
  exact ⟨frame_inv_evicted zero s pre post L v pg1 slots htab hi,
    (alloc_ok_evicted zero s pre post L v pg1 slots htab ha).1⟩

theorem page_load_zero_inv (cur tbl a : Nat) (s s1 : State) (b : Bool)
    (hi : frame_inv s) (ha : alloc_ok s)
    (h : page_load_zero cur tbl a s = some (b, s1)) :
    frame_inv s1 ∧ alloc_ok s1 := by
  unfold page_load_zero at h
  cases hpt : s.page_table tbl a with
  | none => simp [hpt] at h
  | some pg =>
    cases hfa : frame_alloc cur a true s with
    | none => simp [hpt, hfa] at h
    | some res =>
      obtain ⟨kp, s2⟩ := res
      cases kp with
      | none => exact absurd hfa (frame_alloc_never_null cur a true s s2)
      | some k =>
        have hp := frame_alloc_pending cur a true s s2 k hi ha hfa
        simp only [hpt, hfa] at h
        cases hin : install cur a k true s2 with
        | mk b2 s3 =>
          have h3 := pending_install cur a k true s2 s3 b2 hp hin
          cases b2 with
          | false =>
            simp only [hin, Option.some.injEq, Prod.mk.injEq] at h
            obtain ⟨-, rfl⟩ := h
            exact h3
          | true =>
            simp only [hin, Option.some.injEq, Prod.mk.injEq] at h
            obtain ⟨-, rfl⟩ := h
            exact inv_set_accessed s3 cur a true h3

theorem page_load_swap_inv (cur tbl a : Nat) (s s1 : State) (b : Bool)
    (hi : frame_inv s) (ha : alloc_ok s)
    (h : page_load_swap cur tbl a s = some (b, s1)) :
    frame_inv s1 ∧ alloc_ok s1 := by
  unfold page_load_swap at h
  cases hpt : s.page_table tbl a with
  | none => simp [hpt] at h
  | some pg0 =>
    cases hfa : frame_alloc cur a false s with
    | none => simp [hpt, hfa] at h
    | some res =>
      obtain ⟨kp, s2⟩ := res
      simp only [hpt, hfa] at h
      cases hpt2 : s2.page_table tbl a with
      | none => simp [hpt2] at h
      | some pg =>
        simp only [hpt2] at h
        cases hv : pg.valid with
        | true => simp [hv] at h
        | false =>
          simp only [hv, Bool.false_eq_true, if_false] at h
          cases kp with
          | none => simp at h
          | some k =>
            have hp := frame_alloc_pending cur a false s s2 k hi ha hfa
            simp only at h
            cases hsi : swap_in s2 pg.swap_idx k with
            | none => simp [hsi] at h
            | some s3 =>
              obtain ⟨f1, f2, f3, -, -⟩ := swap_in_fields s2 s3 _ _ hsi
              have hp3 : alloc_pending cur k a s3 :=
                alloc_pending_congr f1 (fun t u => by simp [pagedir_get_page, f2]) f3 hp
              simp only [hsi] at h
              cases hin : install cur a k true s3 with
              | mk b2 s4 =>
                have h4 := pending_install cur a k true s3 s4 b2 hp3 hin
                cases b2 with
                | false =>
                  simp only [hin, Option.some.injEq, Prod.mk.injEq] at h
                  obtain ⟨-, rfl⟩ := h
                  exact h4
                | true =>
                  simp only [hin, Option.some.injEq, Prod.mk.injEq] at h
                  obtain ⟨-, rfl⟩ := h
                  have h5 := inv_set_accessed _ cur a true (inv_set_dirty s4 cur a true h4)
                  exact ⟨frame_inv_congr _ _ rfl (fun t u => rfl) h5.1,
                    alloc_ok_congr _ _ rfl rfl h5.2⟩

theorem page_load_file_inv (cur tbl a : Nat) (s s1 : State) (b : Bool)
    (hi : frame_inv s) (ha : alloc_ok s)
    (h : page_load_file cur tbl a s = some (b, s1)) :
    frame_inv s1 ∧ alloc_ok s1 := by
  unfold page_load_file at h
  cases hpt : s.page_table tbl a with
  | none => simp [hpt] at h
  | some pg0 =>
    simp only [hpt] at h
    by_cases hfile : pg0.file = none
    · simp [hfile] at h
    · rw [if_neg hfile] at h
      cases hfa : frame_alloc cur a (pg0.file_read_bytes == 0) s with
      | none => simp [hfa] at h
      | some res =>
        obtain ⟨kp, s2⟩ := res
        cases kp with
        | none => exact absurd hfa (frame_alloc_never_null cur a _ s s2)
        | some k =>
          have hp := frame_alloc_pending cur a _ s s2 k hi ha hfa
          simp only [hfa] at h
          cases hpt2 : s2.page_table tbl a with
          | none => simp [hpt2] at h
          | some pg =>
            simp only [hpt2] at h
            have hfin : ∀ (s3 s4 : State) (b2 : Bool), alloc_pending cur k a s3 →
                install cur a k pg.file_writable s3 = (b2, s4) →
                (match (b2, s4) with
                  | (false, s5) => some (false, s5)
                  | (true, s5) => some (true, pagedir_set_accessed s5 cur a true)) =
                  some (b, s1) →
                frame_inv s1 ∧ alloc_ok s1 := by
              intro s3 s4 b2 hp3 hin hres
              have h4 := pending_install cur a k pg.file_writable s3 s4 b2 hp3 hin
              cases b2 with
              | false =>
                simp only [Option.some.injEq, Prod.mk.injEq] at hres
                obtain ⟨-, rfl⟩ := hres
                exact h4
              | true =>
                simp only [Option.some.injEq, Prod.mk.injEq] at hres
                obtain ⟨-, rfl⟩ := hres
                exact inv_set_accessed s4 cur a true h4
            by_cases hrb : pg.file_read_bytes > 0
            · rw [if_pos hrb] at h
              cases hfl : pg.file with
              | none => simp [hfl] at h
              | some file =>
                simp only [hfl] at h
                have hp2 : alloc_pending cur k a
                    (file_read_at s2 file k pg.file_read_bytes pg.file_ofs).2 :=
                  alloc_pending_congr rfl (fun t u => rfl) rfl hp
                by_cases hbig : (file_read_at s2 file k pg.file_read_bytes pg.file_ofs).1 > PGSIZE
                · simp [hbig] at h
                · rw [if_neg hbig] at h
                  by_cases hshort : pg.file_read_bytes ≠
                      (file_read_at s2 file k pg.file_read_bytes pg.file_ofs).1
                  · rw [if_pos hshort] at h
                    simp only [Option.some.injEq, Prod.mk.injEq] at h
                    obtain ⟨-, rfl⟩ := h
                    have h5 := pending_freed cur a k _ hp2
                    exact ⟨h5.1, h5.2.1⟩
                  · rw [if_neg hshort] at h
                    have hp3 : alloc_pending cur k a
                        (memset_tail (file_read_at s2 file k pg.file_read_bytes pg.file_ofs).2 k
                          pg.file_read_bytes) :=
                      alloc_pending_congr rfl (fun t u => rfl) rfl hp2
                    cases hin : install cur a k pg.file_writable
                        (memset_tail (file_read_at s2 file k pg.file_read_bytes pg.file_ofs).2 k
                          pg.file_read_bytes) with
                    | mk b2 s4 =>
                      rw [hin] at h
                      exact hfin _ s4 b2 hp3 hin h
            · rw [if_neg hrb] at h
              cases hin : install cur a k pg.file_writable s2 with
              | mk b2 s4 =>
                rw [hin] at h
                exact hfin _ s4 b2 hp hin h

/-- C7: in a state where the frame invariant holds (every frame's `upage` is
mapped to its `addr` in its thread's hardware page table, and no two frames
record the same (thread, upage) pair) and the frame table agrees with the
allocator, every return of `page_load_zero`, `page_load_file`,
`page_load_swap`, `frame_free` and `frame_evict` leaves a state where both
hold again. -/
theorem frame_inv_preserved (s : State) (hi : frame_inv s) (ha : alloc_ok s) :
    (∀ cur tbl a b s1, page_load_zero cur tbl a s = some (b, s1) →
      frame_inv s1 ∧ alloc_ok s1) ∧
    (∀ cur tbl a b s1, page_load_file cur tbl a s = some (b, s1) →
      frame_inv s1 ∧ alloc_ok s1) ∧
    (∀ cur tbl a b s1, page_load_swap cur tbl a s = some (b, s1) →
      frame_inv s1 ∧ alloc_ok s1) ∧
    (∀ a, frame_inv (frame_free a s) ∧ alloc_ok (frame_free a s)) ∧
    (∀ zero r s1, frame_evict zero s = some (r, s1) → frame_inv s1 ∧ alloc_ok s1) :=
  ⟨fun cur tbl a b s1 h => page_load_zero_inv cur tbl a s s1 b hi ha h,
   fun cur tbl a b s1 h => page_load_file_inv cur tbl a s s1 b hi ha h,
   fun cur tbl a b s1 h => page_load_swap_inv cur tbl a s s1 b hi ha h,
   fun a => frame_free_inv a s hi ha,
   fun zero r s1 h => frame_evict_inv zero s s1 r hi ha h⟩

theorem frame_inv_preserved_witness :
    (frame_inv one_page_mapped ∧ alloc_ok one_page_mapped) ∧
    page_load_zero 1 1 10 one_page_mapped = some (true, one_page_reloaded) ∧
    one_page_reloaded.frame_table = [⟨1, 200, 10⟩] ∧
    (frame_inv one_page_reloaded ∧ alloc_ok one_page_reloaded) ∧
    (frame_inv (frame_free 200 one_page_mapped) ∧
      alloc_ok (frame_free 200 one_page_mapped)) :=
  ⟨⟨by unfold frame_inv; decide, by unfold alloc_ok; decide⟩, rfl, rfl,
   (frame_inv_preserved one_page_mapped (by unfold frame_inv; decide)
     (by unfold alloc_ok; decide)).1 1 1 10 true one_page_reloaded rfl,
   (frame_inv_preserved one_page_mapped (by unfold frame_inv; decide)
     (by unfold alloc_ok; decide)).2.2.2.1 200⟩

/-! ## Swapped-out pages are not mapped -/

theorem swapped_unmapped_congr (s s1 : State) (h1 : s1.page_table = s.page_table)
    (h2 : ∀ t u, pagedir_get_page s1 t u = pagedir_get_page s t u)
    (h : swapped_unmapped s) : swapped_unmapped s1 := by
  intro t a e he hv
  rw [h2]
  rw [h1] at he
  exact h t a e he hv

theorem swapped_unmapped_evicted (zero : Bool) (s : State) (L : List frame) (v : frame)
    (i : Nat) (pg1 : page) (slots : Nat → Option (Nat → Nat)) (h : swapped_unmapped s) :
    swapped_unmapped (evicted zero v i pg1 slots (clear_accessed L s)) := by
  intro t a e he hv
  rw [evicted_get_page]
  by_cases hk : t = v.thread ∧ a = v.upage
  · rw [if_pos hk]
  · rw [if_neg hk, clear_accessed_get_page]
    simp only [evicted, clear_accessed_page_table, hk, if_false] at he
    exact h t a e he hv

theorem frame_alloc_swapped_unmapped (cur a : Nat) (zero : Bool) (s s1 : State) (k : Nat)
    (hsu : swapped_unmapped s) (h : frame_alloc cur a zero s = some (some k, s1)) :
    swapped_unmapped s1 := by
  cases hp : s.pool with
  | cons q rest =>
    rw [frame_alloc_of_free cur a zero s q rest hp] at h
    simp only [Option.some.injEq, Prod.mk.injEq] at h
    obtain ⟨-, rfl⟩ := h
    exact swapped_unmapped_congr s _ (by simp [palloc_get_page, hp])
      (fun t u => by simp [palloc_get_page, hp, pagedir_get_page]) hsu
  | nil =>
    cases he : frame_evict zero s with
    | none =>
      unfold frame_alloc at h
      simp [palloc_get_page, hp, he] at h
    | some res =>
      obtain ⟨r, s2⟩ := res
      obtain ⟨pre, post, L, v, pg, pg1, slots, htab, -, rfl, rfl, -⟩ :=
        frame_evict_shape zero s s2 r he
      rw [frame_alloc_of_evict cur a zero s _ v.addr hp he] at h
      simp only [Option.some.injEq, Prod.mk.injEq] at h
      obtain ⟨-, rfl⟩ := h
      exact swapped_unmapped_congr _ _ rfl (fun t u => rfl)
        (swapped_unmapped_evicted zero s L v pre.length pg1 slots hsu)

/-- When the address is unmapped and the frames are mapped, `frame_alloc`
leaves the address unmapped and its entry as it was. -/
theorem frame_alloc_unmapped_entry (cur a : Nat) (zero : Bool) (s s1 : State) (k : Nat)
    (t : Nat) (hi : frame_inv s) (hg : pagedir_get_page s t a = none)
    (h : frame_alloc cur a zero s = some (some k, s1)) :
    pagedir_get_page s1 t a = none ∧ s1.page_table t a = s.page_table t a := by
  cases hp : s.pool with
  | cons q rest =>
    rw [frame_alloc_of_free cur a zero s q rest hp] at h
    simp only [Option.some.injEq, Prod.mk.injEq] at h
    obtain ⟨-, rfl⟩ := h
    refine ⟨?_, by simp [palloc_get_page, hp]⟩
    simpa [palloc_get_page, hp, pagedir_get_page] using hg
  | nil =>
    cases he : frame_evict zero s with
    | none =>
      unfold frame_alloc at h
      simp [palloc_get_page, hp, he] at h
    | some res =>
      obtain ⟨r, s2⟩ := res
      obtain ⟨pre, post, L, v, pg, pg1, slots, htab, -, rfl, rfl, -⟩ :=
        frame_evict_shape zero s s2 r he
      rw [frame_alloc_of_evict cur a zero s _ v.addr hp he] at h
      simp only [Option.some.injEq, Prod.mk.injEq] at h
      obtain ⟨-, rfl⟩ := h
      have hv : pagedir_get_page s v.thread v.upage = some v.addr :=
        hi.1 v (by rw [htab]; simp)
      have hk : ¬ (t = v.thread ∧ a = v.upage) := by
        rintro ⟨h1, h2⟩
        rw [← h1, ← h2, hg] at hv
        exact Option.noConfusion hv
      constructor
      · have := evicted_get_page zero v pre.length pg1 slots (clear_accessed L s) t a
        rw [if_neg hk, clear_accessed_get_page, hg] at this
        exact this
      · simp [evicted, hk]

theorem frame_free_fields (a : Nat) (s : State) :
    (frame_free a s).page_table = s.page_table ∧ (frame_free a s).pagedir = s.pagedir := by
  unfold frame_free
  cases frame_free_loop a s.frame_table <;> exact ⟨rfl, rfl⟩

theorem swapped_unmapped_frame_free (a : Nat) (s : State) (h : swapped_unmapped s) :
    swapped_unmapped (frame_free a s) :=
  swapped_unmapped_congr s _ (frame_free_fields a s).1
    (fun t u => by simp [pagedir_get_page, (frame_free_fields a s).2]) h

/-- A state that differs from one without mapped swapped-out pages only at one
address, whose entry is valid, has no mapped swapped-out page either. -/
theorem swapped_unmapped_update (s s1 : State) (cur a : Nat) (h : swapped_unmapped s)
    (hpt : ∀ t a1, ¬ (t = cur ∧ a1 = a) → s1.page_table t a1 = s.page_table t a1)
    (hpd : ∀ t a1, ¬ (t = cur ∧ a1 = a) →
      pagedir_get_page s1 t a1 = pagedir_get_page s t a1)
    (hv : ∀ e, s1.page_table cur a = some e → e.valid = true) :
    swapped_unmapped s1 := by
  intro t a1 e he hval
  by_cases hk : t = cur ∧ a1 = a
  · obtain ⟨rfl, rfl⟩ := hk
    have := hv e he
    rw [hval] at this
    exact absurd this (by simp)
  · rw [hpd t a1 hk]
    rw [hpt t a1 hk] at he
    exact h t a1 e he hval

theorem install_swapped_unmapped (cur a k : Nat) (w : Bool) (s s1 : State) (b : Bool)
    (hsu : swapped_unmapped s) (hval : ∀ e, s.page_table cur a = some e → e.valid = true)
    (h : install cur a k w s = (b, s1)) :
    swapped_unmapped s1 := by
  rcases install_cases cur a k w s s1 b h with ⟨-, -, rfl⟩ | ⟨-, rfl⟩
  · apply swapped_unmapped_update s _ cur a hsu
    · intro t a1 _; rfl
    · intro t a1 hk; simp [pagedir_get_page, hk]
    · exact hval
  · exact swapped_unmapped_frame_free k s hsu

theorem page_insert_inv (cur a : Nat) (fresh : page) (s : State)
    (h : frame_inv s ∧ alloc_ok s ∧ swapped_unmapped s) :
    frame_inv (page_insert cur a fresh s).2 ∧ alloc_ok (page_insert cur a fresh s).2 ∧
      swapped_unmapped (page_insert cur a fresh s).2 := by
  unfold page_insert
  cases hpt : s.page_table cur a with
  | some old => exact h
  | none =>
    refine ⟨frame_inv_congr s _ rfl (fun t u => rfl) h.1, alloc_ok_congr s _ rfl rfl h.2.1, ?_⟩
    apply swapped_unmapped_update s _ cur a h.2.2
    · intro t a1 hk; simp [hk]
    · intro t a1 _; rfl
    · intro e he
      simp only [and_self, if_true, Option.some.injEq] at he
      rw [← he]

theorem page_load_zero_swapped_unmapped (cur a : Nat) (s s1 : State) (b : Bool)
    (hi : frame_inv s) (hsu : swapped_unmapped s)
    (hval : ∃ e, s.page_table cur a = some e ∧ e.valid = true)
    (hg : pagedir_get_page s cur a = none)
    (h : page_load_zero cur cur a s = some (b, s1)) :
    swapped_unmapped s1 := by
  obtain ⟨e0, he0, hv0⟩ := hval
  unfold page_load_zero at h
  simp only [he0] at h
  cases hfa : frame_alloc cur a true s with
  | none => simp [hfa] at h
  | some res =>
    obtain ⟨kp, s2⟩ := res
    cases kp with
    | none => exact absurd hfa (frame_alloc_never_null cur a true s s2)
    | some k =>
      have hsu2 := frame_alloc_swapped_unmapped cur a true s s2 k hsu hfa
      have hent := frame_alloc_unmapped_entry cur a true s s2 k cur hi hg hfa
      simp only [hfa] at h
      cases hin : install cur a k true s2 with
      | mk b2 s3 =>
        have h3 := install_swapped_unmapped cur a k true s2 s3 b2 hsu2
          (by
            intro e he
            rw [hent.2, he0] at he
            simp only [Option.some.injEq] at he
            rw [← he]; exact hv0) hin
        cases b2 with
        | false =>
          simp only [hin, Option.some.injEq, Prod.mk.injEq] at h
          obtain ⟨-, rfl⟩ := h
          exact h3
        | true =>
          simp only [hin, Option.some.injEq, Prod.mk.injEq] at h
          obtain ⟨-, rfl⟩ := h
          exact swapped_unmapped_congr s3 _ rfl
            (fun t u => set_accessed_get_page s3 cur a true t u) h3

theorem page_load_file_swapped_unmapped (cur a : Nat) (s s1 : State) (b : Bool)
    (hi : frame_inv s) (hsu : swapped_unmapped s)
    (hval : ∃ e, s.page_table cur a = some e ∧ e.valid = true)
    (hg : pagedir_get_page s cur a = none)
    (h : page_load_file cur cur a s = some (b, s1)) :
    swapped_unmapped s1 := by
  obtain ⟨e0, he0, hv0⟩ := hval
  unfold page_load_file at h
  simp only [he0] at h
  by_cases hfile : e0.file = none
  · simp [hfile] at h
  · rw [if_neg hfile] at h
    cases hfa : frame_alloc cur a (e0.file_read_bytes == 0) s with
    | none => simp [hfa] at h
    | some res =>
      obtain ⟨kp, s2⟩ := res
      cases kp with
      | none => exact absurd hfa (frame_alloc_never_null cur a _ s s2)
      | some k =>
        have hsu2 := frame_alloc_swapped_unmapped cur a _ s s2 k hsu hfa
        have hent := frame_alloc_unmapped_entry cur a _ s s2 k cur hi hg hfa
        have hpt2 : s2.page_table cur a = some e0 := by rw [hent.2, he0]
        simp only [hfa, hpt2] at h
        have hfin : ∀ (s3 s4 : State) (b2 : Bool), swapped_unmapped s3 →
            s3.page_table = s2.page_table →
            install cur a k e0.file_writable s3 = (b2, s4) →
            (match (b2, s4) with
              | (false, s5) => some (false, s5)
              | (true, s5) => some (true, pagedir_set_accessed s5 cur a true)) =
              some (b, s1) →
            swapped_unmapped s1 := by
          intro s3 s4 b2 hsu3 hpt3 hin hres
          have h4 := install_swapped_unmapped cur a k e0.file_writable s3 s4 b2 hsu3
            (by
              intro e he
              rw [hpt3, hpt2] at he
              simp only [Option.some.injEq] at he
              rw [← he]; exact hv0) hin
          cases b2 with
          | false =>
            simp only [Option.some.injEq, Prod.mk.injEq] at hres
            obtain ⟨-, rfl⟩ := hres
            exact h4
          | true =>
            simp only [Option.some.injEq, Prod.mk.injEq] at hres
            obtain ⟨-, rfl⟩ := hres
            exact swapped_unmapped_congr s4 _ rfl
              (fun t u => set_accessed_get_page s4 cur a true t u) h4
        by_cases hrb : e0.file_read_bytes > 0
        · rw [if_pos hrb] at h
          cases hfl : e0.file with
          | none => simp [hfl] at h
          | some file =>
            simp only [hfl] at h
            have hsu3 : swapped_unmapped
                (file_read_at s2 file k e0.file_read_bytes e0.file_ofs).2 :=
              swapped_unmapped_congr s2 _ rfl (fun t u => rfl) hsu2
            by_cases hbig : (file_read_at s2 file k e0.file_read_bytes e0.file_ofs).1 > PGSIZE
            · simp [hbig] at h
            · rw [if_neg hbig] at h
              by_cases hshort : e0.file_read_bytes ≠
                  (file_read_at s2 file k e0.file_read_bytes e0.file_ofs).1
              · rw [if_pos hshort] at h
                simp only [Option.some.injEq, Prod.mk.injEq] at h
                obtain ⟨-, rfl⟩ := h
                exact swapped_unmapped_frame_free k _ hsu3
              · rw [if_neg hshort] at h
                have hsu4 : swapped_unmapped
                    (memset_tail (file_read_at s2 file k e0.file_read_bytes e0.file_ofs).2 k
                      e0.file_read_bytes) :=
                  swapped_unmapped_congr _ _ rfl (fun t u => rfl) hsu3
                cases hin : install cur a k e0.file_writable
                    (memset_tail (file_read_at s2 file k e0.file_read_bytes e0.file_ofs).2 k
                      e0.file_read_bytes) with
                | mk b2 s4 =>
                  rw [hin] at h
                  exact hfin _ s4 b2 hsu4 rfl hin h
        · rw [if_neg hrb] at h
          cases hin : install cur a k e0.file_writable s2 with
          | mk b2 s4 =>
            rw [hin] at h
            exact hfin _ s4 b2 hsu2 rfl hin h

theorem page_load_swap_swapped_unmapped (cur a : Nat) (s s1 : State) (b : Bool)
    (hsu : swapped_unmapped s)
    (h : page_load_swap cur cur a s = some (b, s1)) :
    swapped_unmapped s1 := by
  unfold page_load_swap at h
  cases hpt : s.page_table cur a with
  | none => simp [hpt] at h
  | some pg0 =>
    cases hfa : frame_alloc cur a false s with
    | none => simp [hpt, hfa] at h
    | some res =>
      obtain ⟨kp, s2⟩ := res
      simp only [hpt, hfa] at h
      cases hpt2 : s2.page_table cur a with
      | none => simp [hpt2] at h
      | some pg =>
        simp only [hpt2] at h
        cases hv : pg.valid with
        | true => simp [hv] at h
        | false =>
          simp only [hv, Bool.false_eq_true, if_false] at h
          cases kp with
          | none => simp at h
          | some k =>
            have hsu2 := frame_alloc_swapped_unmapped cur a false s s2 k hsu hfa
            simp only at h
            cases hsi : swap_in s2 pg.swap_idx k with
            | none => simp [hsi] at h
            | some s3 =>
              obtain ⟨-, f2, -, f4, -⟩ := swap_in_fields s2 s3 _ _ hsi
              have hsu3 : swapped_unmapped s3 :=
                swapped_unmapped_congr s2 s3 f4
                  (fun t u => by simp [pagedir_get_page, f2]) hsu2
              simp only [hsi] at h
              cases hin : install cur a k true s3 with
              | mk b2 s4 =>
                rcases install_cases cur a k true s3 s4 b2 hin with
                  ⟨rfl, -, rfl⟩ | ⟨rfl, rfl⟩
                · simp only [hin, Option.some.injEq, Prod.mk.injEq] at h
                  obtain ⟨-, rfl⟩ := h
                  apply swapped_unmapped_update s3 _ cur a hsu3
                  · intro t a1 hk; simp [hk, pagedir_set_accessed, pagedir_set_dirty]
                  · intro t a1 hk
                    simp [pagedir_get_page, pagedir_set_accessed, pagedir_set_dirty, hk]
                  · intro e he
                    simp only [and_self, if_true, Option.some.injEq] at he
                    rw [← he]
                · simp only [hin, Option.some.injEq, Prod.mk.injEq] at h
                  obtain ⟨-, rfl⟩ := h
                  exact swapped_unmapped_frame_free k s3 hsu3

theorem frame_evict_swapped_unmapped (zero : Bool) (s s1 : State) (r : Option Nat)
    (hsu : swapped_unmapped s) (h : frame_evict zero s = some (r, s1)) :
    swapped_unmapped s1 := by
  obtain ⟨pre, post, L, v, pg, pg1, slots, -, -, -, rfl, -⟩ :=
    frame_evict_shape zero s s1 r h
  exact swapped_unmapped_evicted zero s L v pre.length pg1 slots hsu

/-- Every state the subsystem goes through satisfies the frame invariant, has
the frame table agree with the allocator, and has no swapped-out page
mapped. -/
theorem reach_inv (s : State) (h : Reach s) :
    frame_inv s ∧ alloc_ok s ∧ swapped_unmapped s := by
  induction h with
  | init s h1 h2 h3 =>
    refine ⟨⟨?_, ?_⟩, ⟨?_, ?_, h3⟩, ?_⟩
    · intro f hf; rw [h1] at hf; simp at hf
    · rw [h1]; simp
    · rw [h1]; simp
    · intro f hf; rw [h1] at hf; simp at hf
    · intro t a e he; rw [h2] at he; simp at he
  | insert s cur a fresh _ ih => exact page_insert_inv cur a fresh s ih
  | load_zero s cur a b s1 _ hval hg hop ih =>
    have h1 := page_load_zero_inv cur cur a s s1 b ih.1 ih.2.1 hop
    exact ⟨h1.1, h1.2,
      page_load_zero_swapped_unmapped cur a s s1 b ih.1 ih.2.2 hval hg hop⟩
  | load_file s cur a b s1 _ hval hg hop ih =>
    have h1 := page_load_file_inv cur cur a s s1 b ih.1 ih.2.1 hop
    exact ⟨h1.1, h1.2,
      page_load_file_swapped_unmapped cur a s s1 b ih.1 ih.2.2 hval hg hop⟩
  | load_swap s cur a b s1 _ hop ih =>
    have h1 := page_load_swap_inv cur cur a s s1 b ih.1 ih.2.1 hop
    exact ⟨h1.1, h1.2, page_load_swap_swapped_unmapped cur a s s1 b ih.2.2 hop⟩
  | evict s zero r s1 _ hop ih =>
    have h1 := frame_evict_inv zero s s1 r ih.1 ih.2.1 hop
    exact ⟨h1.1, h1.2, frame_evict_swapped_unmapped zero s s1 r ih.2.2 hop⟩
  | free s a _ ih =>
    have h1 := frame_free_inv a s ih.1 ih.2.1
    exact ⟨h1.1, h1.2, swapped_unmapped_frame_free a s ih.2.2⟩
  | hw_read s t u _ ih =>
    have h1 := inv_set_accessed s t u true ⟨ih.1, ih.2.1⟩
    exact ⟨h1.1, h1.2, swapped_unmapped_congr s _ rfl
      (fun t1 u1 => set_accessed_get_page s t u true t1 u1) ih.2.2⟩
  | hw_write s t u _ ih =>
    have h1 := inv_set_dirty _ t u true (inv_set_accessed s t u true ⟨ih.1, ih.2.1⟩)
    exact ⟨h1.1, h1.2, swapped_unmapped_congr s _ rfl
      (fun t1 u1 => by rw [set_dirty_get_page, set_accessed_get_page]) ih.2.2⟩

/-- The run `one_free_page`, `run_inserted`, `run_loaded`, `run_written`,
`run_evicted` is a run of the subsystem. -/
theorem run_evicted_reach : Reach run_evicted :=
  Reach.evict run_written false (some 200) run_evicted
    (Reach.hw_write run_loaded 1 10
      (Reach.load_zero run_inserted 1 10 true run_loaded
        (Reach.insert one_free_page 1 10 garbage_page
          (Reach.init one_free_page rfl (fun _ _ => rfl) (by decide)))
        ⟨_, rfl, rfl⟩ rfl rfl))
    rfl

/-- C6, refuted as stated: from the empty tables of `one_free_page`, after
`page_insert` of page 10 the entry is valid although the address is not
mapped; and after loading the page and evicting it while clean, the entry is
valid again although the address is not mapped. -/
theorem valid_iff_mapped_counterexample :
    one_free_page.frame_table = [] ∧
    (∀ t a, one_free_page.page_table t a = none) ∧
    (page_find run_inserted 1 10).map (fun e => e.valid) = some true ∧
    pagedir_get_page run_inserted 1 10 = none ∧
    page_load_zero 1 1 10 run_inserted = some (true, run_loaded) ∧
    pagedir_get_page run_loaded 1 10 = some 200 ∧
    frame_evict false run_loaded = some (some 200, run_evicted_clean) ∧
    (page_find run_evicted_clean 1 10).map (fun e => e.valid) = some true ∧
    pagedir_get_page run_evicted_clean 1 10 = none :=
  ⟨rfl, fun _ _ => rfl, by decide, by decide, rfl, by decide, rfl, by decide, by decide⟩

/-- C6, amended: at every state the subsystem goes through from empty tables
(the loads called by the owning thread, `page_load_zero` and `page_load_file`
for a valid entry at an unmapped address, the hardware setting accessed and
dirty bits in between), a page entry whose `valid` flag is false is not mapped
in the hardware page table of its thread. -/
theorem swapped_out_not_mapped (s : State) (h : Reach s) (t a : Nat) (e : page)
    (he : page_find s t a = some e) (hv : e.valid = false) :
    pagedir_get_page s t a = none :=
  (reach_inv s h).2.2 t a e he hv

theorem swapped_out_not_mapped_witness :
    page_find run_evicted 1 10 = some ⟨none, 1, 2, true, false, true, 0⟩ ∧
    pagedir_get_page run_evicted 1 10 = none :=
  ⟨rfl, swapped_out_not_mapped run_evicted run_evicted_reach 1 10
    ⟨none, 1, 2, true, false, true, 0⟩ rfl rfl⟩

/-! ## The loads, split at `frame_alloc` -/

theorem page_load_swap_split (cur tbl a : Nat) (s : State) :
    page_load_swap cur tbl a s =
      match s.page_table tbl a with
      | none => none
      | some _ =>
        match frame_alloc cur a false s with
        | none => none
        | some (kpage, s1) => page_load_swap_rest cur tbl a kpage s1 := by
  unfold page_load_swap page_load_swap_rest
  rfl

theorem page_load_zero_split (cur tbl a : Nat) (s : State) :
    page_load_zero cur tbl a s =
      match s.page_table tbl a with
      | none => none
      | some _ =>
        match frame_alloc cur a true s with
        | none => none
        | some (kpage, s1) => page_load_zero_rest cur a kpage s1 := by
  unfold page_load_zero page_load_zero_rest
  cases s.page_table tbl a with
  | none => rfl
  | some pg =>
    cases frame_alloc cur a true s with
    | none => rfl
    | some res =>
      obtain ⟨kp, s1⟩ := res
      cases kp <;> rfl

theorem page_load_file_split (cur tbl a : Nat) (s : State) :
    page_load_file cur tbl a s =
      match s.page_table tbl a with
      | none => none
      | some pg0 =>
        if pg0.file = none then none
        else
          match frame_alloc cur a (pg0.file_read_bytes == 0) s with
          | none => none
          | some (kpage, s1) => page_load_file_rest cur tbl a kpage s1 := by
  unfold page_load_file page_load_file_rest
  cases s.page_table tbl a with
  | none => rfl
  | some pg =>
    by_cases hf : pg.file = none
    · simp [hf]
    · simp only [hf, if_false]
      cases frame_alloc cur a (pg.file_read_bytes == 0) s with
      | none => rfl
      | some res =>
        obtain ⟨kp, s1⟩ := res
        cases kp <;> rfl

/-! ## `page_insert` and `page_find` -/

theorem insert_all_absent (cur a : Nat) (l : List (Nat × Nat × page)) :
    ∀ (s : State), page_find s cur a = none →
      (∀ x ∈ l, ¬ (x.1 = cur ∧ x.2.1 = a)) →
      page_find (insert_all l s) cur a = none := by
  induction l with
  | nil => intro s h _; exact h
  | cons x l ih =>
    intro s h hx
    obtain ⟨t, b, fresh⟩ := x
    have hne : ¬ (cur = t ∧ a = b) := by
      have := hx (t, b, fresh) (by simp)
      intro hc
      exact this ⟨hc.1.symm, hc.2.symm⟩
    apply ih
    · unfold page_find page_insert
      cases hpt : s.page_table t b with
      | some old => exact h
      | none =>
        simp only [hne, if_false]
        exact h
    · intro y hy
      exact hx y (List.mem_cons_of_mem _ hy)

/-- C11: `page_insert` at an address with no entry leaves an entry there with
no file and `valid` true, which `page_find` then returns, and changes what
`page_find` returns at no other address; at an address with an entry it
returns that entry and leaves the state alone; and from empty tables
`page_find` returns `NULL` at every address no `page_insert` was called
with. -/
theorem page_insert_then_find (cur a : Nat) (fresh : page) (s : State) :
    (page_find s cur a = none →
      ∃ e, page_find (page_insert cur a fresh s).2 cur a = some e ∧
        e.file = none ∧ e.valid = true ∧
        ∀ t b, ¬ (t = cur ∧ b = a) →
          page_find (page_insert cur a fresh s).2 t b = page_find s t b) ∧
    (∀ old, page_find s cur a = some old → page_insert cur a fresh s = (some old, s)) ∧
    (∀ (l : List (Nat × Nat × page)) (s0 : State),
      (∀ t b, page_find s0 t b = none) →
      (∀ x ∈ l, ¬ (x.1 = cur ∧ x.2.1 = a)) →
      page_find (insert_all l s0) cur a = none) := by
  refine ⟨?_, ?_, ?_⟩
  · intro h
    unfold page_find at h
    refine ⟨{ fresh with file := none, valid := true }, ?_, rfl, rfl, ?_⟩
    · simp [page_find, page_insert, h]
    · intro t b hne
      simp [page_find, page_insert, h, hne]
  · intro old h
    unfold page_find at h
    simp [page_insert, h]
  · intro l s0 h0 hl
    exact insert_all_absent cur a l s0 (h0 cur a) hl

theorem page_insert_then_find_witness :
    (page_find one_free_page 1 10 = none →
      ∃ e, page_find (page_insert 1 10 garbage_page one_free_page).2 1 10 = some e ∧
        e.file = none ∧ e.valid = true ∧
        ∀ t b, ¬ (t = 1 ∧ b = 10) →
          page_find (page_insert 1 10 garbage_page one_free_page).2 t b =
            page_find one_free_page t b) ∧
    (∀ old, page_find one_free_page 1 10 = some old →
      page_insert 1 10 garbage_page one_free_page = (some old, one_free_page)) ∧
    (∀ (l : List (Nat × Nat × page)) (s0 : State),
      (∀ t b, page_find s0 t b = none) →
      (∀ x ∈ l, ¬ (x.1 = 1 ∧ x.2.1 = 10)) →
      page_find (insert_all l s0) 1 10 = none) :=
  page_insert_then_find 1 10 garbage_page one_free_page

/-- C12, evaluated: `page_insert` assigns `addr`, `file` and `valid` only, so
the entry's `loaded` flag is whatever the block from `malloc` held; with the
block `garbage_page`, whose `loaded` byte is set, the entry `page_find`
returns after `page_insert` has `loaded` true. -/
theorem page_insert_keeps_garbage_loaded :
    page_find one_free_page 1 10 = none ∧
    garbage_page = ⟨some 5, 1, 2, true, false, true, 9⟩ ∧
    page_find (page_insert 1 10 garbage_page one_free_page).2 1 10 =
      some ⟨none, 1, 2, true, true, true, 9⟩ ∧
    (page_find (page_insert 1 10 garbage_page one_free_page).2 1 10).map
      (fun e => e.loaded) = some true := by
  decide

/-- C13, evaluated: when `frame_alloc` has returned `NULL`, `page_load_swap`
goes on to `swap_in` with the null frame and does not return, whereas
`page_load_zero` and `page_load_file` return false with the state as
`frame_alloc` left it. -/
theorem page_load_swap_null_frame (cur tbl a : Nat) (s1 : State) :
    page_load_swap_rest cur tbl a none s1 = none ∧
    page_load_zero_rest cur a none s1 = some (false, s1) ∧
    page_load_file_rest cur tbl a none s1 = some (false, s1) := by
  refine ⟨?_, rfl, rfl⟩
  unfold page_load_swap_rest
  cases s1.page_table tbl a with
  | none => rfl
  | some pg => cases hv : pg.valid <;> simp [hv]

/-! ## Every return of `frame_evict`, in full -/

/-- Every return of `frame_evict`: the loop stopped at the frame `v` behind
`pre`, having cleared the accessed bits of the frames `L` of the list; the
entry `pg` of `v`'s page became `pg1`, the swap slots became `slots`, and the
page returned is the page of `v`.  A clean victim loses its `loaded` flag and
no slot changes; a dirty one becomes not valid and its page goes to a slot
that was free. -/
theorem frame_evict_full (zero : Bool) (s s1 : State) (r : Option Nat)
    (h : frame_evict zero s = some (r, s1)) :
    ∃ (pre post L : List frame) (v : frame) (pg pg1 : page)
      (slots : Nat → Option (Nat → Nat)),
      s.frame_table = pre ++ v :: post ∧
      (∀ f ∈ L, f ∈ s.frame_table) ∧
      evict_scan (s.frame_table.length + 1) s 0 = some (pre.length, clear_accessed L s) ∧
      page_find s v.thread v.upage = some pg ∧
      r = some v.addr ∧
      s1 = evicted zero v pre.length pg1 slots (clear_accessed L s) ∧
      ((pagedir_is_dirty s v.thread v.upage = false ∧ pg1 = { pg with loaded := false } ∧
          slots = s.swap_slots) ∨
       (pagedir_is_dirty s v.thread v.upage = true ∧
          ∃ idx, idx < s.swap_size ∧ s.swap_slots idx = none ∧
            pg1 = { pg with valid := false, swap_idx := idx } ∧
            slots = fun j => if j = idx then some (s.mem v.addr) else s.swap_slots j)) := by
  unfold frame_evict at h
  cases hscan : evict_scan (s.frame_table.length + 1) s 0 with
  | none => simp [hscan] at h
  | some res =>
    obtain ⟨i, s0⟩ := res
    simp only [hscan] at h
    obtain ⟨L, rfl, hL, v, hv, -⟩ := evict_scan_clear _ _ _ _ _ hscan
    obtain ⟨pre, post, htab, rfl⟩ := getElem?_split _ _ _ hv
    cases hpg : page_find s v.thread v.upage with
    | none =>
      unfold evict_victim at h
      have : page_find (clear_accessed L s) v.thread v.upage = none := by
        simpa [page_find] using hpg
      simp [hv, this] at h
    | some pg =>
      cases hd : pagedir_is_dirty s v.thread v.upage with
      | false =>
        have h2 := frame_evict_clean_result zero s _ _ v pg hscan hv hpg hd
        rw [frame_evict_eq zero s _ _ hscan, h] at h2
        simp only [Option.some.injEq, Prod.mk.injEq] at h2
        exact ⟨pre, post, L, v, pg, _, _, htab, hL, rfl, hpg, h2.1, h2.2,
          Or.inl ⟨hd, rfl, rfl⟩⟩
      | true =>
        cases hsw : swap_out s v.addr with
        | none =>
          unfold evict_victim at h
          have h1 : page_find (clear_accessed L s) v.thread v.upage = some pg := by
            simpa [page_find] using hpg
          have h3 : swap_out (clear_accessed L s) v.addr = none := by
            unfold swap_out at hsw ⊢
            simp only [clear_accessed_swap_size, clear_accessed_swap_slots]
            cases hfd : (List.range s.swap_size).find? (fun i => (s.swap_slots i).isNone) with
            | none => rfl
            | some j => simp [hfd] at hsw
          simp [hv, h1, clear_accessed_is_dirty, hd, h3] at h
        | some res2 =>
          obtain ⟨idx, s2⟩ := res2
          have h2 := frame_evict_dirty_result zero s _ s2 _ idx v pg hscan hv hpg hd hsw
          rw [frame_evict_eq zero s _ _ hscan, h] at h2
          simp only [Option.some.injEq, Prod.mk.injEq] at h2
          obtain ⟨hi1, hi2, rfl⟩ := swap_out_some s s2 v.addr idx hsw
          exact ⟨pre, post, L, v, pg, _, _, htab, hL, rfl, hpg, h2.1, h2.2,
            Or.inr ⟨hd, idx, hi1, hi2, rfl, rfl⟩⟩

theorem evicted_pagedir_other (zero : Bool) (v : frame) (i : Nat) (pg1 : page)
    (slots : Nat → Option (Nat → Nat)) (L : List frame) (s : State) (t u : Nat)
    (hne : ¬ (t = v.thread ∧ u = v.upage)) :
    ((evicted zero v i pg1 slots (clear_accessed L s)).pagedir t u).map pte_unaccessed =
      (s.pagedir t u).map pte_unaccessed := by
  simp only [evicted, hne, if_false]
  rw [clear_accessed_pagedir]
  by_cases hm : (t, u) ∈ L.map frame_key
  · rw [if_pos hm]; exact pte_unaccessed_idem _
  · rw [if_neg hm]

/-- C20: whenever `frame_evict` returns, the frame `v` its loop stopped at is
gone from the list and the other frames are there as before, in their order;
`v`'s `upage` is unmapped in its thread's hardware page table; `v`'s physical
page was put into the pool once, and the page returned is taken from that
pool; every other address has the entry of the hardware page table it had, up
to the accessed bit the loop cleared on the frames it passed over; and every
other entry of the supplemental page tables is as it was. -/
theorem frame_evict_effect (zero : Bool) (s s1 : State) (r : Option Nat)
    (h : frame_evict zero s = some (r, s1)) :
    ∃ (pre post : List frame) (v : frame) (s0 : State),
      s.frame_table = pre ++ v :: post ∧
      evict_scan (s.frame_table.length + 1) s 0 = some (pre.length, s0) ∧
      s1.frame_table = pre ++ post ∧
      pagedir_get_page s1 v.thread v.upage = none ∧
      (∃ mid, mid.pool = v.addr :: s.pool ∧ palloc_get_page zero mid = (r, s1)) ∧
      (∀ t u, ¬ (t = v.thread ∧ u = v.upage) →
        (s1.pagedir t u).map pte_unaccessed = (s.pagedir t u).map pte_unaccessed ∧
        pagedir_get_page s1 t u = pagedir_get_page s t u ∧
        pagedir_is_dirty s1 t u = pagedir_is_dirty s t u) ∧
      (∀ t a, ¬ (t = v.thread ∧ a = v.upage) → page_find s1 t a = page_find s t a) := by
  obtain ⟨pre, post, L, v, pg, pg1, slots, htab, -, hscan, -, rfl, rfl, -⟩ :=
    frame_evict_full zero s s1 r h
  refine ⟨pre, post, v, _, htab, hscan, ?_, ?_, ?_, ?_, ?_⟩
  · simp only [evicted, clear_accessed_frame_table, htab]
    exact eraseIdx_middle _ _ _
  · rw [evicted_get_page]; simp
  · obtain ⟨mid, h1, h2⟩ := evicted_released zero v pre.length pg1 slots (clear_accessed L s)
    exact ⟨mid, by simpa using h1, h2⟩
  · intro t u hne
    refine ⟨evicted_pagedir_other zero v pre.length pg1 slots L s t u hne, ?_, ?_⟩
    · rw [evicted_get_page, if_neg hne, clear_accessed_get_page]
    · have : pagedir_is_dirty (evicted zero v pre.length pg1 slots (clear_accessed L s)) t u =
          pagedir_is_dirty (clear_accessed L s) t u := by
        simp [pagedir_is_dirty, evicted, hne]
      rw [this, clear_accessed_is_dirty]
  · intro t a hne
    simp [page_find, evicted, hne]

theorem frame_evict_effect_witness :
    ∃ (pre post : List frame) (v : frame) (s0 : State),
      three_frames.frame_table = pre ++ v :: post ∧
      evict_scan (three_frames.frame_table.length + 1) three_frames 0 =
        some (pre.length, s0) ∧
      three_frames_evicted.frame_table = pre ++ post ∧
      pagedir_get_page three_frames_evicted v.thread v.upage = none ∧
      (∃ mid, mid.pool = v.addr :: three_frames.pool ∧
        palloc_get_page false mid = (some 101, three_frames_evicted)) ∧
      (∀ t u, ¬ (t = v.thread ∧ u = v.upage) →
        (three_frames_evicted.pagedir t u).map pte_unaccessed =
          (three_frames.pagedir t u).map pte_unaccessed ∧
        pagedir_get_page three_frames_evicted t u = pagedir_get_page three_frames t u ∧
        pagedir_is_dirty three_frames_evicted t u = pagedir_is_dirty three_frames t u) ∧
      (∀ t a, ¬ (t = v.thread ∧ a = v.upage) →
        page_find three_frames_evicted t a = page_find three_frames t a) :=
  frame_evict_effect false three_frames three_frames_evicted (some 101) rfl

/-! ## The order of the second-chance loop -/

/-- The loop started at a run of accessed frames with distinct keys that
reaches the end of the list, the head of the list having its accessed bit
clear once the run is cleared: it wraps around and stops at the head. -/
theorem evict_scan_sweep (rest : List frame) :
    ∀ (done : List frame) (s : State) (fuel : Nat),
    rest ≠ [] →
    s.frame_table = done ++ rest →
    (rest.map frame_key).Nodup →
    (∀ f ∈ rest, pagedir_is_accessed s f.thread f.upage = true) →
    (∃ f0, s.frame_table[0]? = some f0 ∧
      pagedir_is_accessed (clear_accessed rest s) f0.thread f0.upage = false) →
    rest.length < fuel →
    evict_scan fuel s done.length = some (0, clear_accessed rest s) := by
  induction rest with
  | nil => intro done s fuel hne; exact absurd rfl hne
  | cons f rest ih =>
    intro done s fuel _ htab hnd hacc hhead hfuel
    obtain ⟨k, rfl⟩ : ∃ k, fuel = k + 1 := ⟨fuel - 1, by simp at hfuel; omega⟩
    have hget : s.frame_table[done.length]? = some f := by
      rw [htab]; exact getElem?_middle _ _ _
    have hf : pagedir_is_accessed s f.thread f.upage = true := hacc f (by simp)
    have hnd' : frame_key f ∉ rest.map frame_key ∧ (rest.map frame_key).Nodup :=
      List.nodup_cons.mp hnd
    rw [evict_scan]
    simp only [hget, hf, if_true]
    cases rest with
    | nil =>
      have hlen : done.length + 1 = s.frame_table.length := by simp [htab]
      rw [if_pos hlen]
      obtain ⟨f0, h0, ha0⟩ := hhead
      obtain ⟨k2, rfl⟩ : ∃ k2, k = k2 + 1 := ⟨k - 1, by simp at hfuel; omega⟩
      exact evict_scan_head k2 _ f0 (by simpa [pagedir_set_accessed] using h0) ha0
    | cons g rest2 =>
      have hlen : ¬ (done.length + 1 = s.frame_table.length) := by simp [htab]
      rw [if_neg hlen]
      have key := ih (done ++ [f]) (pagedir_set_accessed s f.thread f.upage false) k
        (by simp) (by simp [pagedir_set_accessed, htab]) hnd'.2
        (by
          intro x hx
          have h1 : frame_key x ≠ frame_key f := by
            intro h; exact hnd'.1 (h ▸ List.mem_map_of_mem frame_key hx)
          have h2 : ¬ (x.thread = f.thread ∧ x.upage = f.upage) := by
            intro h; apply h1; simp [frame_key, h.1, h.2]
          have h3 := hacc x (List.mem_cons_of_mem _ hx)
          rw [set_accessed_false_is_accessed, h3]
          simp [h2])
        (by
          obtain ⟨f0, h0, ha0⟩ := hhead
          exact ⟨f0, by simpa [pagedir_set_accessed] using h0, ha0⟩)
        (by simp at hfuel ⊢; omega)
      have e : (done ++ [f]).length = done.length + 1 := by simp
      rw [e] at key
      rw [key]
      rfl

/-- When every frame of a list with distinct keys has its accessed bit set, the
loop clears them all and stops at the head. -/
theorem evict_scan_all_accessed (s : State) (v : frame) (rest : List frame)
    (htab : s.frame_table = v :: rest)
    (hkeys : (s.frame_table.map frame_key).Nodup)
    (hacc : ∀ f ∈ s.frame_table, pagedir_is_accessed s f.thread f.upage = true) :
    evict_scan (s.frame_table.length + 1) s 0 =
      some (0, clear_accessed (v :: rest) s) := by
  have h := evict_scan_sweep (v :: rest) [] s (s.frame_table.length + 1) (by simp)
    (by simpa using htab) (by rw [htab] at hkeys; exact hkeys)
    (by rw [htab] at hacc; exact hacc)
    ⟨v, by rw [htab]; simp, by
      rw [clear_accessed_is_accessed]
      have hm : (v.thread, v.upage) ∈ (v :: rest).map frame_key :=
        List.mem_map_of_mem frame_key (List.mem_cons_self v rest)
      rw [decide_eq_false (not_not.mpr hm), Bool.and_false]⟩
    (by rw [htab]; simp)
  simpa using h

/-- The whole of `frame_evict` once the loop is known to stop at position `i`. -/
theorem frame_evict_of_scan (zero : Bool) (s : State) (L : List frame) (i : Nat) (v : frame)
    (hscan : evict_scan (s.frame_table.length + 1) s 0 = some (i, clear_accessed L s))
    (hv : s.frame_table[i]? = some v)
    (hpages : ∀ f ∈ s.frame_table, page_find s f.thread f.upage ≠ none)
    (hswap : pagedir_is_dirty s v.thread v.upage = true → swap_has_room s) :
    ∃ pg1 slots, frame_evict zero s =
      some (some v.addr, evicted zero v i pg1 slots (clear_accessed L s)) := by
  obtain ⟨pg, hpg⟩ : ∃ pg, page_find s v.thread v.upage = some pg :=
    Option.ne_none_iff_exists'.mp (hpages v (List.getElem?_mem hv))
  cases hd : pagedir_is_dirty s v.thread v.upage with
  | false => exact ⟨_, _, frame_evict_clean_result zero s _ _ v pg hscan hv hpg hd⟩
  | true =>
    obtain ⟨idx, s2, hsw⟩ := swap_out_of_room s v.addr (hswap hd)
    exact ⟨_, _, frame_evict_dirty_result zero s _ s2 _ idx v pg hscan hv hpg hd hsw⟩

/-- C18: in a list whose frames record distinct (thread, upage) pairs and have
their pages registered, `frame_evict` scans from the head.  If `v` is the first
frame with its accessed bit clear, the loop stops at `v` having cleared the
bits of the frames before it: `v` is removed, the frames before it end with the
bit clear, and the frames after it keep their bit and their order.  If every
frame has its bit set, the loop clears them all, wraps around and stops at the
head: the head is removed and all other frames end with the bit clear. -/
theorem frame_evict_second_chance (zero : Bool) (s : State)
    (hkeys : (s.frame_table.map frame_key).Nodup)
    (hpages : ∀ f ∈ s.frame_table, page_find s f.thread f.upage ≠ none) :
    (∀ pre v post, s.frame_table = pre ++ v :: post →
      (∀ f ∈ pre, pagedir_is_accessed s f.thread f.upage = true) →
      pagedir_is_accessed s v.thread v.upage = false →
      (pagedir_is_dirty s v.thread v.upage = true → swap_has_room s) →
      ∃ r s1, frame_evict zero s = some (r, s1) ∧
        evict_scan (s.frame_table.length + 1) s 0 =
          some (pre.length, clear_accessed pre s) ∧
        s1.frame_table = pre ++ post ∧
        (∀ f ∈ pre, pagedir_is_accessed s1 f.thread f.upage = false) ∧
        (∀ f ∈ post, pagedir_is_accessed s1 f.thread f.upage =
          pagedir_is_accessed s f.thread f.upage)) ∧
    (∀ v rest, s.frame_table = v :: rest →
      (∀ f ∈ s.frame_table, pagedir_is_accessed s f.thread f.upage = true) →
      (pagedir_is_dirty s v.thread v.upage = true → swap_has_room s) →
      ∃ r s1, frame_evict zero s = some (r, s1) ∧
        evict_scan (s.frame_table.length + 1) s 0 =
          some (0, clear_accessed (v :: rest) s) ∧
        s1.frame_table = rest ∧
        (∀ f ∈ rest, pagedir_is_accessed s1 f.thread f.upage = false)) := by
  constructor
  · intro pre v post htab hacc hclr hswap
    have hnd : (pre.map frame_key).Nodup := by
      rw [htab, List.map_append] at hkeys
      exact hkeys.of_append_left
    have hscan : evict_scan (s.frame_table.length + 1) s 0 =
        some (pre.length, clear_accessed pre s) := by
      have h := evict_scan_run pre [] post v s (s.frame_table.length + 1)
        (by simpa using htab) hnd hacc hclr (by rw [htab]; simp; omega)
      simpa using h
    have hv : s.frame_table[pre.length]? = some v := by
      rw [htab]; exact getElem?_middle _ _ _
    obtain ⟨pg1, slots, he⟩ := frame_evict_of_scan zero s pre pre.length v hscan hv hpages hswap
    refine ⟨_, _, he, hscan, ?_, ?_, ?_⟩
    · simp only [evicted, clear_accessed_frame_table, htab]
      exact eraseIdx_middle _ _ _
    · intro f hf
      rw [evicted_is_accessed, clear_accessed_is_accessed]
      have hm : (f.thread, f.upage) ∈ pre.map frame_key := List.mem_map_of_mem frame_key hf
      simp [hm]
    · intro f hf
      rw [evicted_is_accessed, clear_accessed_is_accessed]
      rw [htab, List.map_append, List.map_cons] at hkeys
      have hnm : (f.thread, f.upage) ∉ pre.map frame_key := by
        have hdis := List.disjoint_of_nodup_append hkeys
        intro hin
        exact hdis hin (List.mem_cons_of_mem _ (List.mem_map_of_mem frame_key hf))
      have hne : ¬ (f.thread = v.thread ∧ f.upage = v.upage) := by
        rintro ⟨h1, h2⟩
        have h3 := (List.nodup_cons.mp hkeys.of_append_right).1
        apply h3
        have : frame_key v = frame_key f := by simp [frame_key, h1, h2]
        rw [this]
        exact List.mem_map_of_mem frame_key hf
      simp [hne, hnm]
  · intro v rest htab hacc hswap
    have hscan := evict_scan_all_accessed s v rest htab hkeys hacc
    have hv : s.frame_table[0]? = some v := by rw [htab]; simp
    obtain ⟨pg1, slots, he⟩ := frame_evict_of_scan zero s (v :: rest) 0 v hscan hv hpages hswap
    refine ⟨_, _, he, hscan, ?_, ?_⟩
    · simp [evicted, htab]
    · intro f hf
      rw [evicted_is_accessed, clear_accessed_is_accessed]
      have hm : (f.thread, f.upage) ∈ (v :: rest).map frame_key :=
        List.mem_map_of_mem frame_key (List.mem_cons_of_mem _ hf)
      rw [decide_eq_false (not_not.mpr hm), Bool.and_false]
      split <;> rfl

theorem frame_evict_second_chance_witness :
    (∃ r s1, frame_evict false three_frames = some (r, s1) ∧
        evict_scan (three_frames.frame_table.length + 1) three_frames 0 =
          some ([(⟨1, 100, 10⟩ : frame)].length,
            clear_accessed [⟨1, 100, 10⟩] three_frames) ∧
        s1.frame_table = [⟨1, 100, 10⟩] ++ [⟨1, 102, 30⟩] ∧
        (∀ f ∈ [(⟨1, 100, 10⟩ : frame)], pagedir_is_accessed s1 f.thread f.upage = false) ∧
        (∀ f ∈ [(⟨1, 102, 30⟩ : frame)], pagedir_is_accessed s1 f.thread f.upage =
          pagedir_is_accessed three_frames f.thread f.upage)) ∧
    (∃ r s1, frame_evict false one_page_mapped = some (r, s1) ∧
        evict_scan (one_page_mapped.frame_table.length + 1) one_page_mapped 0 =
          some (0, clear_accessed [⟨1, 200, 10⟩] one_page_mapped) ∧
        s1.frame_table = [] ∧
        (∀ f ∈ ([] : List frame), pagedir_is_accessed s1 f.thread f.upage = false)) :=
  ⟨(frame_evict_second_chance false three_frames (by decide) (by decide)).1
      [⟨1, 100, 10⟩] ⟨1, 101, 20⟩ [⟨1, 102, 30⟩] rfl (by decide) (by decide)
      (fun _ => ⟨0, by decide, rfl⟩),
   (frame_evict_second_chance false one_page_mapped (by decide) (by decide)).2
      ⟨1, 200, 10⟩ [] rfl (by decide) (fun _ => ⟨0, by decide, rfl⟩)⟩

/-! ## The length of the second-chance loop -/

theorem evict_scan_inspected : ∀ (fuel : Nat) (s : State) (i : Nat) (r : Nat × State),
    evict_scan fuel s i = some r →
    ∃ k, evict_inspected fuel s i = some k ∧ 1 ≤ k ∧ k ≤ fuel := by
  intro fuel
  induction fuel with
  | zero => intro s i r h; simp [evict_scan] at h
  | succ fuel ih =>
    intro s i r h
    rw [evict_scan] at h
    rw [evict_inspected]
    cases hf : s.frame_table[i]? with
    | none => simp [hf] at h
    | some f =>
      simp only [hf] at h ⊢
      by_cases ha : pagedir_is_accessed s f.thread f.upage = true
      · rw [if_pos ha] at h ⊢
        obtain ⟨k, hk, h1, h2⟩ := ih _ _ _ h
        exact ⟨k + 1, by rw [hk]; rfl, by omega, by omega⟩
      · rw [if_neg ha]
        exact ⟨1, rfl, by omega, by omega⟩

theorem evict_inspected_mono : ∀ (fuel : Nat) (s : State) (i k m : Nat),
    evict_inspected fuel s i = some k → evict_inspected (fuel + m) s i = some k := by
  intro fuel
  induction fuel with
  | zero => intro s i k m h; simp [evict_inspected] at h
  | succ fuel ih =>
    intro s i k m h
    have e : fuel + 1 + m = (fuel + m) + 1 := by omega
    rw [e]
    rw [evict_inspected] at h ⊢
    cases hf : s.frame_table[i]? with
    | none => simp [hf] at h
    | some f =>
      simp only [hf] at h ⊢
      by_cases ha : pagedir_is_accessed s f.thread f.upage = true
      · rw [if_pos ha] at h ⊢
        simp only [Option.map_eq_some'] at h ⊢
        obtain ⟨k2, hk2, rfl⟩ := h
        exact ⟨k2, ih _ _ _ m hk2, rfl⟩
      · rw [if_neg ha] at h ⊢
        exact h

theorem evict_scan_mono : ∀ (fuel : Nat) (s : State) (i : Nat) (r : Nat × State) (m : Nat),
    evict_scan fuel s i = some r → evict_scan (fuel + m) s i = some r := by
  intro fuel
  induction fuel with
  | zero => intro s i r m h; simp [evict_scan] at h
  | succ fuel ih =>
    intro s i r m h
    have e : fuel + 1 + m = (fuel + m) + 1 := by omega
    rw [e]
    rw [evict_scan] at h ⊢
    cases hf : s.frame_table[i]? with
    | none => simp [hf] at h
    | some f =>
      simp only [hf] at h ⊢
      by_cases ha : pagedir_is_accessed s f.thread f.upage = true
      · rw [if_pos ha] at h ⊢
        exact ih _ _ _ m h
      · rw [if_neg ha] at h ⊢
        exact h

/-- C19: on a list of `n ≥ 1` frames the second-chance loop of `frame_evict`
comes to an end after inspecting at most `n + 1` frames, whatever larger
number of inspections it is allowed, and with the same result; every return
of `frame_evict` leaves a list with exactly one frame fewer; and
`frame_evict` does return when every frame's page is registered and the swap
store has room. -/
theorem frame_evict_loop_bound (s : State) (hne : s.frame_table ≠ []) :
    (∀ fuel, s.frame_table.length + 1 ≤ fuel →
      ∃ k, evict_inspected fuel s 0 = some k ∧ 1 ≤ k ∧ k ≤ s.frame_table.length + 1 ∧
        evict_scan fuel s 0 = evict_scan (s.frame_table.length + 1) s 0 ∧
        (evict_scan fuel s 0).isSome = true) ∧
    (∀ zero r s1, frame_evict zero s = some (r, s1) →
      s1.frame_table.length + 1 = s.frame_table.length ∧
      ∃ pre v post, s.frame_table = pre ++ v :: post ∧ s1.frame_table = pre ++ post) ∧
    ((∀ f ∈ s.frame_table, page_find s f.thread f.upage ≠ none) → swap_has_room s →
      ∀ zero, ∃ r s1, frame_evict zero s = some (r, s1)) := by
  obtain ⟨j, s0, hscan⟩ := evict_scan_total s hne
  refine ⟨?_, ?_, ?_⟩
  · intro fuel hfuel
    obtain ⟨m, rfl⟩ : ∃ m, fuel = s.frame_table.length + 1 + m := ⟨fuel - (s.frame_table.length + 1), by omega⟩
    obtain ⟨k, hk, h1, h2⟩ := evict_scan_inspected _ _ _ _ hscan
    have h3 := evict_scan_mono _ _ _ _ m hscan
    exact ⟨k, evict_inspected_mono _ _ _ _ m hk, h1, h2, by rw [h3, hscan], by rw [h3]; rfl⟩
  · intro zero r s1 h
    obtain ⟨pre, post, L, v, pg, pg1, slots, htab, -, -, -, -, rfl, -⟩ :=
      frame_evict_full zero s s1 r h
    have e : (evicted zero v pre.length pg1 slots (clear_accessed L s)).frame_table =
        pre ++ post := by
      simp only [evicted, clear_accessed_frame_table, htab]
      exact eraseIdx_middle _ _ _
    refine ⟨?_, pre, v, post, htab, e⟩
    rw [e, htab]
    simp
    omega
  · intro hpages hswap zero
    obtain ⟨L, rfl, -, v, hv, -⟩ := evict_scan_clear _ _ _ _ _ hscan
    obtain ⟨pg1, slots, he⟩ :=
      frame_evict_of_scan zero s L j v hscan hv hpages (fun _ => hswap)
    exact ⟨_, _, he⟩

theorem frame_evict_loop_bound_witness :
    (∀ fuel, three_frames.frame_table.length + 1 ≤ fuel →
      ∃ k, evict_inspected fuel three_frames 0 = some k ∧ 1 ≤ k ∧
        k ≤ three_frames.frame_table.length + 1 ∧
        evict_scan fuel three_frames 0 =
          evict_scan (three_frames.frame_table.length + 1) three_frames 0 ∧
        (evict_scan fuel three_frames 0).isSome = true) ∧
    (∀ zero r s1, frame_evict zero three_frames = some (r, s1) →
      s1.frame_table.length + 1 = three_frames.frame_table.length ∧
      ∃ pre v post, three_frames.frame_table = pre ++ v :: post ∧
        s1.frame_table = pre ++ post) ∧
    ((∀ f ∈ three_frames.frame_table, page_find three_frames f.thread f.upage ≠ none) →
      swap_has_room three_frames →
      ∀ zero, ∃ r s1, frame_evict zero three_frames = some (r, s1)) :=
  frame_evict_loop_bound three_frames (by decide)

/-! ## What `frame_alloc` leaves alone -/

/-- What a return of `frame_alloc` with a page `k` has done: the new frame is
last, behind frames that were there before; files, page-table room and swap
size are untouched, and so is every swap slot that was in use; an address no
frame records keeps its entries in both page tables; every entry of a
supplemental page table keeps its file fields; every page but `k` keeps its
bytes, and `k` is zeroed when that was asked for. -/
theorem frame_alloc_effect (cur a : Nat) (zero : Bool) (s s2 : State) (k : Nat)
    (h : frame_alloc cur a zero s = some (some k, s2)) :
    (∃ front, s2.frame_table = front ++ [⟨cur, k, a⟩] ∧ ∀ f ∈ front, f ∈ s.frame_table) ∧
    s2.files = s.files ∧ s2.pt_room = s.pt_room ∧ s2.swap_size = s.swap_size ∧
    (∀ j d, s.swap_slots j = some d → s2.swap_slots j = some d) ∧
    (∀ t u, (∀ f ∈ s.frame_table, ¬ (f.thread = t ∧ f.upage = u)) →
      s2.page_table t u = s.page_table t u ∧ s2.pagedir t u = s.pagedir t u) ∧
    (∀ t u pg, s.page_table t u = some pg →
      ∃ pg2, s2.page_table t u = some pg2 ∧ pg2.file = pg.file ∧
        pg2.file_ofs = pg.file_ofs ∧ pg2.file_read_bytes = pg.file_read_bytes ∧
        pg2.file_writable = pg.file_writable) ∧
    (zero = true → ∀ o, s2.mem k o = 0) ∧
    (∀ q, q ≠ k → s2.mem q = s.mem q) := by
  cases hp : s.pool with
  | cons q rest =>
    rw [frame_alloc_of_free cur a zero s q rest hp] at h
    simp only [Option.some.injEq, Prod.mk.injEq] at h
    obtain ⟨rfl, rfl⟩ := h
    refine ⟨⟨s.frame_table, rfl, fun f hf => hf⟩, ?_, ?_, ?_, ?_, ?_, ?_, ?_, ?_⟩
    · simp [palloc_get_page, hp]
    · simp [palloc_get_page, hp]
    · simp [palloc_get_page, hp]
    · intro j d hd
      simpa [palloc_get_page, hp] using hd
    · intro t u _
      simp [palloc_get_page, hp]
    · intro t u pg hpg
      exact ⟨pg, by simpa [palloc_get_page, hp] using hpg, rfl, rfl, rfl, rfl⟩
    · intro hz o
      simp [palloc_get_page, hp, hz]
    · intro q2 hq
      simp [palloc_get_page, hp, hq]
  | nil =>
    cases he : frame_evict zero s with
    | none =>
      unfold frame_alloc at h
      simp [palloc_get_page, hp, he] at h
    | some res =>
      obtain ⟨r, s3⟩ := res
      obtain ⟨pre, post, L, v, pg0, pg1, slots, htab, hL, -, hpg0, rfl, rfl, hcase⟩ :=
        frame_evict_full zero s s3 r he
      rw [frame_alloc_of_evict cur a zero s _ v.addr hp he] at h
      simp only [Option.some.injEq, Prod.mk.injEq] at h
      obtain ⟨rfl, rfl⟩ := h
      have hvmem : v ∈ s.frame_table := by rw [htab]; simp
      have hfields : pg1.file = pg0.file ∧ pg1.file_ofs = pg0.file_ofs ∧
          pg1.file_read_bytes = pg0.file_read_bytes ∧
          pg1.file_writable = pg0.file_writable := by
        rcases hcase with ⟨-, rfl, -⟩ | ⟨-, idx, -, -, rfl, -⟩ <;> exact ⟨rfl, rfl, rfl, rfl⟩
      refine ⟨⟨pre ++ post, ?_, ?_⟩, ?_, ?_, ?_, ?_, ?_, ?_, ?_, ?_⟩
      · simp only [evicted, clear_accessed_frame_table, htab]
        rw [eraseIdx_middle]
      · intro f hf
        rw [htab]
        rcases List.mem_append.mp hf with h1 | h1
        · exact List.mem_append_left _ h1
        · exact List.mem_append_right _ (List.mem_cons_of_mem _ h1)
      · simp [evicted]
      · simp [evicted]
      · simp [evicted]
      · intro j d hd
        rcases hcase with ⟨-, -, rfl⟩ | ⟨-, idx, -, hfree, -, rfl⟩
        · simpa [evicted] using hd
        · have hne : j ≠ idx := by
            intro hji
            rw [hji, hfree] at hd
            exact Option.noConfusion hd
          simpa [evicted, hne] using hd
      · intro t u hno
        have hne : ¬ (t = v.thread ∧ u = v.upage) := by
          rintro ⟨h1, h2⟩
          exact hno v hvmem ⟨h1.symm, h2.symm⟩
        have hnm : (t, u) ∉ L.map frame_key := by
          intro hin
          obtain ⟨f, hf, hfk⟩ := List.mem_map.mp hin
          have : f.thread = t ∧ f.upage = u := by
            simpa [frame_key] using hfk
          exact hno f (hL f hf) this
        constructor
        · simp [evicted, hne]
        · simp only [evicted, hne, if_false]
          rw [clear_accessed_pagedir, if_neg hnm]
      · intro t u pg hpg
        by_cases hk : t = v.thread ∧ u = v.upage
        · obtain ⟨rfl, rfl⟩ := hk
          have : pg0 = pg := by
            unfold page_find at hpg0
            rw [hpg0] at hpg
            exact Option.some.inj hpg
          subst this
          exact ⟨pg1, by simp [evicted], hfields⟩
        · exact ⟨pg, by simpa [evicted, hk] using hpg, rfl, rfl, rfl, rfl⟩
      · intro hz o
        simp [evicted, hz]
      · intro q hq
        simp [evicted, hq]

/-! ## Successful loads -/

/-- Every success of `page_load_swap`, step by step. -/
theorem page_load_swap_true (cur tbl a : Nat) (s s3 : State)
    (h : page_load_swap cur tbl a s = some (true, s3)) :
    ∃ (k : Nat) (s2 : State) (pg : page) (d : Nat → Nat),
      frame_alloc cur a false s = some (some k, s2) ∧
      s2.page_table tbl a = some pg ∧ pg.valid = false ∧
      s2.swap_slots pg.swap_idx = some d ∧
      s3.mem k = d ∧
      s3.pagedir cur a = some ⟨k, true, true, true⟩ ∧
      s3.frame_table = s2.frame_table ∧
      s3.page_table tbl a = some { pg with valid := true } := by
  unfold page_load_swap at h
  cases hpt : s.page_table tbl a with
  | none => simp [hpt] at h
  | some pg0 =>
    cases hfa : frame_alloc cur a false s with
    | none => simp [hpt, hfa] at h
    | some res =>
      obtain ⟨kp, s2⟩ := res
      simp only [hpt, hfa] at h
      cases hpt2 : s2.page_table tbl a with
      | none => simp [hpt2] at h
      | some pg =>
        simp only [hpt2] at h
        cases hv : pg.valid with
        | true => simp [hv] at h
        | false =>
          simp only [hv, Bool.false_eq_true, if_false] at h
          cases kp with
          | none => simp at h
          | some k =>
            simp only at h
            cases hsl : s2.swap_slots pg.swap_idx with
            | none => simp [swap_in, hsl] at h
            | some d =>
              have hsi : swap_in s2 pg.swap_idx k = some
                  { s2 with
                    mem := fun q => if q = k then d else s2.mem q
                    swap_slots := fun j => if j = pg.swap_idx then none else s2.swap_slots j } := by
                simp [swap_in, hsl]
              simp only [hsi] at h
              cases hin : install cur a k true
                  { s2 with
                    mem := fun q => if q = k then d else s2.mem q
                    swap_slots := fun j => if j = pg.swap_idx then none else s2.swap_slots j } with
              | mk b2 s4 =>
                rcases install_cases cur a k true _ s4 b2 hin with ⟨rfl, -, rfl⟩ | ⟨rfl, rfl⟩
                · simp only [hin, Option.some.injEq, Prod.mk.injEq, true_and] at h
                  subst h
                  refine ⟨k, s2, pg, d, rfl, hpt2, hv, hsl, ?_, ?_, rfl, ?_⟩
                  · simp [pagedir_set_accessed, pagedir_set_dirty]
                  · simp [pagedir_set_accessed, pagedir_set_dirty]
                  · simp
                · simp [hin] at h

/-- C16: whenever `page_load_swap` returns true, the page's address is mapped
writable to the page `frame_alloc` returned, with the dirty and the accessed
bit set; the entry's `valid` flag is true; and the frame for that page and
address, owned by the running thread, is the last of the list, behind frames
that were there before. -/
theorem page_load_swap_success (cur tbl a : Nat) (s s3 : State)
    (h : page_load_swap cur tbl a s = some (true, s3)) :
    ∃ (k : Nat) (front : List frame) (e : page),
      s3.pagedir cur a = some ⟨k, true, true, true⟩ ∧
      pagedir_get_page s3 cur a = some k ∧
      pagedir_is_dirty s3 cur a = true ∧ pagedir_is_accessed s3 cur a = true ∧
      page_find s3 tbl a = some e ∧ e.valid = true ∧
      s3.frame_table = front ++ [⟨cur, k, a⟩] ∧ (∀ f ∈ front, f ∈ s.frame_table) := by
  obtain ⟨k, s2, pg, d, hfa, -, -, -, -, hpd, htab, hent⟩ := page_load_swap_true cur tbl a s s3 h
  obtain ⟨⟨front, hfr, hsub⟩, -⟩ := frame_alloc_effect cur a false s s2 k hfa
  refine ⟨k, front, { pg with valid := true }, hpd, ?_, ?_, ?_, hent, rfl, ?_, hsub⟩
  · simp [pagedir_get_page, hpd]
  · simp [pagedir_is_dirty, hpd]
  · simp [pagedir_is_accessed, hpd]
  · rw [htab, hfr]

theorem page_load_swap_success_witness :
    ∃ (k : Nat) (front : List frame) (e : page),
      swapped_in.pagedir 1 10 = some ⟨k, true, true, true⟩ ∧
      pagedir_get_page swapped_in 1 10 = some k ∧
      pagedir_is_dirty swapped_in 1 10 = true ∧ pagedir_is_accessed swapped_in 1 10 = true ∧
      page_find swapped_in 1 10 = some e ∧ e.valid = true ∧
      swapped_in.frame_table = front ++ [⟨1, k, 10⟩] ∧
      (∀ f ∈ front, f ∈ swapped_state.frame_table) :=
  page_load_swap_success 1 1 10 swapped_state swapped_in rfl

/-! ## An eviction followed by a load from swap -/

/-- Evicting the frame of a dirty page and loading the page from swap again
brings back the bytes the frame held when it was evicted. -/
theorem evict_then_reload (cur a : Nat) (zero : Bool) (s1 s2 s3 sc : State) (r : Option Nat)
    (i : Nat) (f : frame)
    (hinv : frame_inv s1)
    (hscan : evict_scan (s1.frame_table.length + 1) s1 0 = some (i, sc))
    (hvic : s1.frame_table[i]? = some f) (hkey : f.thread = cur ∧ f.upage = a)
    (hd : pagedir_is_dirty s1 cur a = true)
    (hev : frame_evict zero s1 = some (r, s2))
    (hre : page_load_swap cur cur a s2 = some (true, s3)) :
    ∃ (idx k2 : Nat) (e : page),
      s2.swap_slots idx = some (s1.mem f.addr) ∧
      page_find s2 cur a = some e ∧ e.valid = false ∧ e.swap_idx = idx ∧
      pagedir_get_page s3 cur a = some k2 ∧ s3.mem k2 = s1.mem f.addr := by
  obtain ⟨pre, post, L, v, pg0, pg1, slots, htab, hL, hscan2, hpg0, -, rfl, hcase⟩ :=
    frame_evict_full zero s1 s2 r hev
  rw [hscan] at hscan2
  simp only [Option.some.injEq, Prod.mk.injEq] at hscan2
  obtain ⟨rfl, -⟩ := hscan2
  have hv : v = f := by
    have h1 : s1.frame_table[pre.length]? = some v := by
      rw [htab]; exact getElem?_middle _ _ _
    rw [hvic] at h1
    exact (Option.some.inj h1).symm
  subst hv
  obtain ⟨rfl, rfl⟩ := hkey
  rcases hcase with ⟨hcl, -, -⟩ | ⟨-, idx, -, hfree, rfl, rfl⟩
  · rw [hd] at hcl; exact absurd hcl (by simp)
  · have hslot : (evicted zero v pre.length { pg0 with valid := false, swap_idx := idx }
        (fun j => if j = idx then some (s1.mem v.addr) else s1.swap_slots j)
        (clear_accessed L s1)).swap_slots idx = some (s1.mem v.addr) := by
      simp [evicted]
    have hent : (evicted zero v pre.length { pg0 with valid := false, swap_idx := idx }
        (fun j => if j = idx then some (s1.mem v.addr) else s1.swap_slots j)
        (clear_accessed L s1)).page_table v.thread v.upage =
        some { pg0 with valid := false, swap_idx := idx } := by
      simp [evicted]
    obtain ⟨k2, s4, pg, d, hfa, hpt4, -, hsl4, hmem, hpd, -, -⟩ :=
      page_load_swap_true v.thread v.thread v.upage _ s3 hre
    obtain ⟨-, -, -, -, hkeep, hother, -⟩ := frame_alloc_effect _ _ false _ s4 k2 hfa
    have hnone : ∀ g ∈ (evicted zero v pre.length { pg0 with valid := false, swap_idx := idx }
        (fun j => if j = idx then some (s1.mem v.addr) else s1.swap_slots j)
        (clear_accessed L s1)).frame_table, ¬ (g.thread = v.thread ∧ g.upage = v.upage) := by
      intro g hg
      simp only [evicted, clear_accessed_frame_table, htab] at hg
      rw [eraseIdx_middle] at hg
      have hnd := hinv.2
      rw [htab, List.map_append, List.map_cons] at hnd
      have hnd3 := (List.nodup_cons.mp (List.nodup_middle.mp hnd)).1
      rintro ⟨h1, h2⟩
      apply hnd3
      have : frame_key v = frame_key g := by simp [frame_key, h1, h2]
      rw [this, ← List.map_append]
      exact List.mem_map_of_mem frame_key hg
    have hpg : pg = { pg0 with valid := false, swap_idx := idx } := by
      have := (hother v.thread v.upage hnone).1
      rw [hpt4, hent] at this
      exact Option.some.inj this
    have hd2 : d = s1.mem v.addr := by
      have h1 := hkeep idx (s1.mem v.addr) hslot
      rw [hpg] at hsl4
      simp only at hsl4
      rw [h1] at hsl4
      exact (Option.some.inj hsl4).symm
    refine ⟨idx, k2, _, hslot, by simpa [page_find] using hent, rfl, rfl, ?_, ?_⟩
    · simp [pagedir_get_page, hpd]
    · rw [hmem, hd2]

theorem take_drop_getD (l : List Nat) (ofs rb o : Nat)
    (h : o < ((l.drop ofs).take rb).length) :
    l[ofs + o]? = some (((l.drop ofs).take rb).getD o 0) := by
  have hlt : o < rb := by
    rw [List.length_take] at h
    omega
  rw [List.getD_eq_getElem?_getD, List.getElem?_eq_getElem h, Option.getD_some]
  rw [← List.getElem?_drop, ← List.getElem?_take_of_lt hlt, List.getElem?_eq_getElem h]

/-- C15: whenever `page_load_file` returns true for an entry backed by `file`,
the page's address is mapped to a page `k` with the entry's `file_writable` as
writable flag and the accessed bit set; the first `file_read_bytes` bytes of
`k` are the bytes of the file from `file_ofs` on, and the bytes from there up
to `PGSIZE` are zero. -/
theorem page_load_file_success (cur tbl a : Nat) (s s3 : State) (pg : page) (file : Nat)
    (hpg : page_find s tbl a = some pg) (hfile : pg.file = some file)
    (_hrb : pg.file_read_bytes ≤ PGSIZE)
    (h : page_load_file cur tbl a s = some (true, s3)) :
    ∃ k, s3.pagedir cur a = some ⟨k, pg.file_writable, true, false⟩ ∧
      pagedir_is_accessed s3 cur a = true ∧
      (∀ o, o < pg.file_read_bytes → (s.files file)[pg.file_ofs + o]? = some (s3.mem k o)) ∧
      (∀ o, pg.file_read_bytes ≤ o → o < PGSIZE → s3.mem k o = 0) := by
  unfold page_find at hpg
  unfold page_load_file at h
  simp only [hpg] at h
  have hfn : ¬ (pg.file = none) := by rw [hfile]; simp
  rw [if_neg hfn] at h
  cases hfa : frame_alloc cur a (pg.file_read_bytes == 0) s with
  | none => simp [hfa] at h
  | some res =>
    obtain ⟨kp, s2⟩ := res
    cases kp with
    | none => simp [hfa] at h
    | some k =>
      simp only [hfa] at h
      obtain ⟨-, hfiles, -, -, -, -, hfields, hzero, -⟩ :=
        frame_alloc_effect cur a _ s s2 k hfa
      obtain ⟨pg2, hpt2, hf1, hf2, hf3, hf4⟩ := hfields tbl a pg hpg
      simp only [hpt2, hf1, hf2, hf3, hf4, hfile] at h
      have hfin : ∀ (x s4 : State) (b2 : Bool),
          install cur a k pg.file_writable x = (b2, s4) →
          (match (b2, s4) with
            | (false, s5) => some (false, s5)
            | (true, s5) => some (true, pagedir_set_accessed s5 cur a true)) =
            some (true, s3) →
          s3.pagedir cur a = some ⟨k, pg.file_writable, true, false⟩ ∧ s3.mem = x.mem := by
        intro x s4 b2 hin hres
        rcases install_cases cur a k pg.file_writable x s4 b2 hin with ⟨rfl, -, rfl⟩ | ⟨rfl, rfl⟩
        · simp only [Option.some.injEq, Prod.mk.injEq, true_and] at hres
          subst hres
          constructor
          · simp [pagedir_set_accessed]
          · rfl
        · simp at hres
      by_cases hrb : pg.file_read_bytes > 0
      · rw [if_pos hrb] at h
        by_cases hbig : (file_read_at s2 file k pg.file_read_bytes pg.file_ofs).1 > PGSIZE
        · simp [hbig] at h
        · rw [if_neg hbig] at h
          by_cases hshort : pg.file_read_bytes ≠
              (file_read_at s2 file k pg.file_read_bytes pg.file_ofs).1
          · simp [hshort] at h
          · rw [if_neg hshort] at h
            have hlen : pg.file_read_bytes =
                (((s.files file).drop pg.file_ofs).take pg.file_read_bytes).length := by
              have := not_not.mp hshort
              simpa [file_read_at, hfiles] using this
            cases hin : install cur a k pg.file_writable
                (memset_tail (file_read_at s2 file k pg.file_read_bytes pg.file_ofs).2 k
                  pg.file_read_bytes) with
            | mk b2 s4 =>
              rw [hin] at h
              obtain ⟨hpd, hmem⟩ := hfin _ s4 b2 hin h
              refine ⟨k, hpd, by simp [pagedir_is_accessed, hpd], ?_, ?_⟩
              · intro o ho
                have ho2 : o < (((s.files file).drop pg.file_ofs).take
                    pg.file_read_bytes).length := by rw [← hlen]; exact ho
                rw [take_drop_getD _ _ _ _ ho2, hmem]
                have hno : ¬ (pg.file_read_bytes ≤ o ∧ o < PGSIZE) := by omega
                simp only [memset_tail, file_read_at, hfiles, true_and, hno, if_false, ho2,
                  if_true]
              · intro o ho1 ho2
                rw [hmem]
                simp [memset_tail, ho1, ho2]
      · rw [if_neg hrb] at h
        have hz : pg.file_read_bytes = 0 := by omega
        cases hin : install cur a k pg.file_writable s2 with
        | mk b2 s4 =>
          rw [hin] at h
          obtain ⟨hpd, hmem⟩ := hfin _ s4 b2 hin h
          refine ⟨k, hpd, by simp [pagedir_is_accessed, hpd], ?_, ?_⟩
          · intro o ho
            omega
          · intro o _ _
            rw [hmem]
            exact hzero (by simp [hz]) o

theorem page_load_file_success_witness :
    ∃ k, file_loaded.pagedir 1 10 = some ⟨k, false, true, false⟩ ∧
      pagedir_is_accessed file_loaded 1 10 = true ∧
      (∀ o, o < 4 → (file_ready.files 3)[2 + o]? = some (file_loaded.mem k o)) ∧
      (∀ o, 4 ≤ o → o < PGSIZE → file_loaded.mem k o = 0) :=
  page_load_file_success 1 1 10 file_ready file_loaded ⟨some 3, 2, 4, false, true, false, 0⟩ 3
    rfl rfl (by decide) rfl

/-! ## Failing loads -/

theorem install_fails (cur a k : Nat) (w : Bool) (s : State)
    (h : pagedir_get_page s cur a ≠ none ∨ s.pt_room cur a = false) :
    install cur a k w s = (false, frame_free k s) := by
  unfold install
  by_cases hg : pagedir_get_page s cur a = none
  · rw [if_pos hg]
    have hr : s.pt_room cur a = false := by
      rcases h with h | h
      · exact absurd hg h
      · exact h
    have hn : s.pagedir cur a = none := by
      unfold pagedir_get_page at hg
      cases hpd : s.pagedir cur a with
      | none => rfl
      | some e => simp [hpd] at hg
    simp [pagedir_set_page, hn, hr]
  · rw [if_neg hg]

/-- Freeing a pending frame takes it from the list, puts its page into the
pool and touches neither page table. -/
theorem pending_freed_table (cur a k : Nat) (s : State) (hp : alloc_pending cur k a s) :
    (∀ f ∈ (frame_free k s).frame_table, f.addr ≠ k) ∧
    (∀ f ∈ (frame_free k s).frame_table, f ∈ s.frame_table) ∧
    (frame_free k s).pool = k :: s.pool ∧
    (frame_free k s).page_table = s.page_table ∧
    (frame_free k s).pagedir = s.pagedir := by
  obtain ⟨old, htab, -, hnd, -, -⟩ := hp
  rw [htab, List.map_append] at hnd
  have hdis := List.disjoint_of_nodup_append hnd
  have hold : ∀ g ∈ old, g.addr ≠ k := by
    intro g hg hgk
    exact hdis (List.mem_map_of_mem (fun f => f.addr) hg) (by simp [hgk])
  have hff := frame_free_present k s old [] ⟨cur, k, a⟩ htab rfl hold
  rw [hff]
  refine ⟨?_, ?_, rfl, rfl, rfl⟩
  · intro f hf
    simp only [palloc_free_page, List.append_nil] at hf
    exact hold f hf
  · intro f hf
    simp only [palloc_free_page, List.append_nil] at hf
    rw [htab]
    exact List.mem_append_left _ hf

/-- C14, refuted as stated: in `file_resident` the address of page 10 is
mapped, yet `page_load_file` returns true, because `frame_alloc` evicts the
page's own frame first; and in `file_resident_short`, where the file read
comes out short, `page_load_file` returns false but the entry has become not
valid and the mapping that was there is gone. -/
theorem page_load_file_self_evict_counterexample :
    (frame_inv file_resident ∧ alloc_ok file_resident) ∧
    pagedir_get_page file_resident 1 10 = some 200 ∧
    (page_load_file 1 1 10 file_resident).map (fun r => r.1) = some true ∧
    pagedir_get_page file_resident_short 1 10 = some 200 ∧
    page_find file_resident_short 1 10 = some ⟨some 3, 2, 8, false, true, false, 0⟩ ∧
    (page_load_file 1 1 10 file_resident_short).map
        (fun r => (r.1, page_find r.2 1 10, pagedir_get_page r.2 1 10)) =
      some (false, some ⟨some 3, 2, 8, false, false, false, 0⟩, none) := by
  refine ⟨⟨?_, ?_⟩, ?_, ?_, ?_, ?_, ?_⟩
  · unfold frame_inv; decide
  · unfold alloc_ok; decide
  all_goals decide

/-- C14, amended: from a state with the frame invariant, for an entry of the
running thread that is backed by a file and asks for at most a page, when the
pool has a free page or the page has no frame of its own (so that
`frame_alloc` cannot evict this very page), once `frame_alloc` has returned
the page `k`: if the file has fewer bytes left than `file_read_bytes`, or the
address is mapped already, or the hardware page table has no room,
`page_load_file` returns false; the frame of `k` is not in the list any more
and no other frame came in, `k` is back in the pool, the entry is as it was,
and the entry of the hardware page table at the address is as it was. -/
theorem page_load_file_failure (cur a : Nat) (s s2 : State) (pg : page) (file k : Nat)
    (hi : frame_inv s) (ha : alloc_ok s)
    (hpg : page_find s cur a = some pg) (hfile : pg.file = some file)
    (hrb : pg.file_read_bytes ≤ PGSIZE)
    (hnf : s.pool ≠ [] ∨ ∀ f ∈ s.frame_table, ¬ (f.thread = cur ∧ f.upage = a))
    (hfa : frame_alloc cur a (pg.file_read_bytes == 0) s = some (some k, s2))
    (hfail : ((s.files file).drop pg.file_ofs).length < pg.file_read_bytes ∨
      pagedir_get_page s cur a ≠ none ∨ s.pt_room cur a = false) :
    ∃ s3, page_load_file cur cur a s = some (false, s3) ∧
      (∀ f ∈ s3.frame_table, f.addr ≠ k) ∧
      (∀ f ∈ s3.frame_table, f ∈ s.frame_table) ∧
      s3.pool = k :: s2.pool ∧
      page_find s3 cur a = some pg ∧
      s3.pagedir cur a = s.pagedir cur a := by
  unfold page_find at hpg
  have hp := frame_alloc_pending cur a _ s s2 k hi ha hfa
  obtain ⟨⟨front, hfr, hsub⟩, hfiles, hroom, -, -, hother, -, -, -⟩ :=
    frame_alloc_effect cur a _ s s2 k hfa
  obtain ⟨hpt2, hpd2⟩ : s2.page_table cur a = s.page_table cur a ∧
      s2.pagedir cur a = s.pagedir cur a := by
    rcases hnf with hne | hno
    · cases hpool : s.pool with
      | nil => exact absurd hpool hne
      | cons q rest =>
        rw [frame_alloc_of_free cur a _ s q rest hpool] at hfa
        simp only [Option.some.injEq, Prod.mk.injEq] at hfa
        obtain ⟨-, rfl⟩ := hfa
        simp [palloc_get_page, hpool]
    · exact hother cur a hno
  have hfn : ¬ (pg.file = none) := by rw [hfile]; simp
  have hfin : ∀ (x : State), x.frame_table = s2.frame_table → x.pagedir = s2.pagedir →
      x.pool = s2.pool → x.page_table = s2.page_table →
      (∀ f ∈ (frame_free k x).frame_table, f.addr ≠ k) ∧
      (∀ f ∈ (frame_free k x).frame_table, f ∈ s.frame_table) ∧
      (frame_free k x).pool = k :: s2.pool ∧
      page_find (frame_free k x) cur a = some pg ∧
      (frame_free k x).pagedir cur a = s.pagedir cur a := by
    intro x h1 h2 h3 h4
    have hpx : alloc_pending cur k a x :=
      alloc_pending_congr h1 (fun t u => by simp [pagedir_get_page, h2]) h3 hp
    obtain ⟨g1, g2, g3, g4, g5⟩ := pending_freed_table cur a k x hpx
    refine ⟨g1, ?_, by rw [g3, h3], ?_, ?_⟩
    · intro f hf
      have := g2 f hf
      rw [h1, hfr] at this
      rcases List.mem_append.mp this with h5 | h5
      · exact hsub f h5
      · simp only [List.mem_singleton] at h5
        exact absurd (by rw [h5]) (g1 f hf)
    · unfold page_find
      rw [g4, h4, hpt2, hpg]
    · rw [g5, h2, hpd2]
  have hinst : ∀ (x : State), x.pagedir = s2.pagedir → x.pt_room = s2.pt_room →
      ¬ (((s.files file).drop pg.file_ofs).length < pg.file_read_bytes) →
      install cur a k pg.file_writable x = (false, frame_free k x) := by
    intro x h2 h3 hlen
    apply install_fails
    rcases hfail with h | h | h
    · exact absurd h hlen
    · left
      have : pagedir_get_page x cur a = pagedir_get_page s cur a := by
        simp [pagedir_get_page, h2, hpd2]
      rw [this]; exact h
    · right
      rw [h3, hroom]; exact h
  rw [page_load_file_split]
  simp only [hpg, hfn, if_false, hfa]
  unfold page_load_file_rest
  simp only [hpt2, hpg, hfile]
  by_cases hpos : pg.file_read_bytes > 0
  · rw [if_pos hpos]
    have hn : (file_read_at s2 file k pg.file_read_bytes pg.file_ofs).1 =
        min pg.file_read_bytes ((s.files file).drop pg.file_ofs).length := by
      simp [file_read_at, hfiles]
    have hbig : ¬ ((file_read_at s2 file k pg.file_read_bytes pg.file_ofs).1 > PGSIZE) := by
      rw [hn]; omega
    simp only [hbig, if_false]
    by_cases hshort : pg.file_read_bytes ≠
        (file_read_at s2 file k pg.file_read_bytes pg.file_ofs).1
    · rw [if_pos hshort]
      exact ⟨_, rfl, hfin _ rfl rfl rfl rfl⟩
    · rw [if_neg hshort]
      have hlen : ¬ (((s.files file).drop pg.file_ofs).length < pg.file_read_bytes) := by
        have := not_not.mp hshort
        rw [hn] at this
        omega
      rw [hinst (memset_tail (file_read_at s2 file k pg.file_read_bytes pg.file_ofs).2 k
        pg.file_read_bytes) rfl rfl hlen]
      exact ⟨_, rfl, hfin _ rfl rfl rfl rfl⟩
  · rw [if_neg hpos]
    have hlen : ¬ (((s.files file).drop pg.file_ofs).length < pg.file_read_bytes) := by omega
    rw [hinst s2 rfl rfl hlen]
    exact ⟨_, rfl, hfin _ rfl rfl rfl rfl⟩

theorem page_load_file_failure_witness :
    ∃ s3, page_load_file 1 1 10 file_short = some (false, s3) ∧
      (∀ f ∈ s3.frame_table, f.addr ≠ 200) ∧
      (∀ f ∈ s3.frame_table, f ∈ file_short.frame_table) ∧
      s3.pool = 200 :: file_short_alloc.pool ∧
      page_find s3 1 10 = some ⟨some 3, 2, 8, false, true, false, 0⟩ ∧
      s3.pagedir 1 10 = file_short.pagedir 1 10 :=
  page_load_file_failure 1 10 file_short file_short_alloc ⟨some 3, 2, 8, false, true, false, 0⟩
    3 200 (by unfold frame_inv; decide) (by unfold alloc_ok; decide) rfl rfl (by decide)
    (Or.inl (by decide)) rfl (Or.inl (by decide))

/-! ## Every frame's page stays registered -/

theorem shrinks_refl (s : State) : shrinks s s :=
  ⟨fun _ hf => hf, fun _ _ h => h⟩

theorem shrinks_of_eq (s s1 : State) (h1 : s1.frame_table = s.frame_table)
    (h2 : s1.page_table = s.page_table) : shrinks s s1 :=
  ⟨fun f hf => by rw [h1] at hf; exact hf, fun t u h => by rw [h2]; exact h⟩

theorem shrinks_trans (s s1 s2 : State) (h1 : shrinks s s1) (h2 : shrinks s1 s2) :
    shrinks s s2 :=
  ⟨fun f hf => h1.1 f (h2.1 f hf), fun t u h => h2.2 t u (h1.2 t u h)⟩

theorem frames_registered_shrinks (s s1 : State) (h : shrinks s s1)
    (hreg : frames_registered s) : frames_registered s1 := by
  intro f hf
  exact h.2 f.thread f.upage (hreg f (h.1 f hf))

theorem frame_free_shrinks (k : Nat) (s : State) : shrinks s (frame_free k s) := by
  cases hl : frame_free_loop k s.frame_table with
  | none =>
    rw [frame_free_absent k s ((frame_free_loop_none k _).mp hl)]
    exact shrinks_refl s
  | some l1 =>
    obtain ⟨pre, f, post, htab, hfa, hpre, rfl⟩ := frame_free_loop_some k _ _ hl
    rw [frame_free_present k s pre post f htab hfa hpre]
    refine ⟨?_, fun t u h => h⟩
    intro g hg
    simp only [palloc_free_page] at hg
    rw [htab]
    rcases List.mem_append.mp hg with h1 | h1
    · exact List.mem_append_left _ h1
    · exact List.mem_append_right _ (List.mem_cons_of_mem _ h1)

theorem install_shrinks (cur a k : Nat) (w : Bool) (s s1 : State) (b : Bool)
    (h : install cur a k w s = (b, s1)) : shrinks s s1 := by
  rcases install_cases cur a k w s s1 b h with ⟨-, -, rfl⟩ | ⟨-, rfl⟩
  · exact shrinks_refl s
  · exact frame_free_shrinks k s

theorem frame_evict_shrinks (zero : Bool) (s s1 : State) (r : Option Nat)
    (h : frame_evict zero s = some (r, s1)) : shrinks s s1 := by
  obtain ⟨pre, post, L, v, pg, pg1, slots, htab, -, -, -, -, rfl, -⟩ :=
    frame_evict_full zero s s1 r h
  constructor
  · intro f hf
    simp only [evicted, clear_accessed_frame_table, htab] at hf
    rw [eraseIdx_middle] at hf
    rw [htab]
    rcases List.mem_append.mp hf with h1 | h1
    · exact List.mem_append_left _ h1
    · exact List.mem_append_right _ (List.mem_cons_of_mem _ h1)
  · intro t u hne
    by_cases hk : t = v.thread ∧ u = v.upage
    · simp [evicted, hk]
    · simpa [evicted, hk] using hne

/-- After `frame_alloc` for a registered page every frame's page is
registered. -/
theorem frame_alloc_registered (cur a : Nat) (zero : Bool) (s s2 : State) (k : Nat)
    (hreg : frames_registered s) (hent : s.page_table cur a ≠ none)
    (h : frame_alloc cur a zero s = some (some k, s2)) :
    frames_registered s2 ∧ ∀ t u, s.page_table t u ≠ none → s2.page_table t u ≠ none := by
  obtain ⟨⟨front, hfr, hsub⟩, -, -, -, -, -, hfields, -, -⟩ :=
    frame_alloc_effect cur a zero s s2 k h
  have hkept : ∀ t u, s.page_table t u ≠ none → s2.page_table t u ≠ none := by
    intro t u hne
    obtain ⟨pg, hpg⟩ := Option.ne_none_iff_exists'.mp hne
    obtain ⟨pg2, hpg2, -⟩ := hfields t u pg hpg
    rw [hpg2]
    simp
  refine ⟨?_, hkept⟩
  intro f hf
  rw [hfr] at hf
  rcases List.mem_append.mp hf with h1 | h1
  · exact hkept _ _ (hreg f (hsub f h1))
  · simp only [List.mem_singleton] at h1
    subst h1
    exact hkept _ _ hent

theorem page_load_zero_rest_shrinks (cur a k : Nat) (s2 s1 : State) (b : Bool)
    (h : page_load_zero_rest cur a (some k) s2 = some (b, s1)) : shrinks s2 s1 := by
  unfold page_load_zero_rest at h
  cases hin : install cur a k true s2 with
  | mk b2 s3 =>
    have h3 := install_shrinks cur a k true s2 s3 b2 hin
    cases b2 with
    | false =>
      simp only [hin, Option.some.injEq, Prod.mk.injEq] at h
      obtain ⟨-, rfl⟩ := h
      exact h3
    | true =>
      simp only [hin, Option.some.injEq, Prod.mk.injEq] at h
      obtain ⟨-, rfl⟩ := h
      exact shrinks_trans _ _ _ h3 (shrinks_of_eq _ _ rfl rfl)

theorem page_load_file_rest_shrinks (cur tbl a k : Nat) (s2 s1 : State) (b : Bool)
    (h : page_load_file_rest cur tbl a (some k) s2 = some (b, s1)) : shrinks s2 s1 := by
  unfold page_load_file_rest at h
  cases hpt2 : s2.page_table tbl a with
  | none => simp [hpt2] at h
  | some pg =>
    simp only [hpt2] at h
    have hfin : ∀ (x s4 : State) (b2 : Bool), shrinks s2 x →
        install cur a k pg.file_writable x = (b2, s4) →
        (match (b2, s4) with
          | (false, s5) => some (false, s5)
          | (true, s5) => some (true, pagedir_set_accessed s5 cur a true)) =
          some (b, s1) →
        shrinks s2 s1 := by
      intro x s4 b2 hx hin hres
      have h4 := shrinks_trans _ _ _ hx (install_shrinks cur a k pg.file_writable x s4 b2 hin)
      cases b2 with
      | false =>
        simp only [Option.some.injEq, Prod.mk.injEq] at hres
        obtain ⟨-, rfl⟩ := hres
        exact h4
      | true =>
        simp only [Option.some.injEq, Prod.mk.injEq] at hres
        obtain ⟨-, rfl⟩ := hres
        exact shrinks_trans _ _ _ h4 (shrinks_of_eq _ _ rfl rfl)
    by_cases hrb : pg.file_read_bytes > 0
    · rw [if_pos hrb] at h
      cases hfl : pg.file with
      | none => simp [hfl] at h
      | some file =>
        simp only [hfl] at h
        by_cases hbig : (file_read_at s2 file k pg.file_read_bytes pg.file_ofs).1 > PGSIZE
        · simp [hbig] at h
        · rw [if_neg hbig] at h
          by_cases hshort : pg.file_read_bytes ≠
              (file_read_at s2 file k pg.file_read_bytes pg.file_ofs).1
          · rw [if_pos hshort] at h
            simp only [Option.some.injEq, Prod.mk.injEq] at h
            obtain ⟨-, rfl⟩ := h
            exact shrinks_trans _ _ _ (shrinks_of_eq s2 _ rfl rfl) (frame_free_shrinks k _)
          · rw [if_neg hshort] at h
            cases hin : install cur a k pg.file_writable
                (memset_tail (file_read_at s2 file k pg.file_read_bytes pg.file_ofs).2 k
                  pg.file_read_bytes) with
            | mk b2 s4 =>
              rw [hin] at h
              exact hfin (memset_tail (file_read_at s2 file k pg.file_read_bytes pg.file_ofs).2 k
                pg.file_read_bytes) s4 b2 (shrinks_of_eq s2 _ rfl rfl) hin h
    · rw [if_neg hrb] at h
      cases hin : install cur a k pg.file_writable s2 with
      | mk b2 s4 =>
        rw [hin] at h
        exact hfin _ s4 b2 (shrinks_refl s2) hin h

theorem page_load_swap_rest_shrinks (cur tbl a k : Nat) (s2 s1 : State) (b : Bool)
    (h : page_load_swap_rest cur tbl a (some k) s2 = some (b, s1)) : shrinks s2 s1 := by
  unfold page_load_swap_rest at h
  cases hpt2 : s2.page_table tbl a with
  | none => simp [hpt2] at h
  | some pg =>
    simp only [hpt2] at h
    cases hv : pg.valid with
    | true => simp [hv] at h
    | false =>
      simp only [hv, Bool.false_eq_true, if_false] at h
      cases hsi : swap_in s2 pg.swap_idx k with
      | none => simp [hsi] at h
      | some s3 =>
        obtain ⟨f1, -, -, f4, -⟩ := swap_in_fields s2 s3 _ _ hsi
        simp only [hsi] at h
        cases hin : install cur a k true s3 with
        | mk b2 s4 =>
          have h4 := shrinks_trans _ _ _ (shrinks_of_eq s2 s3 f1 f4)
            (install_shrinks cur a k true s3 s4 b2 hin)
          cases b2 with
          | false =>
            simp only [hin, Option.some.injEq, Prod.mk.injEq] at h
            obtain ⟨-, rfl⟩ := h
            exact h4
          | true =>
            simp only [hin, Option.some.injEq, Prod.mk.injEq] at h
            obtain ⟨-, rfl⟩ := h
            refine shrinks_trans _ _ _ h4 ⟨fun f hf => hf, ?_⟩
            intro t u hne
            by_cases hk : t = tbl ∧ u = a
            · simp [hk]
            · simpa [hk, pagedir_set_accessed, pagedir_set_dirty] using hne

theorem page_insert_shrinks (cur a : Nat) (fresh : page) (s : State) :
    shrinks s (page_insert cur a fresh s).2 := by
  unfold page_insert
  cases hpt : s.page_table cur a with
  | some old => exact shrinks_refl s
  | none =>
    refine ⟨fun f hf => hf, ?_⟩
    intro t u hne
    by_cases hk : t = cur ∧ u = a
    · simp [hk]
    · simpa [hk] using hne

theorem page_load_zero_registered (cur a : Nat) (s s1 : State) (b : Bool)
    (hreg : frames_registered s) (h : page_load_zero cur cur a s = some (b, s1)) :
    frames_registered s1 := by
  rw [page_load_zero_split] at h
  cases hpt : s.page_table cur a with
  | none => simp [hpt] at h
  | some pg =>
    cases hfa : frame_alloc cur a true s with
    | none => simp [hpt, hfa] at h
    | some res =>
      obtain ⟨kp, s2⟩ := res
      cases kp with
      | none => exact absurd hfa (frame_alloc_never_null cur a true s s2)
      | some k =>
        simp only [hpt, hfa] at h
        have h2 := (frame_alloc_registered cur a true s s2 k hreg (by rw [hpt]; simp) hfa).1
        exact frames_registered_shrinks s2 s1 (page_load_zero_rest_shrinks cur a k s2 s1 b h) h2

theorem page_load_file_registered (cur a : Nat) (s s1 : State) (b : Bool)
    (hreg : frames_registered s) (h : page_load_file cur cur a s = some (b, s1)) :
    frames_registered s1 := by
  rw [page_load_file_split] at h
  cases hpt : s.page_table cur a with
  | none => simp [hpt] at h
  | some pg =>
    simp only [hpt] at h
    by_cases hfile : pg.file = none
    · simp [hfile] at h
    · rw [if_neg hfile] at h
      cases hfa : frame_alloc cur a (pg.file_read_bytes == 0) s with
      | none => simp [hfa] at h
      | some res =>
        obtain ⟨kp, s2⟩ := res
        cases kp with
        | none => exact absurd hfa (frame_alloc_never_null cur a _ s s2)
        | some k =>
          simp only [hfa] at h
          have h2 := (frame_alloc_registered cur a _ s s2 k hreg (by rw [hpt]; simp) hfa).1
          exact frames_registered_shrinks s2 s1
            (page_load_file_rest_shrinks cur cur a k s2 s1 b h) h2

theorem page_load_swap_registered (cur a : Nat) (s s1 : State) (b : Bool)
    (hreg : frames_registered s) (h : page_load_swap cur cur a s = some (b, s1)) :
    frames_registered s1 := by
  rw [page_load_swap_split] at h
  cases hpt : s.page_table cur a with
  | none => simp [hpt] at h
  | some pg =>
    cases hfa : frame_alloc cur a false s with
    | none => simp [hpt, hfa] at h
    | some res =>
      obtain ⟨kp, s2⟩ := res
      cases kp with
      | none => exact absurd hfa (frame_alloc_never_null cur a false s s2)
      | some k =>
        simp only [hpt, hfa] at h
        have h2 := (frame_alloc_registered cur a false s s2 k hreg (by rw [hpt]; simp) hfa).1
        exact frames_registered_shrinks s2 s1
          (page_load_swap_rest_shrinks cur cur a k s2 s1 b h) h2

/-- In every state the subsystem goes through, every frame's page has an entry
in the supplemental page table of the frame's thread. -/
theorem reach_registered (s : State) (h : Reach s) : frames_registered s := by
  induction h with
  | init s h1 _ _ =>
    intro f hf
    rw [h1] at hf
    simp at hf
  | insert s cur a fresh _ ih =>
    exact frames_registered_shrinks s _ (page_insert_shrinks cur a fresh s) ih
  | load_zero s cur a b s1 _ _ _ hop ih => exact page_load_zero_registered cur a s s1 b ih hop
  | load_file s cur a b s1 _ _ _ hop ih => exact page_load_file_registered cur a s s1 b ih hop
  | load_swap s cur a b s1 _ hop ih => exact page_load_swap_registered cur a s s1 b ih hop
  | evict s zero r s1 _ hop ih =>
    exact frames_registered_shrinks s s1 (frame_evict_shrinks zero s s1 r hop) ih
  | free s a _ ih => exact frames_registered_shrinks s _ (frame_free_shrinks a s) ih
  | hw_read s t u _ ih =>
    exact frames_registered_shrinks s _ (shrinks_of_eq s _ rfl rfl) ih
  | hw_write s t u _ ih =>
    exact frames_registered_shrinks s _ (shrinks_of_eq s _ rfl rfl) ih


/-! ## The swap store and the supplemental page tables -/

theorem swap_inv_congr (s s1 : State) (h1 : s1.page_table = s.page_table)
    (h2 : s1.swap_slots = s.swap_slots) (h : swap_inv s) : swap_inv s1 := by
  unfold swap_inv at h ⊢
  rw [h1, h2]
  exact h

theorem frame_free_swap_slots (a : Nat) (s : State) :
    (frame_free a s).swap_slots = s.swap_slots := by
  unfold frame_free
  cases frame_free_loop a s.frame_table <;> rfl

/-- The two ways `frame_alloc` returns: with the page at the head of the pool,
or, the pool being empty, with the page `frame_evict` returned. -/
theorem frame_alloc_cases (cur a : Nat) (zero : Bool) (s sA : State) (kp : Option Nat)
    (h : frame_alloc cur a zero s = some (kp, sA)) :
    (∃ q rest, s.pool = q :: rest ∧ kp = some q ∧
      sA = { (palloc_get_page zero s).2 with
        frame_table := s.frame_table ++ [⟨cur, q, a⟩] }) ∨
    (∃ p s2, s.pool = [] ∧ frame_evict zero s = some (some p, s2) ∧ kp = some p ∧
      sA = { s2 with frame_table := s2.frame_table ++ [⟨cur, p, a⟩] }) := by
  cases hp : s.pool with
  | cons q rest =>
    rw [frame_alloc_of_free cur a zero s q rest hp] at h
    simp only [Option.some.injEq, Prod.mk.injEq] at h
    exact Or.inl ⟨q, rest, rfl, h.1.symm, h.2.symm⟩
  | nil =>
    cases he : frame_evict zero s with
    | none =>
      unfold frame_alloc at h
      simp [palloc_get_page, hp, he] at h
    | some res =>
      obtain ⟨r, s3⟩ := res
      obtain ⟨pre, post, L, v, pg0, pg1, slots, -, -, -, -, rfl, -, -⟩ :=
        frame_evict_full zero s s3 r he
      rw [frame_alloc_of_evict cur a zero s s3 v.addr hp he] at h
      simp only [Option.some.injEq, Prod.mk.injEq] at h
      exact Or.inr ⟨v.addr, s3, rfl, rfl, h.1.symm, h.2.symm⟩

/-- An eviction keeps the swap store and the supplemental page tables in
agreement: the slot it takes was free. -/
theorem swap_inv_evict (zero : Bool) (s s1 : State) (r : Option Nat)
    (hs : swap_inv s) (h : frame_evict zero s = some (r, s1)) : swap_inv s1 := by
  obtain ⟨pre, post, L, v, pg, pg1, slots, -, -, -, hpg, -, rfl, hcase⟩ :=
    frame_evict_full zero s s1 r h
  unfold page_find at hpg
  rcases hcase with ⟨-, rfl, rfl⟩ | ⟨-, idx, -, hfree, rfl, rfl⟩
  · have key : ∀ t u e,
        (evicted zero v pre.length { pg with loaded := false } s.swap_slots
          (clear_accessed L s)).page_table t u = some e →
        ∃ e0, s.page_table t u = some e0 ∧ e0.valid = e.valid ∧
          e0.swap_idx = e.swap_idx := by
      intro t u e he
      by_cases hk : t = v.thread ∧ u = v.upage
      · obtain ⟨rfl, rfl⟩ := hk
        simp only [evicted, and_self, if_true, Option.some.injEq] at he
        subst he
        exact ⟨pg, hpg, rfl, rfl⟩
      · simp only [evicted, hk, if_false, clear_accessed_page_table] at he
        exact ⟨e, he, rfl, rfl⟩
    intro t u e he hv
    obtain ⟨e0, h0, hv0, hi0⟩ := key t u e he
    have h1 := hs t u e0 h0 (hv0.trans hv)
    refine ⟨?_, ?_⟩
    · rw [← hi0]
      simpa [evicted] using h1.1
    · intro t1 u1 e1 he1 hv1 heq
      obtain ⟨e10, h10, hv10, hi10⟩ := key t1 u1 e1 he1
      exact h1.2 t1 u1 e10 h10 (hv10.trans hv1) (by rw [hi10, heq, hi0])
  · have key : ∀ t u e,
        (evicted zero v pre.length { pg with valid := false, swap_idx := idx }
          (fun j => if j = idx then some (s.mem v.addr) else s.swap_slots j)
          (clear_accessed L s)).page_table t u = some e →
        (t = v.thread ∧ u = v.upage ∧ e.swap_idx = idx) ∨
        (¬ (t = v.thread ∧ u = v.upage) ∧ s.page_table t u = some e) := by
      intro t u e he
      by_cases hk : t = v.thread ∧ u = v.upage
      · obtain ⟨rfl, rfl⟩ := hk
        simp only [evicted, and_self, if_true, Option.some.injEq] at he
        subst he
        exact Or.inl ⟨rfl, rfl, rfl⟩
      · simp only [evicted, hk, if_false, clear_accessed_page_table] at he
        exact Or.inr ⟨hk, he⟩
    intro t u e he hv
    rcases key t u e he with ⟨rfl, rfl, hidx⟩ | ⟨hk, h0⟩
    · refine ⟨by simp [evicted, hidx], ?_⟩
      intro t1 u1 e1 he1 hv1 heq
      rcases key t1 u1 e1 he1 with ⟨rfl, rfl, -⟩ | ⟨-, h10⟩
      · exact ⟨rfl, rfl⟩
      · have := (hs t1 u1 e1 h10 hv1).1
        rw [heq, hidx, hfree] at this
        exact absurd rfl this
    · have h1 := hs t u e h0 hv
      refine ⟨?_, ?_⟩
      · simp only [evicted]
        split
        · simp
        · exact h1.1
      · intro t1 u1 e1 he1 hv1 heq
        rcases key t1 u1 e1 he1 with ⟨rfl, rfl, hidx1⟩ | ⟨-, h10⟩
        · have := h1.1
          rw [← heq, hidx1, hfree] at this
          exact absurd rfl this
        · exact h1.2 t1 u1 e1 h10 hv1 heq

theorem swap_inv_alloc (cur a : Nat) (zero : Bool) (s sA : State) (kp : Option Nat)
    (hs : swap_inv s) (h : frame_alloc cur a zero s = some (kp, sA)) : swap_inv sA := by
  rcases frame_alloc_cases cur a zero s sA kp h with
    ⟨q, rest, hp, -, rfl⟩ | ⟨p, s2, -, he, -, rfl⟩
  · exact swap_inv_congr s _ (by simp [palloc_get_page, hp]) (by simp [palloc_get_page, hp]) hs
  · exact swap_inv_congr s2 _ rfl rfl (swap_inv_evict zero s s2 _ hs he)

/-! ## What the loads do after `frame_alloc` -/

theorem install_fields (cur a k : Nat) (w : Bool) (s s1 : State) (b : Bool)
    (h : install cur a k w s = (b, s1)) :
    s1.page_table = s.page_table ∧ s1.swap_slots = s.swap_slots ∧
    ∀ t1 u1, ¬ (t1 = cur ∧ u1 = a) → s1.pagedir t1 u1 = s.pagedir t1 u1 := by
  rcases install_cases cur a k w s s1 b h with ⟨-, -, rfl⟩ | ⟨-, rfl⟩
  · exact ⟨rfl, rfl, fun t1 u1 hk => by simp [hk]⟩
  · exact ⟨(frame_free_fields k s).1, frame_free_swap_slots k s,
      fun t1 u1 _ => by rw [(frame_free_fields k s).2]⟩

theorem set_accessed_pagedir_other (s : State) (t u : Nat) (b : Bool) (t1 u1 : Nat)
    (hk : ¬ (t1 = t ∧ u1 = u)) :
    (pagedir_set_accessed s t u b).pagedir t1 u1 = s.pagedir t1 u1 := by
  simp [pagedir_set_accessed, hk]

theorem set_dirty_pagedir_other (s : State) (t u : Nat) (b : Bool) (t1 u1 : Nat)
    (hk : ¬ (t1 = t ∧ u1 = u)) :
    (pagedir_set_dirty s t u b).pagedir t1 u1 = s.pagedir t1 u1 := by
  simp [pagedir_set_dirty, hk]

/-- After `frame_alloc`, `page_load_zero` leaves the supplemental page tables
and the swap store as they are, and the hardware page tables too but at the
address it loads. -/
theorem page_load_zero_rest_fields (cur a : Nat) (kp : Option Nat) (sA s1 : State) (b : Bool)
    (h : page_load_zero_rest cur a kp sA = some (b, s1)) :
    s1.page_table = sA.page_table ∧ s1.swap_slots = sA.swap_slots ∧
    ∀ t1 u1, ¬ (t1 = cur ∧ u1 = a) → s1.pagedir t1 u1 = sA.pagedir t1 u1 := by
  unfold page_load_zero_rest at h
  cases kp with
  | none =>
    simp only [Option.some.injEq, Prod.mk.injEq] at h
    obtain ⟨-, rfl⟩ := h
    exact ⟨rfl, rfl, fun _ _ _ => rfl⟩
  | some k =>
    simp only at h
    cases hin : install cur a k true sA with
    | mk b2 s3 =>
      obtain ⟨f1, f2, f3⟩ := install_fields cur a k true sA s3 b2 hin
      cases b2 with
      | false =>
        simp only [hin, Option.some.injEq, Prod.mk.injEq] at h
        obtain ⟨-, rfl⟩ := h
        exact ⟨f1, f2, f3⟩
      | true =>
        simp only [hin, Option.some.injEq, Prod.mk.injEq] at h
        obtain ⟨-, rfl⟩ := h
        exact ⟨f1, f2, fun t1 u1 hk => by
          rw [set_accessed_pagedir_other _ _ _ _ _ _ hk]; exact f3 t1 u1 hk⟩

/-- After `frame_alloc`, `page_load_file` leaves the supplemental page tables
and the swap store as they are, and the hardware page tables too but at the
address it loads. -/
theorem page_load_file_rest_fields (cur tbl a : Nat) (kp : Option Nat) (sA s1 : State)
    (b : Bool) (h : page_load_file_rest cur tbl a kp sA = some (b, s1)) :
    s1.page_table = sA.page_table ∧ s1.swap_slots = sA.swap_slots ∧
    ∀ t1 u1, ¬ (t1 = cur ∧ u1 = a) → s1.pagedir t1 u1 = sA.pagedir t1 u1 := by
  unfold page_load_file_rest at h
  cases kp with
  | none =>
    simp only [Option.some.injEq, Prod.mk.injEq] at h
    obtain ⟨-, rfl⟩ := h
    exact ⟨rfl, rfl, fun _ _ _ => rfl⟩
  | some k =>
    simp only at h
    cases hpt2 : sA.page_table tbl a with
    | none => simp [hpt2] at h
    | some pg =>
      simp only [hpt2] at h
      have hfin : ∀ (x s4 : State) (b2 : Bool),
          x.page_table = sA.page_table → x.swap_slots = sA.swap_slots →
          x.pagedir = sA.pagedir →
          install cur a k pg.file_writable x = (b2, s4) →
          (match (b2, s4) with
            | (false, s5) => some (false, s5)
            | (true, s5) => some (true, pagedir_set_accessed s5 cur a true)) =
            some (b, s1) →
          s1.page_table = sA.page_table ∧ s1.swap_slots = sA.swap_slots ∧
          ∀ t1 u1, ¬ (t1 = cur ∧ u1 = a) → s1.pagedir t1 u1 = sA.pagedir t1 u1 := by
        intro x s4 b2 hx1 hx2 hx3 hin hres
        obtain ⟨f1, f2, f3⟩ := install_fields cur a k pg.file_writable x s4 b2 hin
        cases b2 with
        | false =>
          simp only [Option.some.injEq, Prod.mk.injEq] at hres
          obtain ⟨-, rfl⟩ := hres
          exact ⟨f1.trans hx1, f2.trans hx2, fun t1 u1 hk => by rw [f3 t1 u1 hk, hx3]⟩
        | true =>
          simp only [Option.some.injEq, Prod.mk.injEq] at hres
          obtain ⟨-, rfl⟩ := hres
          exact ⟨f1.trans hx1, f2.trans hx2, fun t1 u1 hk => by
            rw [set_accessed_pagedir_other _ _ _ _ _ _ hk, f3 t1 u1 hk, hx3]⟩
      by_cases hrb : pg.file_read_bytes > 0
      · rw [if_pos hrb] at h
        cases hfl : pg.file with
        | none => simp [hfl] at h
        | some file =>
          simp only [hfl] at h
          by_cases hbig : (file_read_at sA file k pg.file_read_bytes pg.file_ofs).1 > PGSIZE
          · simp [hbig] at h
          · rw [if_neg hbig] at h
            by_cases hshort : pg.file_read_bytes ≠
                (file_read_at sA file k pg.file_read_bytes pg.file_ofs).1
            · rw [if_pos hshort] at h
              simp only [Option.some.injEq, Prod.mk.injEq] at h
              obtain ⟨-, rfl⟩ := h
              exact ⟨(frame_free_fields k _).1, frame_free_swap_slots k _,
                fun t1 u1 _ => by rw [(frame_free_fields k _).2]; rfl⟩
            · rw [if_neg hshort] at h
              cases hin : install cur a k pg.file_writable
                  (memset_tail (file_read_at sA file k pg.file_read_bytes pg.file_ofs).2 k
                    pg.file_read_bytes) with
              | mk b2 s4 =>
                rw [hin] at h
                exact hfin (memset_tail
                  (file_read_at sA file k pg.file_read_bytes pg.file_ofs).2 k
                  pg.file_read_bytes) s4 b2 rfl rfl rfl hin h
      · rw [if_neg hrb] at h
        cases hin : install cur a k pg.file_writable sA with
        | mk b2 s4 =>
          rw [hin] at h
          exact hfin sA s4 b2 rfl rfl rfl hin h

/-- After `frame_alloc`, a successful `page_load_swap` releases the slot its
entry records, marks that entry valid, and leaves every other entry of the
supplemental page tables as it is, and the hardware page tables too but at the
address it loads. -/
theorem page_load_swap_rest_fields (cur tbl a : Nat) (kp : Option Nat) (sA s1 : State)
    (h : page_load_swap_rest cur tbl a kp sA = some (true, s1)) :
    ∃ pg, sA.page_table tbl a = some pg ∧ pg.valid = false ∧
      sA.swap_slots pg.swap_idx ≠ none ∧
      s1.swap_slots = (fun j => if j = pg.swap_idx then none else sA.swap_slots j) ∧
      s1.page_table = (fun t u =>
        if t = tbl ∧ u = a then some { pg with valid := true } else sA.page_table t u) ∧
      ∀ t1 u1, ¬ (t1 = cur ∧ u1 = a) → s1.pagedir t1 u1 = sA.pagedir t1 u1 := by
  unfold page_load_swap_rest at h
  cases hpt2 : sA.page_table tbl a with
  | none => simp [hpt2] at h
  | some pg =>
    simp only [hpt2] at h
    cases hv : pg.valid with
    | true => simp [hv] at h
    | false =>
      simp only [hv, Bool.false_eq_true, if_false] at h
      cases kp with
      | none => simp at h
      | some k =>
        simp only at h
        cases hsl : sA.swap_slots pg.swap_idx with
        | none => simp [swap_in, hsl] at h
        | some d =>
          have hsi : swap_in sA pg.swap_idx k = some
              { sA with
                mem := fun q => if q = k then d else sA.mem q
                swap_slots := fun j => if j = pg.swap_idx then none else sA.swap_slots j } := by
            simp [swap_in, hsl]
          simp only [hsi] at h
          cases hin : install cur a k true
              { sA with
                mem := fun q => if q = k then d else sA.mem q
                swap_slots := fun j => if j = pg.swap_idx then none else sA.swap_slots j } with
          | mk b2 s4 =>
            obtain ⟨f1, f2, f3⟩ := install_fields cur a k true _ s4 b2 hin
            cases b2 with
            | false => simp [hin] at h
            | true =>
              simp only [hin, Option.some.injEq, Prod.mk.injEq, true_and] at h
              subst h
              refine ⟨pg, rfl, hv, by rw [hsl]; simp, ?_, ?_, ?_⟩
              · simpa [pagedir_set_accessed, pagedir_set_dirty] using f2
              · funext t u
                by_cases hk : t = tbl ∧ u = a
                · simp [hk]
                · simp [hk, pagedir_set_accessed, pagedir_set_dirty, f1]
              · intro t1 u1 hk
                simp only []
                rw [set_accessed_pagedir_other _ _ _ _ _ _ hk,
                  set_dirty_pagedir_other _ _ _ _ _ _ hk]
                exact f3 t1 u1 hk

theorem page_load_zero_parts (t tbl u : Nat) (s s1 : State) (b : Bool)
    (h : page_load_zero t tbl u s = some (b, s1)) :
    ∃ kp sA, frame_alloc t u true s = some (kp, sA) ∧
      page_load_zero_rest t u kp sA = some (b, s1) := by
  rw [page_load_zero_split] at h
  cases hpt : s.page_table tbl u with
  | none => simp [hpt] at h
  | some pg =>
    cases hfa : frame_alloc t u true s with
    | none => simp [hpt, hfa] at h
    | some res =>
      obtain ⟨kp, sA⟩ := res
      simp only [hpt, hfa] at h
      exact ⟨kp, sA, rfl, h⟩

theorem page_load_file_parts (t tbl u : Nat) (s s1 : State) (b : Bool)
    (h : page_load_file t tbl u s = some (b, s1)) :
    ∃ zero kp sA, frame_alloc t u zero s = some (kp, sA) ∧
      page_load_file_rest t tbl u kp sA = some (b, s1) := by
  rw [page_load_file_split] at h
  cases hpt : s.page_table tbl u with
  | none => simp [hpt] at h
  | some pg =>
    simp only [hpt] at h
    by_cases hf : pg.file = none
    · simp [hf] at h
    · rw [if_neg hf] at h
      cases hfa : frame_alloc t u (pg.file_read_bytes == 0) s with
      | none => simp [hfa] at h
      | some res =>
        obtain ⟨kp, sA⟩ := res
        simp only [hfa] at h
        exact ⟨_, kp, sA, hfa, h⟩

theorem page_load_swap_parts (t tbl u : Nat) (s s1 : State) (b : Bool)
    (h : page_load_swap t tbl u s = some (b, s1)) :
    ∃ kp sA, frame_alloc t u false s = some (kp, sA) ∧
      page_load_swap_rest t tbl u kp sA = some (b, s1) := by
  rw [page_load_swap_split] at h
  cases hpt : s.page_table tbl u with
  | none => simp [hpt] at h
  | some pg =>
    cases hfa : frame_alloc t u false s with
    | none => simp [hpt, hfa] at h
    | some res =>
      obtain ⟨kp, sA⟩ := res
      simp only [hpt, hfa] at h
      exact ⟨kp, sA, rfl, h⟩

theorem swap_inv_load_zero (t tbl u : Nat) (s s1 : State) (b : Bool) (hs : swap_inv s)
    (h : page_load_zero t tbl u s = some (b, s1)) : swap_inv s1 := by
  obtain ⟨kp, sA, hfa, hrest⟩ := page_load_zero_parts t tbl u s s1 b h
  obtain ⟨f1, f2, -⟩ := page_load_zero_rest_fields t u kp sA s1 b hrest
  exact swap_inv_congr sA s1 f1 f2 (swap_inv_alloc t u true s sA kp hs hfa)

theorem swap_inv_load_file (t tbl u : Nat) (s s1 : State) (b : Bool) (hs : swap_inv s)
    (h : page_load_file t tbl u s = some (b, s1)) : swap_inv s1 := by
  obtain ⟨zero, kp, sA, hfa, hrest⟩ := page_load_file_parts t tbl u s s1 b h
  obtain ⟨f1, f2, -⟩ := page_load_file_rest_fields t tbl u kp sA s1 b hrest
  exact swap_inv_congr sA s1 f1 f2 (swap_inv_alloc t u zero s sA kp hs hfa)

/-- A successful load from swap keeps the swap store and the supplemental
page tables in agreement: the slot it releases was recorded by the entry it
marks valid, and by no other. -/
theorem swap_inv_load_swap (t tbl u : Nat) (s s1 : State) (hs : swap_inv s)
    (h : page_load_swap t tbl u s = some (true, s1)) : swap_inv s1 := by
  obtain ⟨kp, sA, hfa, hrest⟩ := page_load_swap_parts t tbl u s s1 true h
  have hA := swap_inv_alloc t u false s sA kp hs hfa
  obtain ⟨pg, hpg, hv, -, f2, f1, -⟩ := page_load_swap_rest_fields t tbl u kp sA s1 hrest
  have key : ∀ t1 u1 e, s1.page_table t1 u1 = some e → e.valid = false →
      ¬ (t1 = tbl ∧ u1 = u) ∧ sA.page_table t1 u1 = some e := by
    intro t1 u1 e he hve
    rw [f1] at he
    by_cases hk : t1 = tbl ∧ u1 = u
    · simp only [hk, and_self, if_true, Option.some.injEq] at he
      subst he
      simp at hve
    · simp only [hk, if_false] at he
      exact ⟨hk, he⟩
  intro t1 u1 e he hve
  obtain ⟨hk, h0⟩ := key t1 u1 e he hve
  have h1 := hA t1 u1 e h0 hve
  refine ⟨?_, ?_⟩
  · rw [f2]
    have hne : e.swap_idx ≠ pg.swap_idx := by
      intro heq
      have := h1.2 tbl u pg hpg hv heq.symm
      exact hk ⟨this.1.symm, this.2.symm⟩
    simpa [hne] using h1.1
  · intro t2 u2 e2 he2 hv2 heq
    obtain ⟨-, h20⟩ := key t2 u2 e2 he2 hv2
    exact h1.2 t2 u2 e2 h20 hv2 heq

theorem swap_inv_insert (t u : Nat) (fresh : page) (s : State) (hs : swap_inv s) :
    swap_inv (page_insert t u fresh s).2 := by
  unfold page_insert
  cases hpt : s.page_table t u with
  | some old => exact hs
  | none =>
    have key : ∀ t1 u1 e,
        (if t1 = t ∧ u1 = u then some { fresh with file := none, valid := true }
          else s.page_table t1 u1) = some e → e.valid = false →
        s.page_table t1 u1 = some e := by
      intro t1 u1 e he hve
      by_cases hk : t1 = t ∧ u1 = u
      · simp only [hk, and_self, if_true, Option.some.injEq] at he
        subst he
        simp at hve
      · simpa [hk] using he
    intro t1 u1 e he hve
    have h0 := key t1 u1 e he hve
    have h1 := hs t1 u1 e h0 hve
    exact ⟨h1.1, fun t2 u2 e2 he2 hv2 heq => h1.2 t2 u2 e2 (key t2 u2 e2 he2 hv2) hv2 heq⟩

/-! ## A store by a user process -/

theorem store_byte_none (s : State) (t u o v : Nat) (h : s.pagedir t u = none) :
    store_byte s t u o v = s := by
  unfold store_byte
  simp [h]

theorem store_byte_read_only (s : State) (t u o v : Nat) (e : pte)
    (h : s.pagedir t u = some e) (hw : e.writable = false) :
    store_byte s t u o v = s := by
  unfold store_byte
  simp [h, hw]

theorem store_byte_writable (s : State) (t u o v : Nat) (e : pte)
    (h : s.pagedir t u = some e) (hw : e.writable = true) :
    store_byte s t u o v =
      { pagedir_set_dirty (pagedir_set_accessed s t u true) t u true with
        mem := fun q x => if q = e.kpage ∧ x = o then v else s.mem q x } := by
  unfold store_byte
  simp [h, hw]

theorem store_byte_fields (s : State) (t u o v : Nat) :
    (store_byte s t u o v).frame_table = s.frame_table ∧
    (store_byte s t u o v).pool = s.pool ∧
    (store_byte s t u o v).page_table = s.page_table ∧
    (store_byte s t u o v).swap_slots = s.swap_slots ∧
    (∀ t1 u1, ¬ (t1 = t ∧ u1 = u) →
      (store_byte s t u o v).pagedir t1 u1 = s.pagedir t1 u1) ∧
    (s.pagedir t u = none → (store_byte s t u o v).pagedir t u = none) ∧
    (∀ pe, s.pagedir t u = some pe →
      ∃ pe1, (store_byte s t u o v).pagedir t u = some pe1 ∧ pe1.kpage = pe.kpage ∧
        (pe.dirty = true → pe1.dirty = true)) := by
  cases hpd : s.pagedir t u with
  | none =>
    rw [store_byte_none s t u o v hpd]
    exact ⟨rfl, rfl, rfl, rfl, fun _ _ _ => rfl, fun _ => hpd, fun pe h => by simp at h⟩
  | some e =>
    cases hw : e.writable with
    | false =>
      rw [store_byte_read_only s t u o v e hpd hw]
      refine ⟨rfl, rfl, rfl, rfl, fun _ _ _ => rfl, fun h => by simp at h, ?_⟩
      intro pe hpe
      exact ⟨pe, by rw [hpd, hpe], rfl, fun x => x⟩
    | true =>
      rw [store_byte_writable s t u o v e hpd hw]
      refine ⟨rfl, rfl, rfl, rfl, ?_, fun h => by simp at h, ?_⟩
      · intro t1 u1 hk
        simp [pagedir_set_dirty, pagedir_set_accessed, hk]
      · intro pe hpe
        simp only [Option.some.injEq] at hpe
        subst hpe
        exact ⟨{ e with accessed := true, dirty := true },
          by simp [pagedir_set_dirty, pagedir_set_accessed, hpd], rfl, fun _ => rfl⟩

theorem store_byte_get_page (s : State) (t u o v t1 u1 : Nat) :
    pagedir_get_page (store_byte s t u o v) t1 u1 = pagedir_get_page s t1 u1 := by
  obtain ⟨-, -, -, -, h5, h6, h7⟩ := store_byte_fields s t u o v
  unfold pagedir_get_page
  by_cases hk : t1 = t ∧ u1 = u
  · obtain ⟨rfl, rfl⟩ := hk
    cases hpd : s.pagedir t1 u1 with
    | none => rw [h6 hpd]
    | some pe =>
      obtain ⟨pe1, h8, h9, -⟩ := h7 pe hpd
      rw [h8]
      simp [h9]
  · rw [h5 t1 u1 hk]

/-! ## Every step keeps the invariants -/

/-- Every step keeps the frame invariant, the agreement of frame table and
allocator, and the agreement of swap store and supplemental page tables. -/
theorem step_inv (l : Option (Nat × Nat)) (s s1 : State) (h : Step l s s1)
    (hi : frame_inv s) (ha : alloc_ok s) (hs : swap_inv s) :
    frame_inv s1 ∧ alloc_ok s1 ∧ swap_inv s1 := by
  cases h with
  | insert _ t u fresh =>
    have h1 : (page_insert t u fresh s).2.frame_table = s.frame_table := by
      unfold page_insert
      cases s.page_table t u <;> rfl
    have h2 : (page_insert t u fresh s).2.pagedir = s.pagedir := by
      unfold page_insert
      cases s.page_table t u <;> rfl
    have h3 : (page_insert t u fresh s).2.pool = s.pool := by
      unfold page_insert
      cases s.page_table t u <;> rfl
    exact ⟨frame_inv_congr s _ h1 (fun t1 u1 => by simp [pagedir_get_page, h2]) hi,
      alloc_ok_congr s _ h1 h3 ha, swap_inv_insert t u fresh s hs⟩
  | load_zero _ t u b _ h =>
    obtain ⟨h1, h2⟩ := page_load_zero_inv t t u s s1 b hi ha h
    exact ⟨h1, h2, swap_inv_load_zero t t u s s1 b hs h⟩
  | load_file _ t u b _ h =>
    obtain ⟨h1, h2⟩ := page_load_file_inv t t u s s1 b hi ha h
    exact ⟨h1, h2, swap_inv_load_file t t u s s1 b hs h⟩
  | load_swap _ t u _ h =>
    obtain ⟨h1, h2⟩ := page_load_swap_inv t t u s s1 true hi ha h
    exact ⟨h1, h2, swap_inv_load_swap t t u s s1 hs h⟩
  | evict _ zero r _ h =>
    obtain ⟨h1, h2⟩ := frame_evict_inv zero s s1 r hi ha h
    exact ⟨h1, h2, swap_inv_evict zero s s1 r hs h⟩
  | free _ k =>
    obtain ⟨h1, h2⟩ := frame_free_inv k s hi ha
    exact ⟨h1, h2, swap_inv_congr s _ (frame_free_fields k s).1 (frame_free_swap_slots k s) hs⟩
  | hw_read _ t u =>
    obtain ⟨h1, h2⟩ := inv_set_accessed s t u true ⟨hi, ha⟩
    exact ⟨h1, h2, swap_inv_congr s _ rfl rfl hs⟩
  | hw_write _ t u o v =>
    obtain ⟨f1, f2, f3, f4, -, -, -⟩ := store_byte_fields s t u o v
    exact ⟨frame_inv_congr s _ f1 (fun t1 u1 => store_byte_get_page s t u o v t1 u1) hi,
      alloc_ok_congr s _ f1 f2 ha, swap_inv_congr s _ f3 f4 hs⟩

/-! ## What a step does to one page -/

/-- A state with no frame, no entry in a supplemental page table and a pool
that lists no page twice satisfies the three invariants. -/
theorem init_inv (s : State) (h1 : s.frame_table = []) (h2 : ∀ t a, s.page_table t a = none)
    (h3 : s.pool.Nodup) : frame_inv s ∧ alloc_ok s ∧ swap_inv s := by
  refine ⟨?_, ?_, ?_⟩
  · unfold frame_inv
    rw [h1]
    exact ⟨fun f hf => by simp at hf, by simp⟩
  · unfold alloc_ok
    rw [h1]
    exact ⟨by simp, fun f hf => by simp at hf, h3⟩
  · intro t u e he
    rw [h2] at he
    exact Option.noConfusion he

/-- Every run of steps keeps the three invariants. -/
theorem run_inv (s s1 : State)
    (h : Relation.ReflTransGen (fun x y => ∃ l, Step l x y) s s1)
    (hi : frame_inv s) (ha : alloc_ok s) (hs : swap_inv s) :
    frame_inv s1 ∧ alloc_ok s1 ∧ swap_inv s1 := by
  induction h with
  | refl => exact ⟨hi, ha, hs⟩
  | tail _ hstep ih =>
    obtain ⟨l, hl⟩ := hstep
    exact step_inv l _ _ hl ih.1 ih.2.1 ih.2.2

/-- A load from swap that fails at the installation of the mapping has read
the slot and released it: the entry still has `valid` false and records a slot
that holds nothing, so the swap store and the supplemental page tables do not
agree any more. -/
theorem page_load_swap_failed_example :
    page_load_swap 1 1 10 trip_no_room = some (false, trip_no_room_failed) ∧
    page_find trip_no_room_failed 1 10 = some ⟨none, 0, 0, false, false, true, 0⟩ ∧
    trip_no_room_failed.swap_slots 0 = none ∧
    ¬ swap_inv trip_no_room_failed :=
  ⟨rfl, by decide, rfl, fun h => (h 1 10 ⟨none, 0, 0, false, false, true, 0⟩ rfl rfl).1 rfl⟩
end Pintos
